import Mathlib

/-!
wclang: a shallow embedding of `src/wclang.cpp` and `src/wclang.h`.

C strings are modelled as lists of characters; the terminating NUL is the end
of the list.  A NULL-terminated `char **` vector is a list of C strings.
Functions keep the names they have in the source.
-/

namespace Wclang

/-- A C string (`const char *` / `std::string`): its characters up to the NUL. -/
abbrev CStr := List Char

/-! ## libc string primitives -/

/-- Reading `s[i]` gives the terminating NUL: `!s[i]`, for `i` within the string
or at its end. -/
def isnul (s : CStr) (i : Nat) : Bool := decide (s.length ≤ i)

/-- `!std::strcmp(a, b)`. -/
def strcmp (a b : CStr) : Bool := decide (a = b)

/-- `!std::strncmp(a, b, n)`: the first `n` characters agree, the comparison
stopping early where both strings end together. -/
def strncmp : CStr → CStr → Nat → Bool
  | _, _, 0 => true
  | [], [], _ + 1 => true
  | a :: as, b :: bs, n + 1 => a == b && strncmp as bs n
  | _, _, _ + 1 => false

/-- `std::strstr(s, needle)` as the offset of the first occurrence. -/
def strstr (s needle : CStr) : Option Nat :=
  match s with
  | [] => if needle = [] then some 0 else none
  | c :: cs =>
    if needle.isPrefixOf (c :: cs) then some 0
    else (strstr cs needle).map (· + 1)

/-- `std::strrchr(s, c)` as the suffix of `s` that starts at the last `c`. -/
def strrchr (s : CStr) (c : Char) : Option CStr :=
  match s with
  | [] => none
  | x :: xs =>
    match strrchr xs c with
    | some r => some r
    | none => if x = c then some (x :: xs) else none

/-- `std::strchr(s, c)` as the offset of the first `c`. -/
def strchr (s : CStr) (c : Char) : Option Nat :=
  match s with
  | [] => none
  | x :: xs => if x = c then some 0 else (strchr xs c).map (· + 1)

/-- `isspace` in the C locale. -/
def isspace (c : Char) : Bool :=
  c == ' ' || c == '\t' || c == '\n' || c == '\x0b' || c == '\x0c' || c == '\r'

/-- The digit loop of `atoi`: accumulate decimal digits, stop at the first
character that is not one. -/
def atoidigits : CStr → Int → Int
  | [], acc => acc
  | c :: cs, acc =>
    if c.isDigit then atoidigits cs (acc * 10 + ((c.toNat : Int) - 48)) else acc

/-- Arithmetic of `int`: 32-bit two's complement wrap-around. -/
def wrapint (x : Int) : Int := (x + 2147483648) % 4294967296 - 2147483648

/-- The number a text denotes for `strtol` in base 10: leading white space, an
optional sign, decimal digits. -/
def strtolvalue (s : CStr) : Int :=
  match s.dropWhile isspace with
  | '-' :: r => - atoidigits r 0
  | '+' :: r => atoidigits r 0
  | r => atoidigits r 0

/-- The range of a 64-bit `long`: a value outside it is held at `LONG_MAX` or
`LONG_MIN`. -/
def longclamp (v : Int) : Int :=
  if v > 9223372036854775807 then 9223372036854775807
  else if v < -9223372036854775808 then -9223372036854775808
  else v

/-- `strtol(s, NULL, 10)` with a 64-bit `long`. -/
def strtol (s : CStr) : Int := longclamp (strtolvalue s)

/-- `atoi`: `(int) strtol(s, NULL, 10)`; the conversion to `int` wraps, so
"2147483648" reads as -2147483648. -/
def atoi (s : CStr) : Int := wrapint (strtol s)

/-- `operator<<(std::ostream&, int)`: decimal rendering. -/
def itoa : Int → CStr
  | Int.ofNat n => (Nat.repr n).toList
  | Int.negSucc n => '-' :: (Nat.repr (n + 1)).toList

/-- `toupper` in the C locale. -/
def toupper (c : Char) : Char := c.toUpper

/-- `tolower` in the C locale. -/
def tolower (c : Char) : Char := c.toLower

/-! ## Supported targets (wclang.cpp 43-76) -/

def TARGET_WIN32 : Int := 0
def TARGET_WIN64 : Int := 1

def TARGET32 : List CStr :=
  [ "i686-w64-mingw32".toList,
    "i686-w64-mingw32.static".toList,
    "i686-w64-mingw32.shared".toList,
    "i686-pc-mingw32".toList,
    "i586-mingw32".toList,
    "i586-mingw32msvc".toList,
    "i486-mingw32".toList ]

def TARGET64 : List CStr :=
  [ "x86_64-w64-mingw32".toList,
    "x86_64-w64-mingw32.static".toList,
    "x86_64-w64-mingw32.shared".toList,
    "amd64-mingw32msvc".toList ]

def ENVVARS : List CStr :=
  [ "AR".toList, "AS".toList, "CPP".toList, "DLLTOOL".toList, "DLLWRAP".toList,
    "ELFEDIT".toList, "GCOV".toList, "GNAT".toList, "LD".toList, "NM".toList,
    "OBJCOPY".toList, "OBJDUMP".toList, "RANLIB".toList, "READELF".toList,
    "SIZE".toList, "STRINGS".toList, "STRIP".toList, "WINDMC".toList,
    "WINDRES".toList ]

def COMMANDPREFIX : CStr := "-wc-".toList

def CXXINCLUDEBASE : List CStr :=
  [ "/usr".toList, "/usr/lib/gcc".toList, "/usr/local/include/c++".toList,
    "/usr/include/c++".toList, "/opt".toList ]

def STDINCLUDEBASE : List CStr :=
  [ "/usr".toList, "/usr/local".toList, "/opt".toList ]

/-! ## Version model (wclang.h 77-157, wclang.cpp 646-673) -/

/-- `struct compilerversion`; `s` is the `char[12]` copy of the parsed text. -/
structure compilerversion where
  major : Int := 0
  minor : Int := 0
  patch : Int := 0
  s : CStr := []
deriving DecidableEq, Repr

abbrev compilerver := compilerversion

namespace compilerversion

/-- `constexpr compilerversion(int major, int minor, int patch = 0)`. -/
def mk3 (major minor patch : Int) : compilerversion :=
  { major := major, minor := minor, patch := patch, s := [] }

/-- `num()`: `major * 10000 + minor * 100 + patch`, in `int`. -/
def num (v : compilerversion) : Int :=
  wrapint (v.major * 10000 + v.minor * 100 + v.patch)

/-- `operator>`. -/
def gt (a cv : compilerversion) : Bool := decide (a.num > cv.num)
/-- `operator>=`. -/
def ge (a cv : compilerversion) : Bool := decide (a.num ≥ cv.num)
/-- `operator<`. -/
def lt (a cv : compilerversion) : Bool := decide (a.num < cv.num)
/-- `operator<=`. -/
def le (a cv : compilerversion) : Bool := decide (a.num ≤ cv.num)
/-- `operator==`. -/
def eq (a cv : compilerversion) : Bool := decide (a.num = cv.num)
/-- `operator!=`. -/
def ne (a cv : compilerversion) : Bool := decide (a.num ≠ cv.num)

/-- `str()`: "major.minor.patch". -/
def str (v : compilerversion) : CStr :=
  itoa v.major ++ '.' :: (itoa v.minor ++ '.' :: itoa v.patch)

/-- `shortstr()`: "major.minor". -/
def shortstr (v : compilerversion) : CStr :=
  itoa v.major ++ '.' :: itoa v.minor

end compilerversion

/-- The loop `while (*p && *p++ != '.');`: `p` moves past the first '.', or to
the end of the string when there is none. -/
def skipdot : CStr → CStr
  | [] => []
  | c :: cs => if c = '.' then cs else skipdot cs

/-- `parsecompilerversion` (wclang.cpp 646-673). `strncpy(ver.s, text, 11)` into
the zeroed `char[12]` keeps the first eleven characters. -/
def parsecompilerversion (text : CStr) : compilerver :=
  let ver : compilerver := { major := atoi text, s := text.take 11 }
  let p := skipdot text
  if p = [] then ver
  else
    let ver := { ver with minor := atoi p }
    let p := skipdot p
    if p = [] then ver
    else { ver with patch := atoi p }

/-! ## Target triple of an invocation name (wclang.cpp 526-553) -/

/-- `findtriple(name, targettype)`: the matching triple (or `nullptr`) and the
value of the reference parameter `targettype` afterwards. -/
def findtriple (name : CStr) (targettype : Int) : Option CStr × Int :=
  match strstr name "-clang".toList with
  | none => (none, targettype)
  | some len =>
    match TARGET32.find? (fun target => strncmp target name len && isnul target len) with
    | some target => (some target, TARGET_WIN32)
    | none =>
      match TARGET64.find? (fun target => strncmp target name len && isnul target len) with
      | some target => (some target, TARGET_WIN64)
      | none => (none, targettype)

/-! ## Output name suffix (wclang.cpp 555-611) -/

/-- The part of `appendexetooutputname` that runs once the output token `arg`
and its `filename` are known: `none` when the function returns without a
change, else the token with ".exe" appended and the line written to
`std::cerr`.  `rest` are the tokens after `arg`. -/
def appendexe_at (arg filename : CStr) (rest : List CStr) : Option (CStr × CStr) :=
  let suffix := strrchr filename '.'
  let known :=
    match suffix with
    | some suffix =>
      strcmp suffix ".exe".toList || strcmp suffix ".dll".toList || strcmp suffix ".S".toList
    | none => false
  if known then none
  else if rest.any (fun p => strcmp p "-c".toList) then none
  else
    some (arg ++ ".exe".toList,
      "wclang: appending \".exe\" to output filename \"".toList ++ filename ++ "\"\n".toList)

/-- `appendexetooutputname(cargs)`: the vector afterwards and what was written
to `std::cerr`.  (The `realloc` is taken to succeed.) -/
def appendexetooutputname : List CStr → List CStr × CStr
  | [] => ([], [])
  | arg :: rest =>
    if strncmp arg "-o".toList 2 then
      if isnul arg 2 then
        -- `!*++arg || **arg == '-'`: the output name is the next token
        match rest with
        | [] => (arg :: rest, [])
        | nxt :: rest2 =>
          if nxt.head? = some '-' then (arg :: rest, [])
          else
            let filename := if strncmp nxt "-o".toList 2 then nxt.drop 2 else nxt
            match appendexe_at nxt filename rest2 with
            | none => (arg :: rest, [])
            | some (nxt2, msg) => (arg :: nxt2 :: rest2, msg)
      else
        let filename := if strncmp arg "-o".toList 2 then arg.drop 2 else arg
        match appendexe_at arg filename rest with
        | none => (arg :: rest, [])
        | some (arg2, msg) => (arg2 :: rest, msg)
    else if strcmp arg "-c".toList then (arg :: rest, [])
    else
      let r := appendexetooutputname rest
      (arg :: r.1, r.2)

/-! ## The build configuration and the operating system -/

/-- The macros of `config.h` (not among the sources) and the predefined
platform macros the code tests. -/
structure config where
  PACKAGE_NAME : CStr
  PACKAGE_VERSION : CStr
  PACKAGE_BUGREPORT : CStr
  CLANG_TARGET_OPT : CStr
  /-- `#ifdef MINGW_PATH`: its value when defined. -/
  MINGW_PATH : Option CStr
  HAVE_UNSETENV : Bool
  NO_SYS_PATH : Bool
  /-- `__FILE__` in wclang.cpp. -/
  FILE : CStr
  CYGWIN : Bool
  x86_64 : Bool
  linux : Bool
  i386 : Bool
  APPLE : Bool

/-- The process environment: `getenv`. -/
abbrev environ := CStr → Option CStr

/-- `setenv(var, val, 1)`. -/
def setenv (e : environ) (var val : CStr) : environ :=
  fun v => if v = var then some val else e v

/-- `unsetenv(var)`. -/
def unsetenv (e : environ) (var : CStr) : environ :=
  fun v => if v = var then none else e v

/-- What the run observes of the operating system. -/
structure world where
  /-- `stat(path, &st)`: `none` when it fails, else whether `S_ISDIR(st.st_mode)`. -/
  stat : CStr → Option Bool
  /-- `opendir`/`readdir`: the entry names in the order returned, `none` when
  `opendir` fails. -/
  readdir : CStr → Option (List CStr)
  /-- `wcrealpath(file, result, access-check, ignoreccache)` for a value of
  PATH: the resolved path left in `result`, empty when nothing is found. -/
  wcrealpath : Option CStr → CStr → CStr
  /-- `popen(command, "r")`, `fread` and `pclose`: the bytes read and the exit
  status, `none` when `popen` fails. -/
  popen : CStr → Option (CStr × Int)
  /-- `isatty(fileno(stderr))`. -/
  isatty : Bool
  /-- Whether `execvp(file, argv)` replaces the process image. -/
  execvp : CStr → List CStr → Bool
  /-- The lines `printtimes()` writes (wall-clock measurements). -/
  times : CStr

/-- `std::cout` and `std::cerr`, as the text written so far. -/
structure streams where
  cout : CStr := []
  cerr : CStr := []
deriving DecidableEq, Repr

/-- `std::cout << text`. -/
def streams.out (io : streams) (text : CStr) : streams := { io with cout := io.cout ++ text }

/-- `std::cerr << text`. -/
def streams.err (io : streams) (text : CStr) : streams := { io with cerr := io.cerr ++ text }

/-- How a piece of the program ends: it falls through with a value, the
process ends with an exit status (`std::exit`, or `return` from `main`), or the
process is terminated abnormally (uncaught exception, null dereference). -/
inductive result (α : Type) where
  | ok : α → result α
  | exit : Int → streams → result α
  | abort : result α

def EXIT_SUCCESS : Int := 0
def EXIT_FAILURE : Int := 1

/-- `enum optimize` (wclang.h 159-166). -/
def optimize.LEVEL_0 : Int := 0
def optimize.LEVEL_1 : Int := 1
def optimize.LEVEL_3 : Int := 2
def optimize.FAST : Int := 3
def optimize.SIZE_1 : Int := 4
def optimize.SIZE_2 : Int := 5

/-- `enum class subsystem` (wclang.h 168-174). -/
inductive subsystem where
  | standard
  | use_mingw_linker
  | windows
  | dll
  | console
deriving DecidableEq, Repr

/-- `struct commandargs` (wclang.h 176-213); the reference members are held by
value. -/
structure commandargs where
  verbose : Bool := false
  clangversion : compilerver := {}
  mingwversion : compilerver := {}
  intrinpaths : List CStr := []
  stdpaths : List CStr := []
  cxxpaths : List CStr := []
  cflags : List CStr := []
  cxxflags : List CStr := []
  linkerflags : List CStr := []
  target : CStr := []
  compiler : CStr := []
  compilerpath : CStr := []
  compilerbinpath : CStr := []
  env : List CStr := []
  args : List CStr := []
  iscxx : Bool := false
  appendexe : Bool := false
  iscompilestep : Bool := false
  islinkstep : Bool := false
  nointrinsics : Bool := false
  exceptions : Int := -1
  optimizationlevel : Int := 0
  usemingwlinker : subsystem := subsystem.standard

/-! ## Files and directories (wclang.cpp 675-741) -/

/-- `fileexists(file)`. -/
def fileexists (w : world) (file : CStr) : Bool := (w.stat file).isSome

/-- `isdirectory(file, prefix)` with a prefix. -/
def isdirectory (w : world) (file pfx : CStr) : Bool :=
  w.stat (pfx ++ "/".toList ++ file) = some true

/-- `listfiles(dir, &files, cmp)`: `none` when the directory cannot be opened,
else the entries kept: those not starting with '.' that pass `cmp`. -/
def listfiles (w : world) (dir : CStr) (cmp : Option (CStr → CStr → Bool)) :
    Option (List CStr) :=
  match w.readdir dir with
  | none => none
  | some names =>
    some (names.filter (fun name =>
      !(name.head? == some '.' || strcmp name "..".toList)
        && (match cmp with
            | none => true
            | some f => f dir name)))

/-- The last element of the vector after `std::sort(v.begin(), v.end())` under
`operator<`: a version of greatest `num()`.  Among several of equal `num()`
the model takes the last of the listing, as a stable sort does. -/
def sortedlast : List compilerver → compilerver → compilerver
  | [], best => best
  | v :: vs, best => sortedlast vs (if v.lt best then best else v)

/-- `findlatestcompilerversion(dir, cmp)`. -/
def findlatestcompilerversion (w : world) (dir : CStr)
    (cmp : Option (CStr → CStr → Bool)) : compilerver :=
  match listfiles w dir cmp with
  | none => {}
  | some dirs =>
    match dirs.map parsecompilerversion with
    | [] => {}
    | v :: vs => sortedlast vs v

/-! ## C++ header discovery (wclang.cpp 104-289) -/

/-- The lambda `checkmingwheaders(dir, file)`: `dir file / target` exists. -/
def checkmingwheaders (w : world) (target dir file : CStr) : Bool :=
  (w.stat (dir ++ file ++ "/".toList ++ target)).isSome

/-- The lambda `checkheaderdir(cxxheaderdir)`: the directory holds `iostream`. -/
def checkheaderdir (w : world) (cxxheaderdir : CStr) : Bool :=
  (w.stat (cxxheaderdir ++ "/".toList ++ "iostream".toList)).isSome

/-- The lambda `addheaderdir(cxxheaderdir, mingw)`, on `cxxpaths`. -/
def addheaderdir (target : CStr) (cmdargs : commandargs) (cxxheaderdir : CStr)
    (mingw : Bool) : commandargs :=
  let cmdargs := { cmdargs with cxxpaths := cmdargs.cxxpaths ++ [cxxheaderdir] }
  if mingw then
    { cmdargs with cxxpaths := cmdargs.cxxpaths ++ [cxxheaderdir ++ "/".toList ++ target] }
  else cmdargs

/-- The loop over `stdpaths` in the lambda `findheaders` (152-188). -/
def findcxx_stdpaths (w : world) (target : CStr) :
    List CStr → commandargs → Bool × commandargs
  | [], cmdargs => (false, cmdargs)
  | stddir :: rest, cmdargs =>
    let cxxheaders := stddir ++ "/c++".toList ++ "/".toList
    if checkheaderdir w cxxheaders then (true, addheaderdir target cmdargs cxxheaders true)
    else
      let mv := findlatestcompilerversion w cxxheaders none
      let cmdargs := { cmdargs with mingwversion := mv }
      if mv.num = 0 then findcxx_stdpaths w target rest cmdargs
      else
        let cxxheaders := cxxheaders ++ mv.s
        if checkheaderdir w cxxheaders then (true, addheaderdir target cmdargs cxxheaders true)
        else findcxx_stdpaths w target rest cmdargs

/-- The first loop over `CXXINCLUDEBASE` (191-215): root/base/version. -/
def findcxx_base1 (w : world) (target root : CStr) :
    List CStr → commandargs → Bool × commandargs
  | [], cmdargs => (false, cmdargs)
  | cxxinclude :: rest, cmdargs =>
    let cxxheaders := root ++ cxxinclude ++ "/".toList
    let mv := findlatestcompilerversion w cxxheaders (some (checkmingwheaders w target))
    let cmdargs := { cmdargs with mingwversion := mv }
    if mv.num = 0 then findcxx_base1 w target root rest cmdargs
    else
      let cxxheaders := cxxheaders ++ mv.s
      if checkheaderdir w cxxheaders then (true, addheaderdir target cmdargs cxxheaders true)
      else findcxx_base1 w target root rest cmdargs

/-- The second loop over `CXXINCLUDEBASE` (217-247):
root/base/target/version/include/c++ and root/base/target/. -/
def findcxx_base2 (w : world) (target root : CStr) :
    List CStr → commandargs → Bool × commandargs
  | [], cmdargs => (false, cmdargs)
  | cxxinclude :: rest, cmdargs =>
    let cxxheaders := root ++ cxxinclude ++ "/".toList ++ target ++ "/".toList
    let mv := findlatestcompilerversion w cxxheaders (some (checkmingwheaders w target))
    let cmdargs := { cmdargs with mingwversion := mv }
    if mv.num = 0 then findcxx_base2 w target root rest cmdargs
    else
      let mingwheaders := cxxheaders
      let cxxheaders := cxxheaders ++ mv.s ++ "/include/c++".toList
      if checkheaderdir w cxxheaders then
        (true, addheaderdir target (addheaderdir target cmdargs cxxheaders false)
          mingwheaders false)
      else findcxx_base2 w target root rest cmdargs

/-- The third loop over `CXXINCLUDEBASE` (249-278). -/
def findcxx_base3 (w : world) (target root : CStr) :
    List CStr → commandargs → Bool × commandargs
  | [], cmdargs => (false, cmdargs)
  | cxxinclude :: rest, cmdargs =>
    let cxxheaders := root ++ cxxinclude ++ "/".toList ++ target ++ "/".toList
    let mv := findlatestcompilerversion w cxxheaders none
    let cmdargs := { cmdargs with mingwversion := mv }
    if mv.num = 0 then findcxx_base3 w target root rest cmdargs
    else
      let cxxheaders := cxxheaders ++ mv.s ++ "/include/c++".toList
      if !checkmingwheaders w target cxxheaders [] then findcxx_base3 w target root rest cmdargs
      else if checkheaderdir w cxxheaders then
        (true, addheaderdir target cmdargs cxxheaders true)
      else findcxx_base3 w target root rest cmdargs

/-- The lambda `findheaders` of `findcxxheaders`, for a value of `root`. -/
def findcxx_findheaders (cfg : config) (w : world) (target root : CStr)
    (cmdargs : commandargs) : Bool × commandargs :=
  let r := findcxx_stdpaths w target cmdargs.stdpaths cmdargs
  if r.1 then r
  else if cfg.NO_SYS_PATH then (false, r.2)
  else
    let r := findcxx_base1 w target root CXXINCLUDEBASE r.2
    if r.1 then r
    else
      let r := findcxx_base2 w target root CXXINCLUDEBASE r.2
      if r.1 then r
      else findcxx_base3 w target root CXXINCLUDEBASE r.2

/-- `findcxxheaders(target, cmdargs)`.  The function-local static `_target` is
the `target` of the first call; every call of the program passes the same
text.  `stdpaths[0]` is read as empty when there is no element. -/
def findcxxheaders (cfg : config) (w : world) (target : CStr) (cmdargs : commandargs) :
    Bool × commandargs :=
  let root := cmdargs.stdpaths.headD [] ++ "/../../..".toList
  let r := findcxx_findheaders cfg w target root cmdargs
  if r.1 then r
  else findcxx_findheaders cfg w target [] r.2

/-! ## Intrinsic header discovery (wclang.cpp 291-405) -/

/-- The lambda `checkdir` inside the directory callback of `trydir`: `dir`
holds `xmmintrin.h`; a version above the best so far replaces it and its
directory.  The state is `(*clangversion, pathtmp)`. -/
def intrin_checkdir (w : world) (cv : compilerver) (dir : CStr)
    (st : compilerver × CStr) : Bool × (compilerver × CStr) :=
  if fileexists w (dir ++ "/xmmintrin.h".toList) then
    (true, if cv.gt st.1 then (cv, dir) else st)
  else (false, st)

/-- The directory callback of `trydir`, for one entry `file` of `dir`. -/
def intrin_callback (w : world) (dir file : CStr) (st : compilerver × CStr) :
    compilerver × CStr :=
  if file.head? ≠ some '.' && isdirectory w file dir then
    let cv := parsecompilerversion file
    if cv.ne {} then
      let r := intrin_checkdir w cv (dir ++ "/".toList ++ file ++ "/include".toList) st
      if !r.1 then (intrin_checkdir w cv (dir ++ "/".toList ++ file) r.2).2
      else r.2
    else st
  else st

/-- The lambda `trydir` of `findintrinheaders`. -/
def intrin_trydir (w : world) (dir : CStr) (st : compilerver × CStr) :
    Bool × (compilerver × CStr) :=
  let st :=
    match w.readdir dir with
    | none => st
    | some names =>
      (names.filter (fun name => !(name.head? == some '.' || strcmp name "..".toList))).foldl
        (fun st file => intrin_callback w dir file st) st
  (st.1.ne {}, st)

/-- The directories the `TRYDIR` lines name, in order, for this platform. -/
def intrindirs (cfg : config) (clangbindir : CStr) : List CStr :=
  (if cfg.CYGWIN then
      [clangbindir ++ (if cfg.x86_64 then "/../lib/clang/x86_64-pc-cygwin".toList
        else "/../lib/clang/i686-pc-cygwin".toList)]
    else [])
  ++ [clangbindir ++ "/../lib/clang".toList]
  ++ (if cfg.linux then
        (if cfg.x86_64 then [clangbindir ++ "/../lib64/clang".toList]
          else if cfg.i386 then [clangbindir ++ "/../lib32/clang".toList]
          else [])
      else [])
  ++ (if cfg.APPLE then
        ["/Library/Developer/CommandLineTools/usr/lib/clang".toList,
          "/Applications/Contents/Developer/Toolchains/XcodeDefault.xctoolchain/usr/lib/clang".toList]
      else [])
  ++ [clangbindir ++ "/../include/clang".toList, clangbindir ++ "/usr/include/clang".toList]

/-- The sequence of `TRYDIR`s: the first directory whose `trydir` succeeds. -/
def intrin_trydirs (w : world) : List CStr → compilerver × CStr → Bool × (compilerver × CStr)
  | [], st => (false, st)
  | dir :: rest, st =>
    let r := intrin_trydir w dir st
    if r.1 then r else intrin_trydirs w rest r.2

/-- `findintrinheaders(cmdargs, clangbindir)`. -/
def findintrinheaders (cfg : config) (w : world) (cmdargs : commandargs)
    (clangbindir : CStr) : Bool × commandargs :=
  let r := intrin_trydirs w (intrindirs cfg clangbindir) ({}, [])
  let cmdargs := { cmdargs with clangversion := r.2.1 }
  if r.1 then (true, { cmdargs with intrinpaths := cmdargs.intrinpaths ++ [r.2.2] })
  else (false, cmdargs)

/-! ## Standard C header discovery (wclang.cpp 407-524) -/

/-- The lambda `trydir` of `findstdheader`. -/
def std_trydir (w : world) (cmdargs : commandargs) (dir : CStr) : Bool × commandargs :=
  if w.stat dir = some true then
    if (w.stat (dir ++ "/stdlib.h".toList)).isNone then (false, cmdargs)
    else (true, { cmdargs with stdpaths := cmdargs.stdpaths ++ [dir] })
  else (false, cmdargs)

/-- The lambda `checkdir` of `findstdheader`. -/
def std_checkdir (w : world) (target : CStr) (cmdargs : commandargs) (stdinclude : CStr) :
    Bool × commandargs :=
  let r := std_trydir w cmdargs (stdinclude ++ "/".toList ++ target ++ "/include".toList)
  if r.1 then r
  else
    let r := std_trydir w r.2
      (stdinclude ++ "/".toList ++ target ++ "/sys-root/mingw/include".toList)
    if r.1 then r
    else std_trydir w r.2 (stdinclude ++ "/usr/".toList ++ target ++ "/include".toList)

/-- The entries the loop of `checkpath` reads from the list `p`: a ':' at the
start of a round is skipped, then the characters up to the next ':' or the
end are taken. -/
def pathsplit : CStr → CStr → List CStr
  | [], acc => [acc.reverse]
  | c :: cs, acc => if c = ':' then acc.reverse :: pathsplit cs [] else pathsplit cs (c :: acc)

def pathentries (p : CStr) : List CStr :=
  pathsplit (if p.head? = some ':' then p.tail else p) []

/-- `if (path.find_last_of("/bin") != npos) path.resize(path.size() - 4)`:
`find_last_of` looks for any one of the characters '/', 'b', 'i', 'n'.  With
fewer than four characters `size() - 4` wraps around and `resize` throws
`std::length_error`: `none`. -/
def stripbin (path : CStr) : Option CStr :=
  if path.any (fun c => c ∈ "/bin".toList) then
    if 4 ≤ path.length then some (path.take (path.length - 4)) else none
  else some path

/-- The rounds of the lambda `checkpath` over the entries of the list. -/
def std_checkentries (w : world) (target : CStr) :
    List CStr → commandargs → Option (Bool × commandargs)
  | [], cmdargs => some (false, cmdargs)
  | entry :: rest, cmdargs =>
    match stripbin entry with
    | none => none
    | some path =>
      let r := std_checkdir w target cmdargs path
      if r.1 then some r else std_checkentries w target rest r.2

/-- The lambda `checkpath` of `findstdheader`. -/
def std_checkpath (w : world) (target : CStr) (cmdargs : commandargs) (p : CStr) :
    Option (Bool × commandargs) :=
  std_checkentries w target (pathentries p) cmdargs

/-- The loop over `STDINCLUDEBASE`. -/
def std_bases (w : world) (target : CStr) : List CStr → commandargs → Bool × commandargs
  | [], cmdargs => (false, cmdargs)
  | stdinclude :: rest, cmdargs =>
    let r := std_checkdir w target cmdargs stdinclude
    if r.1 then r else std_bases w target rest r.2

/-- `findstdheader(target, cmdargs)`; `none` when an exception ends the run. -/
def findstdheader (cfg : config) (w : world) (env : environ) (target : CStr)
    (cmdargs : commandargs) : Option (Bool × commandargs) :=
  let sys (cmdargs : commandargs) : Bool × commandargs :=
    if cfg.NO_SYS_PATH then (false, cmdargs) else std_bases w target STDINCLUDEBASE cmdargs
  let builtin (cmdargs : commandargs) : Option (Bool × commandargs) :=
    match cfg.MINGW_PATH with
    | none => some (sys cmdargs)
    | some mp =>
      if mp = [] then some (sys cmdargs)
      else
        match std_checkpath w target cmdargs mp with
        | none => none
        | some r => if r.1 then some r else some (sys r.2)
  match env "MINGW_PATH".toList with
  | none => builtin cmdargs
  | some mingwpath =>
    if mingwpath = [] then builtin cmdargs else std_checkpath w target cmdargs mingwpath

/-- The loop of `findtarget32` / `findtarget64` over a list of triples. -/
def findtarget (cfg : config) (w : world) (env : environ) :
    List CStr → commandargs → Option (Option CStr × commandargs)
  | [], cmdargs => some (none, cmdargs)
  | target :: rest, cmdargs =>
    match findstdheader cfg w env target cmdargs with
    | none => none
    | some r => if r.1 then some (some target, r.2) else findtarget cfg w env rest r.2

def findtarget32 (cfg : config) (w : world) (env : environ) (cmdargs : commandargs) :
    Option (Option CStr × commandargs) :=
  findtarget cfg w env TARGET32 cmdargs

def findtarget64 (cfg : config) (w : world) (env : environ) (cmdargs : commandargs) :
    Option (Option CStr × commandargs) :=
  findtarget cfg w env TARGET64 cmdargs

/-- `findheaders(cmdargs, target)`. -/
def findheaders (cfg : config) (w : world) (env : environ) (cmdargs : commandargs)
    (target : CStr) : Option (Bool × commandargs) :=
  findstdheader cfg w env target cmdargs

/-! ## Messages (wclang.h 9-26, wclang.cpp 886-949) -/

/-- `ERROR(msg)` in `func` at `line`: the two lines `ERRORMSG` writes to
`std::cerr` before `std::exit(EXIT_FAILURE)`. -/
def ERRORMSG (cfg : config) (io : streams) (msg func : CStr) (line : Nat) : streams :=
  io.err ("runtime error: ".toList ++ msg ++ "\n".toList
    ++ cfg.FILE ++ " ".toList ++ func ++ "():".toList ++ (Nat.repr line).toList ++ "\n".toList)

/-- `verbosemsg(fmt, values...)`, with `msg` the formatted message. -/
def verbosemsg (cfg : config) (io : streams) (msg : CStr) : streams :=
  io.err (cfg.PACKAGE_NAME ++ ": verbose: ".toList ++ msg ++ "\n".toList)

/-- `warn(str)`. -/
def warn (cfg : config) (w : world) (io : streams) (warnmsg : CStr) : streams :=
  if w.isatty then
    io.err ("\x1B[1m".toList ++ cfg.PACKAGE_NAME ++ ": warning: ".toList ++ "\x1B[0m".toList
      ++ warnmsg ++ "\n".toList)
  else io.err ("warning: ".toList ++ warnmsg ++ "\n".toList)

/-! ## Argument parsing (wclang.cpp 969-1350) -/

/-- The two functions queued in `delayedcommands`. -/
inductive dcfun where
  | staticruntime
  | usemingwlinker
deriving DecidableEq, Repr

/-- The state of `parseargs`: the command state, the queue of delayed
commands (function and token), and the output streams. -/
structure parsestate where
  cmdargs : commandargs
  delayedcommands : List (dcfun × CStr) := []
  io : streams := {}

/-- What one round of the `for` loop over `argv` does. -/
inductive round where
  /-- The round ends (`continue`, or the end of the body): on to `argv[i+1]`. -/
  | next : parsestate → round
  /-- As `next`, after `++i` took the following token as an argument. -/
  | skip : parsestate → round
  /-- The process ends. -/
  | stop : Int → streams → round

/-- The lambda `printheader`. -/
def printheader (cfg : config) (io : streams) : streams :=
  io.out (cfg.PACKAGE_NAME ++ ", Version: ".toList ++ cfg.PACKAGE_VERSION ++ "\n".toList)

/-- The label `invalid_argument`; `arg` is the text after the prefix. -/
def invalid_argument (cfg : config) (io : streams) (arg : CStr) : round :=
  round.stop EXIT_FAILURE
    ((printheader cfg io).err ("invalid argument: ".toList ++ COMMANDPREFIX ++ arg ++ "\n".toList))

/-- The lookup of `case 'e'` for "env-NAME" / "e-NAME": `arg` is the upper-cased
name, `i` the index of the head of `vars` in `ENVVARS`. -/
def envlookup (env : List CStr) (arg : CStr) : List CStr → Nat → Option CStr
  | [], _ => none
  | var :: rest, i =>
    if strcmp arg var then some ((env.getD i []).drop (var.length + 1))
    else envlookup env arg rest (i + 1)

/-- The help text of `case 'h'`. -/
def helptext (cfg : config) (io : streams) : streams :=
  let printcmdhelp (io : streams) (cmd text : CStr) : streams :=
    io.out (" ".toList ++ COMMANDPREFIX ++ cmd ++ ": ".toList ++ text ++ "\n".toList)
  let io := printheader cfg io
  let io := printcmdhelp io "version".toList "show version".toList
  let io := printcmdhelp io "target".toList "show target".toList
  let io := printcmdhelp io "env-<var>".toList
    ("show environment variable  [e.g.: ".toList ++ COMMANDPREFIX ++ "env-ld]".toList)
  let io := printcmdhelp io "env".toList "show all environment variables at once".toList
  let io := printcmdhelp io "arch".toList "show target architecture".toList
  let io := printcmdhelp io "static-runtime".toList "link runtime statically".toList
  let io := printcmdhelp io "append-exe".toList
    "append .exe automatically to output filenames".toList
  let io := printcmdhelp io "use-mingw-linker".toList "link with mingw".toList
  let io := printcmdhelp io "no-intrin".toList "do not use clang intrinsics".toList
  printcmdhelp io "verbose".toList "enable verbose messages".toList

/-- The part of the loop body after the first `switch` (1111-1331):
"Everything with COMMANDPREFIX belongs to us". -/
def parsecommand (cfg : config) (target : CStr) (env : List CStr) (arg : CStr)
    (st : parsestate) : round :=
  let arg := if strncmp arg "--".toList 2 then arg.drop 1 else arg
  if !strncmp arg COMMANDPREFIX 4 then round.next st
  else
    let arg := arg.drop 4
    let cmdargs := st.cmdargs
    match arg.head? with
    | some 'a' =>
      if strcmp arg "arch".toList || strcmp arg "a".toList then
        match strchr target '-' with
        | none =>
          round.stop EXIT_FAILURE
            (st.io.err "internal error (could not determine arch)\n".toList)
        | some n => round.stop EXIT_SUCCESS (st.io.out (target.take n ++ "\n".toList))
      else if strcmp arg "append-exe".toList then
        round.next { st with cmdargs := { cmdargs with appendexe := true } }
      else invalid_argument cfg st.io arg
    | some 'e' =>
      if strncmp arg "env-".toList 4 || strncmp arg "e-".toList 2 then
        -- `while (*++arg != '-'); ++arg;` then `toupper` in place
        let arg := (((arg.drop 1).dropWhile (fun c => c ≠ '-')).drop 1).map toupper
        match envlookup env arg ENVVARS 0 with
        | some val => round.stop EXIT_SUCCESS (st.io.out (val ++ "\n".toList))
        | none =>
          round.stop EXIT_FAILURE
            (st.io.err ("environment variable ".toList ++ arg ++ " not found".toList
              ++ "\n".toList ++ "available environment variables: ".toList ++ "\n".toList
              ++ (ENVVARS.map (fun var => " ".toList ++ var ++ "\n".toList)).flatten))
      else if strcmp arg "env".toList || strcmp arg "e".toList then
        round.stop EXIT_SUCCESS
          (st.io.out ((env.map (fun v => v ++ " ".toList)).flatten ++ "\n".toList))
      else invalid_argument cfg st.io arg
    | some 'h' =>
      if strcmp arg "help".toList || strcmp arg "h".toList then
        round.stop EXIT_SUCCESS (helptext cfg st.io)
      else invalid_argument cfg st.io arg
    | some 'n' =>
      if strncmp arg "no-intrin".toList 9 then
        round.next { st with cmdargs := { cmdargs with nointrinsics := true } }
      else invalid_argument cfg st.io arg
    | some 's' =>
      if strcmp arg "static-runtime".toList then
        round.next { st with
          delayedcommands :=
            st.delayedcommands ++ [(dcfun.staticruntime, COMMANDPREFIX ++ arg)] }
      else invalid_argument cfg st.io arg
    | some 't' =>
      if strcmp arg "target".toList || strcmp arg "t".toList then
        round.stop EXIT_SUCCESS (st.io.out (target ++ "\n".toList))
      else invalid_argument cfg st.io arg
    | some 'u' =>
      if strcmp arg "use-mingw-linker".toList then
        round.next { st with
          delayedcommands :=
            st.delayedcommands ++ [(dcfun.usemingwlinker, COMMANDPREFIX ++ arg)] }
      else invalid_argument cfg st.io arg
    | some 'v' =>
      if strcmp arg "version".toList || strcmp arg "v".toList then
        round.stop EXIT_SUCCESS
          ((printheader cfg st.io).out
            ("Copyright (C) 2013-2017 Thomas Poechtrager\n".toList
              ++ "License: GPL v2\n".toList
              ++ "Bugs / Wishes: ".toList ++ cfg.PACKAGE_BUGREPORT ++ "\n".toList))
      else if strcmp arg "verbose".toList then
        round.next { st with cmdargs := { cmdargs with verbose := true } }
      else invalid_argument cfg st.io arg
    | _ => invalid_argument cfg st.io arg

/-- The optimization level of `case 'O'`; `arg` is the text after "-O". -/
def optlevel (arg : CStr) : Int :=
  if arg.head? = some 's' then optimize.SIZE_1
  else if arg.head? = some 'z' then optimize.SIZE_2
  else if strcmp arg "fast".toList then optimize.FAST
  else
    let level := atoi arg
    if level > optimize.LEVEL_3 then optimize.LEVEL_3
    else if level < optimize.LEVEL_0 then optimize.LEVEL_0
    else level

/-- One round of the loop of `parseargs` on the token `arg`; `nextarg` is
`argv[i+1]` when `i+1 < argc`. -/
def parsearg (cfg : config) (w : world) (target : CStr) (env : List CStr) (arg : CStr)
    (nextarg : Option CStr) (st : parsestate) : round :=
  let cmdargs := st.cmdargs
  if arg.head? ≠ some '-' then round.next st
  else
    match arg.get? 1 with
    | some 'c' =>
      if strcmp arg "-c".toList || strcmp arg "-S".toList then
        round.next { st with cmdargs := { cmdargs with iscompilestep := true } }
      else parsecommand cfg target env arg st
    | some 'f' =>
      if cmdargs.iscxx && strcmp arg "-fexceptions".toList then
        round.next { st with cmdargs := { cmdargs with exceptions := 1 } }
      else if cmdargs.iscxx && strcmp arg "-fno-exceptions".toList then
        round.next { st with cmdargs := { cmdargs with exceptions := 0 } }
      else parsecommand cfg target env arg st
    | some 'm' =>
      if strcmp arg "-mwindows".toList && cmdargs.usemingwlinker = subsystem.standard then
        round.next { st with cmdargs := { cmdargs with usemingwlinker := subsystem.windows } }
      else if strcmp arg "-mdll".toList && cmdargs.usemingwlinker = subsystem.standard then
        round.next { st with cmdargs := { cmdargs with usemingwlinker := subsystem.dll } }
      else if strcmp arg "-mconsole".toList && cmdargs.usemingwlinker = subsystem.standard then
        round.next { st with cmdargs := { cmdargs with usemingwlinker := subsystem.console } }
      else parsecommand cfg target env arg st
    | some 'o' =>
      if strncmp arg "-o".toList 2 then
        round.next { st with cmdargs := { cmdargs with islinkstep := true } }
      else parsecommand cfg target env arg st
    | some 'x' =>
      if strncmp arg "-x".toList 2 then
        let language (p : CStr) (after : parsestate → round) : round :=
          let checkcxx (cmdargs : commandargs) : commandargs :=
            if !cmdargs.iscxx then
              (findcxxheaders cfg w target { cmdargs with iscxx := true }).2
            else cmdargs
          if strcmp p "c".toList then after { st with cmdargs := { cmdargs with iscxx := false } }
          else if strcmp p "c-header".toList then
            after { st with cmdargs := { cmdargs with iscxx := false } }
          else if strcmp p "c++".toList then after { st with cmdargs := checkcxx cmdargs }
          else if strcmp p "c++-header".toList then after { st with cmdargs := checkcxx cmdargs }
          else
            round.stop EXIT_FAILURE
              (ERRORMSG cfg st.io "given language not supported".toList "parseargs".toList 1083)
        if isnul arg 2 then
          match nextarg with
          | none =>
            round.stop EXIT_FAILURE
              (ERRORMSG cfg st.io "missing argument for '-x'".toList "parseargs".toList 1067)
          | some p => language p round.skip
        else language (arg.drop 2) round.next
      else parsecommand cfg target env arg st
    | some 'O' =>
      if strncmp arg "-O".toList 2 then
        round.next { st with cmdargs := { cmdargs with optimizationlevel := optlevel (arg.drop 2) } }
      else parsecommand cfg target env arg st
    | _ => parsecommand cfg target env arg st

/-- The `for` loop of `parseargs` over the tokens still to be read. -/
def parseloop (cfg : config) (w : world) (target : CStr) (env : List CStr) :
    List CStr → parsestate → result parsestate
  | [], st => result.ok st
  | arg :: rest, st =>
    match parsearg cfg w target env arg rest.head? st with
    | round.next st => parseloop cfg w target env rest st
    | round.stop status io => result.exit status io
    | round.skip st =>
      match rest with
      | [] => result.ok st
      | _ :: rest => parseloop cfg w target env rest st

/-- The normalization after the loop (1334-1343). -/
def normalize (cmdargs : commandargs) : commandargs :=
  if cmdargs.islinkstep && cmdargs.iscompilestep then { cmdargs with islinkstep := false }
  else if !cmdargs.islinkstep && !cmdargs.iscompilestep then { cmdargs with islinkstep := true }
  else cmdargs

/-- A call of a delayed command: the lambdas `staticruntime` and
`usemingwlinker`. -/
def rundelayed (cfg : config) (st : commandargs × streams) (dc : dcfun × CStr) :
    commandargs × streams :=
  let cmdargs := st.1
  if !cmdargs.islinkstep then
    (cmdargs, if cmdargs.verbose then verbosemsg cfg st.2 ("ignoring ".toList ++ dc.2) else st.2)
  else
    match dc.1 with
    | dcfun.staticruntime =>
      if cmdargs.iscxx then
        ({ cmdargs with
            cxxflags := cmdargs.cxxflags ++ ["-static-libgcc".toList, "-static-libstdc++".toList] },
          st.2)
      else ({ cmdargs with cflags := cmdargs.cflags ++ ["-static-libgcc".toList] }, st.2)
    | dcfun.usemingwlinker =>
      ({ cmdargs with usemingwlinker := subsystem.use_mingw_linker }, st.2)

/-- `parseargs(argc, argv, target, cmdargs, env)`: the command state and the
streams when it returns. -/
def parseargs (cfg : config) (w : world) (argv : List CStr) (target : CStr)
    (cmdargs : commandargs) (env : List CStr) (io : streams) :
    result (commandargs × streams) :=
  match parseloop cfg w target env argv { cmdargs := cmdargs, io := io } with
  | result.ok st => result.ok (st.delayedcommands.foldl (rundelayed cfg) (normalize st.cmdargs, st.io))
  | result.exit status io => result.exit status io
  | result.abort => result.abort

/-! ## Commands (wclang.cpp 631-644, 834-870) -/

/-- `concatenvvariable(var, val)`: `val`, then ':' and the old value if any. -/
def concatenvvariable (e : environ) (var val : CStr) : environ :=
  match e var with
  | some oldval => setenv e var (val ++ ":".toList ++ oldval)
  | none => setenv e var val

/-- `getpathofcommand(command, result)`: the directory part of what
`wcrealpath` resolves, and whether it is non-empty. -/
def getpathofcommand (w : world) (e : environ) (command : CStr) : Bool × CStr :=
  let result := w.wcrealpath (e "PATH".toList) command
  let result :=
    match strrchr result '/' with
    | some tail => result.take (result.length - tail.length)
    | none => result
  (!result.isEmpty, result)

def RUNCOMMAND_ERROR : Int := -100000

/-- `runcommand(command, buf, len)` with `len > 0`: the status and the text
left in `buf`. -/
def runcommand (w : world) (command : CStr) : Int × CStr :=
  match w.popen command with
  | none => (RUNCOMMAND_ERROR, [])
  | some (output, status) => if output = [] then (RUNCOMMAND_ERROR, []) else (status, output)

/-- `stripfilename(path)`: cut at the last '/'; without one the null pointer
is dereferenced: `none`. -/
def stripfilename (path : CStr) : Option CStr :=
  match strrchr path '/' with
  | none => none
  | some tail => some (path.take (path.length - tail.length))

/-- `envvar(env, varname, val, values...)`: "varname=" followed by the values. -/
def envvar (env : List CStr) (varname : CStr) (vals : List CStr) : List CStr :=
  env ++ [varname ++ "=".toList ++ vals.flatten]

/-! ## main (wclang.cpp 1352-1821) -/

/-- The locals of `main` that the run carries along: the command state (with
the vectors and strings it refers to), `targettype`, the process environment
and the output streams. -/
structure mainstate where
  cmdargs : commandargs := {}
  targettype : Int := -1
  env : environ
  io : streams := {}

/-- The invocation name check (1381-1402) on `e`, the name after the last '/':
whether the C++ compiler is wanted, or the exit with status 1. -/
def checkname (e : CStr) (io : streams) : result Bool :=
  match strrchr e '-' with
  | none =>
    result.exit 1 (io.err ("invalid invocation name: clang should be followed ".toList
      ++ "after target (e.g.: w32-clang)\n".toList))
  | some p =>
    let p := p.drop 1
    if !strncmp p "clang".toList 5 then
      result.exit 1 (io.err ("invalid invocation name: clang should be followed ".toList
        ++ "after target (e.g.: w32-clang)\n".toList))
    else
      let p := p.drop 5
      if strcmp p "++".toList then result.ok true
      else if !isnul p 0 then
        result.exit 1 (io.err ("invalid invocation name: ++ (or nothing) should be ".toList
          ++ "followed after clang (e.g.: w32-clang++)\n".toList))
      else result.ok false

/-- The block under the label `find_target_and_headers` (1410-1429): the
triple named by `e` and its C headers, or the first triple of the family named
by `e` that has C headers; `none` when the header search ends abnormally. -/
def main_resolve (cfg : config) (w : world) (e : CStr) (st : mainstate) : Option mainstate :=
  match findtriple e st.targettype with
  | (some triple, targettype) =>
    match findheaders cfg w st.env { st.cmdargs with target := triple } triple with
    | none => none
    | some r => some { st with cmdargs := r.2, targettype := targettype }
  | (none, targettype) =>
    if strncmp e "w32".toList 3 then
      match findtarget32 cfg w st.env st.cmdargs with
      | none => none
      | some (t, cmdargs) =>
        some { st with cmdargs := { cmdargs with target := t.getD [] },
                       targettype := TARGET_WIN32 }
    else if strncmp e "w64".toList 3 then
      match findtarget64 cfg w st.env st.cmdargs with
      | none => none
      | some (t, cmdargs) =>
        some { st with cmdargs := { cmdargs with target := t.getD [] },
                       targettype := TARGET_WIN64 }
    else some { st with targettype := targettype }

/-- The code from the label `find_target_and_headers` to the end of the target
check (1408-1471); `goto find_target_and_headers` is the recursive call.
`none` when `fuel` rounds do not suffice. -/
def find_target_and_headers (cfg : config) (w : world) (e : CStr) :
    Nat → mainstate → Option (result mainstate)
  | 0, _ => none
  | fuel + 1, st =>
    match main_resolve cfg w e st with
    | none => some result.abort
    | some st =>
      if st.targettype = -1 then
        some (result.exit 1 (st.io.err ("invalid target: ".toList ++ e ++ "\n".toList)))
      else if st.cmdargs.target.isEmpty then
        if (st.env "MINGW_PATH".toList).isSome then
          let io := warn cfg w st.io
            ("MINGW_PATH env variable does not point to any ".toList
              ++ "valid mingw installation for the current target!".toList)
          if cfg.HAVE_UNSETENV then
            find_target_and_headers cfg w e fuel
              { st with env := unsetenv st.env "MINGW_PATH".toList, io := io }
          else some (result.exit EXIT_FAILURE io)
        else
          let type : CStr :=
            if st.targettype = TARGET_WIN32 then "32 bit".toList else "64 bit".toList
          let desc := "mingw-w64 (".toList ++ type ++ ")".toList
          some (result.exit 1 (st.io.err
            ("cannot find ".toList ++ desc ++ " installation\n".toList
              ++ "make sure ".toList ++ desc ++ " is installed on your system\n".toList
              ++ "if you have moved your mingw installation, ".toList
              ++ "then re-run the installation process\n".toList)))
      else some (result.ok st)

/-- The environment table (1521-1534): for each name of `ENVVARS` the entry
"NAME=" target "-name". -/
def setupenv (target : CStr) : List CStr → List CStr → List CStr
  | [], env => env
  | var :: rest, env =>
    setupenv target rest (envvar env var [target, '-' :: var.map tolower])

/-- From the header checks to the call of `parseargs` (1473-1541).  `CXXFLAGS`
and `CFLAGS` are empty, so neither is pushed. -/
def main_setup (cfg : config) (w : world) (argv : List CStr) (st : mainstate) :
    result mainstate :=
  let target := st.cmdargs.target
  let iscxx := st.cmdargs.iscxx
  if st.cmdargs.stdpaths.isEmpty then
    result.exit 1 (st.io.err
      ("cannot find ".toList ++ target ++ " C headers\n".toList
        ++ "make sure ".toList ++ target ++ " C headers are installed on your system \n".toList))
  else
    let r := findcxxheaders cfg w target st.cmdargs
    if !r.1 && iscxx then
      result.exit 1 (st.io.err
        ("cannot find ".toList ++ target ++ " C++ headers\n".toList
          ++ "make sure ".toList ++ target
          ++ " C++ headers are installed on your system \n".toList))
    else
      let cmdargs := r.2
      let cmdargs :=
        { cmdargs with compiler := if iscxx then "clang++".toList else "clang".toList }
      let cmdargs := { cmdargs with env := setupenv target ENVVARS cmdargs.env }
      match parseargs cfg w argv target cmdargs cmdargs.env st.io with
      | result.ok (cmdargs, io) => result.ok { st with cmdargs := cmdargs, io := io }
      | result.exit status io => result.exit status io
      | result.abort => result.abort

/-- The linker flags of the subsystem (1547-1565). -/
def subsystemflags (cmdargs : commandargs) : commandargs :=
  if cmdargs.islinkstep then
    match cmdargs.usemingwlinker with
    | subsystem.standard => cmdargs
    | subsystem.use_mingw_linker =>
      { cmdargs with
        compiler := cmdargs.target ++ (if cmdargs.iscxx then "-g++".toList else "-gcc".toList) }
    | subsystem.console =>
      { cmdargs with linkerflags := cmdargs.linkerflags ++ ["-Wl,--subsystem,console".toList] }
    | subsystem.windows =>
      { cmdargs with linkerflags := cmdargs.linkerflags ++ ["-Wl,--subsystem,windows".toList] }
    | subsystem.dll =>
      { cmdargs with linkerflags := cmdargs.linkerflags ++ ["-Wl,--subsystem,dll".toList] }
  else cmdargs

/-- `!(p = getenv(var)) || *p == '0'`. -/
def unset_or_zero (e : environ) (var : CStr) : Bool :=
  match e var with
  | none => true
  | some p => p.head? == some '0'

/-- The workaround for the MinGW `math.h` (1567-1584). -/
def crtworkaround (st : mainstate) : commandargs :=
  let cmdargs := st.cmdargs
  if st.targettype = TARGET_WIN64 && (cmdargs.iscompilestep || cmdargs.islinkstep)
      && decide (cmdargs.optimizationlevel ≥ optimize.LEVEL_1) then
    if unset_or_zero st.env "WCLANG_NO_CRT_INLINE_WORKAROUND".toList then
      { cmdargs with cxxflags := cmdargs.cxxflags ++ ["-D__CRT__NO_INLINE".toList] }
    else cmdargs
  else cmdargs

/-- The lookup of the compiler on PATH (1586-1602); `none` when it is not
found. -/
def locatecompiler (w : world) (e : environ) (cmdargs : commandargs) : Option commandargs :=
  if cmdargs.compiler.head? ≠ some '/' then
    let r := getpathofcommand w e cmdargs.compiler
    if !r.1 then none
    else
      some { cmdargs with
        compilerbinpath := r.2, compiler := r.2 ++ "/".toList ++ cmdargs.compiler }
  else some cmdargs

/-- The MinGW directory put in front of PATH (1611-1621). -/
def mingwenviron (cfg : config) (e : environ) : environ :=
  let mingwpath : Option CStr :=
    match e "MINGW_PATH".toList with
    | some p => some p
    | none =>
      match cfg.MINGW_PATH with
      | some mp => if mp ≠ [] then some mp else none
      | none => none
  match mingwpath with
  | some p => if p ≠ [] then concatenvvariable e "PATH".toList p else e
  | none => e

/-- The library directory of the MinGW gcc as a `-L` flag, for a link step
(1639-1651); `none` when `stripfilename` dereferences the null pointer. -/
def libgccflag (w : world) (cmdargs : commandargs) : Option commandargs :=
  if cmdargs.islinkstep then
    let r := runcommand w (cmdargs.target ++ "-gcc -print-libgcc-file-name".toList)
    if r.1 = 0 then
      match stripfilename r.2 with
      | none => none
      | some output =>
        some { cmdargs with linkerflags := cmdargs.linkerflags ++ ["-L".toList ++ output] }
    else some cmdargs
  else some cmdargs

/-- From the return of `parseargs` to the `-L` flag (1547-1651): linker flags,
the workaround define, the paths of the compiler and of the MinGW gcc. -/
def main_flags (cfg : config) (w : world) (st : mainstate) : result mainstate :=
  let cmdargs := subsystemflags st.cmdargs
  let cmdargs := crtworkaround { st with cmdargs := cmdargs }
  match locatecompiler w st.env cmdargs with
  | none =>
    result.exit 1 (st.io.err
      ("cannot find '".toList ++ cmdargs.compiler ++ "' executable\n".toList))
  | some cmdargs =>
    let gcc := cmdargs.target ++ (if cmdargs.iscxx then "-g++".toList else "-gcc".toList)
    let env := mingwenviron cfg st.env
    if !(getpathofcommand w env gcc).1 then
      result.exit 1 (st.io.err ("cannot find ".toList ++ gcc ++ " executable\n".toList))
    else
      match libgccflag w cmdargs with
      | none => result.abort
      | some cmdargs => result.ok { st with cmdargs := cmdargs, env := env }

/-- The lambda `pushdirs(paths)`. -/
def pushdirs (args : List CStr) : List CStr → List CStr
  | [] => args
  | dir :: rest => pushdirs (args ++ ["-isystem".toList, dir]) rest

/-- The flags the target block pushes between "-Qunused-arguments" and the
header directories (1694-1734), in the order of the source: `found` is the
result of `findintrinheaders`, `gated` whether exceptions are unsupported for
this compiler version, `forced` whether the environment forces them. -/
def blockflags (st : mainstate) (found : Bool) (cmdargs : commandargs) (gated forced : Bool) :
    List CStr :=
  (if found && cmdargs.clangversion.eq (compilerversion.mk3 3 5 0) then
      ["-D_STDIO_S_DEFINED".toList]
    else [])
  ++ (if gated && !forced then ["-fno-exceptions".toList] else [])
  ++ (if decide (st.targettype = TARGET_WIN32)
          && cmdargs.clangversion.ge (compilerversion.mk3 6 0 0) then
        ["-fsjlj-exceptions".toList]
      else [])
  ++ (match st.env "WCLANG_NO_INTEGRATED_AS".toList with
      | some p => if p.head? = some '1' then ["-no-integrated-as".toList] else []
      | none => [])

/-- The target block (1665-1751), entered when this is not a link step or the
subsystem is not the standard one.  The pushes onto `args` are written as one
concatenation. -/
def targetblock (cfg : config) (w : world) (st : mainstate) : mainstate :=
  let r := findintrinheaders cfg w st.cmdargs st.cmdargs.compilerbinpath
  let cmdargs := r.2
  let io :=
    if !r.1 && !cmdargs.nointrinsics then
      warn cfg w st.io "cannot find clang intrinsics directory".toList
    else st.io
  let io :=
    if cmdargs.verbose then
      verbosemsg cfg io ("detected clang version: ".toList ++ cmdargs.clangversion.str)
    else io
  let gated : Bool :=
    decide (cmdargs.exceptions ≠ 0)
      && (cmdargs.clangversion.lt (compilerversion.mk3 3 7 0)
          || (decide (st.targettype = TARGET_WIN32)
              && cmdargs.clangversion.lt (compilerversion.mk3 6 0 0)))
  let forced : Bool := !unset_or_zero st.env "WCLANG_FORCE_CXX_EXCEPTIONS".toList
  let io :=
    if gated && !forced && decide (cmdargs.exceptions = 1) then
      (warn cfg w io
        ("-fexceptions will be replaced with -fno-exceptions: ".toList
          ++ "exceptions are not supported (yet)".toList)).err
        ("set WCLANG_FORCE_CXX_EXCEPTIONS to 1 ".toList
          ++ "(env. variable) to force C++ exceptions\n".toList)
    else io
  let args := st.cmdargs.args
    ++ [cfg.CLANG_TARGET_OPT, st.cmdargs.target, "-nostdinc".toList, "-nostdinc++".toList,
        "-Qunused-arguments".toList]
    ++ blockflags st r.1 cmdargs gated forced
  let args := pushdirs args cmdargs.intrinpaths
  let args := pushdirs args cmdargs.cxxpaths
  let args := pushdirs args cmdargs.stdpaths
  let exceptions : Int := if gated && forced then -1 else cmdargs.exceptions
  { st with cmdargs := { cmdargs with args := args, exceptions := exceptions }, io := io }

/-- The start of the argument vector (1654-1663): the compiler, the flags of
the language, the linker flags. -/
def pushflags (st : mainstate) : mainstate :=
  let cmdargs := st.cmdargs
  let args := cmdargs.args ++ [cmdargs.compiler]
  let args := args ++ (if cmdargs.iscxx then cmdargs.cxxflags else cmdargs.cflags)
  let args := args ++ cmdargs.linkerflags
  { st with cmdargs := { cmdargs with args := args } }

/-- The prefix of the argument vector (1654-1752): the start and, where due,
the target block. -/
def pushhead (cfg : config) (w : world) (st : mainstate) : mainstate :=
  if !st.cmdargs.islinkstep || st.cmdargs.usemingwlinker ≠ subsystem.standard then
    targetblock cfg w (pushflags st)
  else pushflags st

/-- Whether the loop over `argv[1..]` (1754-1779) pushes the token `arg`. -/
def forwarded (cmdargs : commandargs) (arg : CStr) : Bool :=
  if strncmp arg COMMANDPREFIX 4 then false
  else if decide (cmdargs.exceptions = 1) && strcmp arg "-fexceptions".toList then false
  else if strncmp arg ('-' :: COMMANDPREFIX) 6 then false
  else if cmdargs.islinkstep && cmdargs.usemingwlinker ≠ subsystem.standard
      && strncmp arg "-Qunused".toList 8 then false
  else true

/-- The loop over `argv[1..]` (1754-1779): the tokens pushed, in order. -/
def pushargs (cmdargs : commandargs) : List CStr → List CStr → List CStr
  | [], args => args
  | arg :: rest, args =>
    if forwarded cmdargs arg then pushargs cmdargs rest (args ++ [arg])
    else pushargs cmdargs rest args

/-- The name after the last '/' of `argv[0]` (1356, 1381-1382). -/
def programname (argv0 : CStr) : CStr :=
  match strrchr argv0 '/' with
  | none => argv0
  | some tail => tail.drop 1

/-- The run of `main` up to the complete vector `args` (1352-1779) for
`argv = argv0 :: user`: the state then, or how the process ended before.
`none` when `fuel` does not suffice for the target resolution. -/
def main_args (cfg : config) (w : world) (env : environ) (fuel : Nat) :
    List CStr → Option (result mainstate)
  | [] => some result.abort
  | argv0 :: user =>
    let e := programname argv0
    match checkname e {} with
    | result.exit status io => some (result.exit status io)
    | result.abort => some result.abort
    | result.ok iscxx =>
      match find_target_and_headers cfg w e fuel
          { cmdargs := { iscxx := iscxx }, env := env } with
      | none => none
      | some (result.exit status io) => some (result.exit status io)
      | some result.abort => some result.abort
      | some (result.ok st) =>
        match main_setup cfg w (argv0 :: user) st with
        | result.exit status io => some (result.exit status io)
        | result.abort => some result.abort
        | result.ok st =>
          match main_flags cfg w st with
          | result.exit status io => some (result.exit status io)
          | result.abort => some result.abort
          | result.ok st =>
            let st := pushhead cfg w st
            some (result.ok
              { st with cmdargs := { st.cmdargs with args := pushargs st.cmdargs user st.cmdargs.args } })

/-- How the process ends. -/
inductive outcome where
  /-- `return` from `main` or `std::exit` with this status. -/
  | exited : Int → streams → outcome
  /-- `execvp(file, cargs)` replaced the process image. -/
  | replaced : CStr → List CStr → streams → outcome
  /-- Abnormal termination. -/
  | aborted : outcome

/-- Tokens joined by single blanks (the verbose "command in/out" lines). -/
def joinblank : List CStr → CStr
  | [] => []
  | [a] => a
  | a :: b :: rest => a ++ " ".toList ++ joinblank (b :: rest)

/-- `main(argc, argv)` in the environment `env`. -/
def main (cfg : config) (w : world) (env : environ) (fuel : Nat) (argv : List CStr) :
    Option outcome :=
  match main_args cfg w env fuel argv with
  | none => none
  | some (result.exit status io) => some (outcome.exited status io)
  | some result.abort => some outcome.aborted
  | some (result.ok st) =>
    let cmdargs := st.cmdargs
    let r := if cmdargs.appendexe then appendexetooutputname cmdargs.args else (cmdargs.args, [])
    let cargs := r.1
    let io := st.io.err r.2
    let io :=
      if cmdargs.verbose then
        let io := verbosemsg cfg io ("command in: ".toList ++ joinblank argv)
        let io := verbosemsg cfg io ("command out: ".toList ++ joinblank cargs)
        io.err w.times
      else io
    if w.execvp cmdargs.compiler cargs then some (outcome.replaced cmdargs.compiler cargs io)
    else
      some (outcome.exited 1 (io.err
        ("invoking compiler failed\n".toList ++ cmdargs.compiler ++ " not installed?\n".toList)))

/-! ## A concrete installation, for evaluating the program -/

/-- A build configuration: a Linux x86_64 build with `unsetenv`, without a
compiled-in MINGW_PATH. -/
def democonfig : config :=
  { PACKAGE_NAME := "wclang".toList
    PACKAGE_VERSION := "0.8".toList
    PACKAGE_BUGREPORT := "t.poechtrager@gmail.com".toList
    CLANG_TARGET_OPT := "-target".toList
    MINGW_PATH := none
    HAVE_UNSETENV := true
    NO_SYS_PATH := false
    FILE := "wclang.cpp".toList
    CYGWIN := false
    x86_64 := true
    linux := true
    i386 := false
    APPLE := false }

/-- An installation with the 32-bit MinGW C headers under /usr, `clang` and the
MinGW gcc in /usr/bin, no C++ headers and no clang intrinsics; `popen` fails
and `execvp` succeeds. -/
def demoworld : world :=
  { stat := fun path =>
      if path = "/usr/i686-w64-mingw32/include".toList then some true
      else if path = "/usr/i686-w64-mingw32/include/stdlib.h".toList then some false
      else none
    readdir := fun _ => none
    wcrealpath := fun _ file => "/usr/bin/".toList ++ file
    popen := fun _ => none
    isatty := false
    execvp := fun _ _ => true
    times := [] }

/-- The empty process environment. -/
def demoenv : environ := fun _ => none

/-! ## Auxiliary notions used in the statements -/

/-- The command state `b` differs from `a` at most in what header discovery
writes: the three path lists and the two detected versions. -/
def discovered (a b : commandargs) : Prop :=
  b = { a with
        stdpaths := b.stdpaths, cxxpaths := b.cxxpaths, intrinpaths := b.intrinpaths,
        mingwversion := b.mingwversion, clangversion := b.clangversion }

/-- The command state `b` differs from `a` at most in what C++ header discovery
writes: `cxxpaths` and `mingwversion`. -/
def cxxdiscovered (a b : commandargs) : Prop :=
  b = { a with cxxpaths := b.cxxpaths, mingwversion := b.mingwversion }

/-- The command state `b` differs from `a` at most in what `parseargs` writes
besides: mode flags, levels and the two compiler flag lists. -/
def parsed (a b : commandargs) : Prop :=
  b = { a with
        cxxpaths := b.cxxpaths, mingwversion := b.mingwversion,
        verbose := b.verbose, iscxx := b.iscxx, appendexe := b.appendexe,
        iscompilestep := b.iscompilestep, islinkstep := b.islinkstep,
        nointrinsics := b.nointrinsics, exceptions := b.exceptions,
        optimizationlevel := b.optimizationlevel, usemingwlinker := b.usemingwlinker,
        cflags := b.cflags, cxxflags := b.cxxflags }

/-- The state with which the loop goes on after a round, if it does. -/
def round.state? : round → Option parsestate
  | round.next st => some st
  | round.skip st => some st
  | round.stop _ _ => none

/-- The state in which a run of `main` reaches the complete argument vector
(the initial state when it does not reach it). -/
def reached (cfg : config) (w : world) (env : environ) (fuel : Nat) (argv : List CStr) :
    mainstate :=
  match main_args cfg w env fuel argv with
  | some (result.ok st) => st
  | _ => { env := env }

/-- The command state `b` has the argument vector and the three flag lists of
`a`. -/
def keptflags (a b : commandargs) : Prop :=
  b.args = a.args ∧ b.cflags = a.cflags ∧ b.cxxflags = a.cxxflags
    ∧ b.linkerflags = a.linkerflags

/-- The command state `parseargs` is called with in `main_setup`. -/
def setupargs (cfg : config) (w : world) (st : mainstate) : commandargs :=
  let c := (findcxxheaders cfg w st.cmdargs.target st.cmdargs).2
  let c := { c with compiler := if st.cmdargs.iscxx then "clang++".toList else "clang".toList }
  { c with env := setupenv st.cmdargs.target ENVVARS c.env }

/-- The fields of the command state that the steps between `parseargs` and
the argument vector leave alone, and what they may add to the flag lists. -/
def flagstep (a b : commandargs) : Prop :=
  b.args = a.args
  ∧ b.iscompilestep = a.iscompilestep
  ∧ b.islinkstep = a.islinkstep
  ∧ b.cflags = a.cflags
  ∧ (b.cxxflags = a.cxxflags ∨ b.cxxflags = a.cxxflags ++ ["-D__CRT__NO_INLINE".toList])
  ∧ (a.islinkstep = false → b.linkerflags = a.linkerflags)

/-- The languages `-x` accepts. -/
def languages : List CStr :=
  ["c".toList, "c-header".toList, "c++".toList, "c++-header".toList]

/-- What a round that goes on from `st` to `st2` may have changed: fields that
`parseargs` writes only, the two step flags only from false to true, neither
compiler flag list, and not the streams. -/
def stepspec (st st2 : parsestate) : Prop :=
  parsed st.cmdargs st2.cmdargs
  ∧ (st.cmdargs.iscompilestep = true → st2.cmdargs.iscompilestep = true)
  ∧ (st.cmdargs.islinkstep = true → st2.cmdargs.islinkstep = true)
  ∧ st2.cmdargs.cflags = st.cmdargs.cflags
  ∧ st2.cmdargs.cxxflags = st.cmdargs.cxxflags
  ∧ st2.io = st.io

/-- What holds of a round of the loop of `parseargs` on `arg`: one that goes on
satisfies `stepspec`, and one that takes the following token too is a bare
"-x" followed by one of the languages. -/
def roundspec (st : parsestate) (arg : CStr) (nextarg : Option CStr) : round → Prop
  | round.next st2 => stepspec st st2
  | round.skip st2 =>
    stepspec st st2 ∧ arg = "-x".toList ∧ ∃ p, nextarg = some p ∧ p ∈ languages
  | round.stop _ _ => True

/-- The `-isystem dir` pairs for a list of directories, in order. -/
def isystem : List CStr → List CStr
  | [] => []
  | dir :: rest => "-isystem".toList :: dir :: isystem rest

/-! ## Reference notions for the version and discovery properties -/

/-- The three numeric fields of a version. -/
def compilerversion.fields (v : compilerversion) : Int × Int × Int :=
  (v.major, v.minor, v.patch)

/-- Tuple order on the fields: major first, then minor, then patch. -/
def fieldslt (a b : compilerversion) : Prop :=
  a.major < b.major
  ∨ (a.major = b.major ∧ (a.minor < b.minor ∨ (a.minor = b.minor ∧ a.patch < b.patch)))

/-- The number a string of decimal digits denotes. -/
def decimal (ds : CStr) : Int :=
  ds.foldl (fun n c => n * 10 + ((c.toNat : Int) - 48)) 0

/-- A string of decimal digits: not empty, every character a digit. -/
def digits (ds : CStr) : Prop := ds ≠ [] ∧ ∀ c ∈ ds, c.isDigit = true

/-- A step of header discovery that, whatever the command state, gives the
verdict `b` and appends the entries `delta` to the path list `proj`; it appends
something exactly when it succeeds. -/
def appends (proj : commandargs → List CStr) (f : commandargs → Bool × commandargs)
    (b : Bool) (delta : List CStr) : Prop :=
  (b = true ↔ delta ≠ []) ∧ ∀ c, (f c).1 = b ∧ proj (f c).2 = proj c ++ delta

/-- The same for a step that may end abnormally: it does so for every command
state or for none. -/
def appendsopt (proj : commandargs → List CStr)
    (f : commandargs → Option (Bool × commandargs)) : Prop :=
  (∀ c, f c = none)
  ∨ ∃ b delta, (b = true ↔ delta ≠ [])
      ∧ ∀ c, ∃ r, f c = some r ∧ r.1 = b ∧ proj r.2 = proj c ++ delta

/-- An installation with the C headers under "/usr" and the C++ headers of
gcc 4.9.2 in the second layout of `CXXINCLUDEBASE`; the directory "4.8" next to
it has no mingw headers. -/
def gccworld : world :=
  { stat := fun path =>
      if path = "/usr/i686-w64-mingw32/include".toList then some true
      else if path = "/usr/i686-w64-mingw32/include/stdlib.h".toList then some false
      else if path = "/usr/lib/gcc/i686-w64-mingw32/4.9.2/i686-w64-mingw32".toList then
        some true
      else if path = "/usr/lib/gcc/i686-w64-mingw32/4.9.2/include/c++/iostream".toList then
        some false
      else none
    readdir := fun dir =>
      if dir = "/usr/lib/gcc/i686-w64-mingw32/".toList then
        some [".".toList, "..".toList, "4.8".toList, "4.9.2".toList]
      else none
    wcrealpath := fun _ file => "/usr/bin/".toList ++ file
    popen := fun _ => none
    isatty := false
    execvp := fun _ _ => true
    times := [] }

/-- An installation with the C headers under "/opt/mingw" only. -/
def optworld : world :=
  { demoworld with
    stat := fun path =>
      if path = "/opt/mingw/i686-w64-mingw32/include".toList then some true
      else if path = "/opt/mingw/i686-w64-mingw32/include/stdlib.h".toList then some false
      else none }

/-- An environment whose MINGW_PATH names a place without any headers. -/
def overrideenv : environ := setenv demoenv "MINGW_PATH".toList "/opt/mingw/bin".toList

/-- Whether a run ended in the replacement of the process image. -/
def outcome.isreplaced : Option outcome → Bool
  | some (outcome.replaced _ _ _) => true
  | _ => false

/-- The exit status and the text on `std::cerr` of a run that exited. -/
def outcome.exit? : Option outcome → Option (Int × CStr)
  | some (outcome.exited status io) => some (status, io.cerr)
  | _ => none

/-! ## Reference notions for the argument properties -/

/-- The subsystem a token requests: "-mwindows", "-mdll" and "-mconsole" request
theirs, every other token requests none (`standard`). -/
def subsystemrequest (arg : CStr) : subsystem :=
  if arg = "-mwindows".toList then subsystem.windows
  else if arg = "-mdll".toList then subsystem.dll
  else if arg = "-mconsole".toList then subsystem.console
  else subsystem.standard

/-- The subsystem requested by the first subsystem token of a list, `standard`
when the list holds none. -/
def firstsubsystem : List CStr → subsystem
  | [] => subsystem.standard
  | arg :: rest =>
    if subsystemrequest arg = subsystem.standard then firstsubsystem rest
    else subsystemrequest arg

/-- A round that goes on leaves the subsystem mode as it was. -/
def keepsmode (st : parsestate) : round → Prop
  | round.next st2 => st2.cmdargs.usemingwlinker = st.cmdargs.usemingwlinker
  | round.skip st2 => st2.cmdargs.usemingwlinker = st.cmdargs.usemingwlinker
  | round.stop _ _ => True

/-- The subsystem mode after a round on `arg` that goes on: the request of
`arg` when the mode was still `standard`, else the mode as it was. -/
def modespec (st : parsestate) (arg : CStr) : round → Prop
  | round.next st2 =>
    st2.cmdargs.usemingwlinker
      = if st.cmdargs.usemingwlinker = subsystem.standard then subsystemrequest arg
        else st.cmdargs.usemingwlinker
  | round.skip st2 =>
    st2.cmdargs.usemingwlinker
      = if st.cmdargs.usemingwlinker = subsystem.standard then subsystemrequest arg
        else st.cmdargs.usemingwlinker
  | round.stop _ _ => True

/-- The first output name of a vector: the index of the token that holds it and
the name.  The first token that begins with "-o" decides: an attached "-oNAME"
holds NAME itself; after a bare "-o" the next token is the name, unless there
is none or it begins with '-'. -/
def firstoutput : List CStr → Option (Nat × CStr)
  | [] => none
  | arg :: rest =>
    if "-o".toList.isPrefixOf arg then
      if arg = "-o".toList then
        match rest with
        | [] => none
        | nxt :: _ => if nxt.head? = some '-' then none else some (1, nxt)
      else some (0, arg.drop 2)
    else (firstoutput rest).map (fun r => (r.1 + 1, r.2))

/-- The name ends in ".exe", ".dll" or ".S". -/
def knownsuffix (name : CStr) : Prop :=
  ".exe".toList <:+ name ∨ ".dll".toList <:+ name ∨ ".S".toList <:+ name

/-- An installation of the 64-bit target under "/usr", with the C++ headers in
the first layout (below the C headers). -/
def world64 : world :=
  { demoworld with
    stat := fun path =>
      if path = "/usr/x86_64-w64-mingw32/include".toList then some true
      else if path = "/usr/x86_64-w64-mingw32/include/stdlib.h".toList then some false
      else if path = "/usr/x86_64-w64-mingw32/include/c++//iostream".toList then some false
      else none }

/-- The argument vector a run hands to the compiler, when it gets that far. -/
def outcome.args? : Option outcome → Option (List CStr)
  | some (outcome.replaced _ cargs _) => some cargs
  | _ => none

/-- The exit status and the text on `std::cout` of a run that exited. -/
def outcome.exitout? : Option outcome → Option (Int × CStr)
  | some (outcome.exited status io) => some (status, io.cout)
  | _ => none

end Wclang


namespace Wclang

/-! ## Frame lemmas: what header discovery and argument parsing leave alone -/

theorem discovered_refl (a : commandargs) : discovered a a := by
  cases a; rfl

theorem discovered_trans {a b c : commandargs} (h1 : discovered a b) (h2 : discovered b c) :
    discovered a c := by
  cases a; cases b; cases c
  simp only [discovered, commandargs.mk.injEq] at *
  simp_all

theorem discovered_stdpaths (a : commandargs) (l : List CStr) :
    discovered a { a with stdpaths := l } := by
  cases a; rfl

theorem cxxdiscovered_refl (a : commandargs) : cxxdiscovered a a := by
  cases a; rfl

theorem cxxdiscovered_trans {a b c : commandargs} (h1 : cxxdiscovered a b)
    (h2 : cxxdiscovered b c) : cxxdiscovered a c := by
  cases a; cases b; cases c
  simp only [cxxdiscovered, commandargs.mk.injEq] at *
  simp_all

theorem cxxdiscovered_mingwversion (a : commandargs) (v : compilerver) :
    cxxdiscovered a { a with mingwversion := v } := by
  cases a; rfl

theorem cxxdiscovered_discovered {a b : commandargs} (h : cxxdiscovered a b) :
    discovered a b := by
  cases a; cases b
  simp only [cxxdiscovered, discovered, commandargs.mk.injEq] at *
  simp_all

theorem parsed_refl (a : commandargs) : parsed a a := by
  cases a; rfl

theorem parsed_trans {a b c : commandargs} (h1 : parsed a b) (h2 : parsed b c) :
    parsed a c := by
  cases a; cases b; cases c
  simp only [parsed, commandargs.mk.injEq] at *
  simp_all

theorem cxxdiscovered_parsed {a b : commandargs} (h : cxxdiscovered a b) : parsed a b := by
  cases a; cases b
  simp only [cxxdiscovered, parsed, commandargs.mk.injEq] at *
  simp_all

theorem addheaderdir_cxxdiscovered (target : CStr) (c : commandargs) (d : CStr) (m : Bool) :
    cxxdiscovered c (addheaderdir target c d m) := by
  unfold addheaderdir
  cases c; cases m <;> rfl

theorem findcxx_stdpaths_cxxdiscovered (w : world) (target : CStr) (l : List CStr)
    (c : commandargs) : cxxdiscovered c (findcxx_stdpaths w target l c).2 := by
  induction l generalizing c with
  | nil => exact cxxdiscovered_refl c
  | cons d rest ih =>
    simp only [findcxx_stdpaths]
    split
    · try dsimp only
      exact addheaderdir_cxxdiscovered _ _ _ _
    · split
      · try dsimp only
        exact cxxdiscovered_trans (cxxdiscovered_mingwversion c _) (ih _)
      · split
        · try dsimp only
          exact cxxdiscovered_trans (cxxdiscovered_mingwversion c _) (addheaderdir_cxxdiscovered _ _ _ _)
        · try dsimp only
          exact cxxdiscovered_trans (cxxdiscovered_mingwversion c _) (ih _)

theorem findcxx_base1_cxxdiscovered (w : world) (target root : CStr) (l : List CStr)
    (c : commandargs) : cxxdiscovered c (findcxx_base1 w target root l c).2 := by
  induction l generalizing c with
  | nil => exact cxxdiscovered_refl c
  | cons d rest ih =>
    simp only [findcxx_base1]
    split
    · try dsimp only
      exact cxxdiscovered_trans (cxxdiscovered_mingwversion c _) (ih _)
    · split
      · try dsimp only
        exact cxxdiscovered_trans (cxxdiscovered_mingwversion c _) (addheaderdir_cxxdiscovered _ _ _ _)
      · try dsimp only
        exact cxxdiscovered_trans (cxxdiscovered_mingwversion c _) (ih _)

theorem findcxx_base2_cxxdiscovered (w : world) (target root : CStr) (l : List CStr)
    (c : commandargs) : cxxdiscovered c (findcxx_base2 w target root l c).2 := by
  induction l generalizing c with
  | nil => exact cxxdiscovered_refl c
  | cons d rest ih =>
    simp only [findcxx_base2]
    split
    · try dsimp only
      exact cxxdiscovered_trans (cxxdiscovered_mingwversion c _) (ih _)
    · split
      · try dsimp only
        exact cxxdiscovered_trans (cxxdiscovered_mingwversion c _)
          (cxxdiscovered_trans (addheaderdir_cxxdiscovered _ _ _ _) (addheaderdir_cxxdiscovered _ _ _ _))
      · try dsimp only
        exact cxxdiscovered_trans (cxxdiscovered_mingwversion c _) (ih _)

theorem findcxx_base3_cxxdiscovered (w : world) (target root : CStr) (l : List CStr)
    (c : commandargs) : cxxdiscovered c (findcxx_base3 w target root l c).2 := by
  induction l generalizing c with
  | nil => exact cxxdiscovered_refl c
  | cons d rest ih =>
    simp only [findcxx_base3]
    split
    · try dsimp only
      exact cxxdiscovered_trans (cxxdiscovered_mingwversion c _) (ih _)
    · split
      · try dsimp only
        exact cxxdiscovered_trans (cxxdiscovered_mingwversion c _) (ih _)
      · split
        · try dsimp only
          exact cxxdiscovered_trans (cxxdiscovered_mingwversion c _) (addheaderdir_cxxdiscovered _ _ _ _)
        · try dsimp only
          exact cxxdiscovered_trans (cxxdiscovered_mingwversion c _) (ih _)

theorem findcxx_findheaders_cxxdiscovered (cfg : config) (w : world) (target root : CStr)
    (c : commandargs) : cxxdiscovered c (findcxx_findheaders cfg w target root c).2 := by
  have h0 := findcxx_stdpaths_cxxdiscovered w target c.stdpaths c
  simp only [findcxx_findheaders]
  split
  · try dsimp only
    exact h0
  · split
    · try dsimp only
      exact h0
    · have h1 := cxxdiscovered_trans h0 (findcxx_base1_cxxdiscovered w target root CXXINCLUDEBASE _)
      split
      · try dsimp only
        exact h1
      · have h2 := cxxdiscovered_trans h1 (findcxx_base2_cxxdiscovered w target root CXXINCLUDEBASE _)
        split
        · try dsimp only
          exact h2
        · try dsimp only
          exact cxxdiscovered_trans h2 (findcxx_base3_cxxdiscovered w target root CXXINCLUDEBASE _)

theorem findcxxheaders_cxxdiscovered (cfg : config) (w : world) (target : CStr) (c : commandargs) :
    cxxdiscovered c (findcxxheaders cfg w target c).2 := by
  have h0 := findcxx_findheaders_cxxdiscovered cfg w target
    (c.stdpaths.headD [] ++ "/../../..".toList) c
  simp only [findcxxheaders]
  split
  · try dsimp only
    exact h0
  · try dsimp only
    exact cxxdiscovered_trans h0 (findcxx_findheaders_cxxdiscovered cfg w target [] _)

theorem std_trydir_discovered (w : world) (c : commandargs) (dir : CStr) :
    discovered c (std_trydir w c dir).2 := by
  unfold std_trydir
  split
  · split
    · exact discovered_refl c
    · exact discovered_stdpaths c _
  · exact discovered_refl c

theorem std_checkdir_discovered (w : world) (target : CStr) (c : commandargs) (d : CStr) :
    discovered c (std_checkdir w target c d).2 := by
  have h1 := std_trydir_discovered w c (d ++ "/".toList ++ target ++ "/include".toList)
  simp only [std_checkdir]
  split
  · exact h1
  · have h2 := discovered_trans h1 (std_trydir_discovered w _
      (d ++ "/".toList ++ target ++ "/sys-root/mingw/include".toList))
    split
    · exact h2
    · exact discovered_trans h2 (std_trydir_discovered w _ _)

theorem std_checkentries_discovered (w : world) (target : CStr) (l : List CStr)
    (c : commandargs) (r : Bool × commandargs)
    (h : std_checkentries w target l c = some r) : discovered c r.2 := by
  induction l generalizing c with
  | nil =>
    simp only [std_checkentries, Option.some.injEq] at h
    subst h
    exact discovered_refl c
  | cons e rest ih =>
    simp only [std_checkentries] at h
    split at h
    · exact absurd h (by simp)
    · rename_i path _
      split at h
      · simp only [Option.some.injEq] at h
        subst h
        exact std_checkdir_discovered w target c path
      · exact discovered_trans (std_checkdir_discovered w target c path) (ih _ h)

theorem std_bases_discovered (w : world) (target : CStr) (l : List CStr) (c : commandargs) :
    discovered c (std_bases w target l c).2 := by
  induction l generalizing c with
  | nil => exact discovered_refl c
  | cons d rest ih =>
    simp only [std_bases]
    split
    · exact std_checkdir_discovered w target c d
    · exact discovered_trans (std_checkdir_discovered w target c d) (ih _)

theorem findstdheader_discovered (cfg : config) (w : world) (env : environ) (target : CStr)
    (c : commandargs) (r : Bool × commandargs)
    (h : findstdheader cfg w env target c = some r) : discovered c r.2 := by
  have hsys : ∀ c' : commandargs, discovered c'
      (if cfg.NO_SYS_PATH = true then (false, c') else std_bases w target STDINCLUDEBASE c').2 := by
    intro c'
    split
    · exact discovered_refl c'
    · exact std_bases_discovered w target _ c'
  have hbuiltin : ∀ r : Bool × commandargs,
      (match cfg.MINGW_PATH with
        | none =>
          some (if cfg.NO_SYS_PATH = true then (false, c)
            else std_bases w target STDINCLUDEBASE c)
        | some mp =>
          if mp = [] then
            some (if cfg.NO_SYS_PATH = true then (false, c)
              else std_bases w target STDINCLUDEBASE c)
          else
            match std_checkpath w target c mp with
            | none => none
            | some r =>
              if r.1 = true then some r
              else some (if cfg.NO_SYS_PATH = true then (false, r.2)
                else std_bases w target STDINCLUDEBASE r.2)) = some r → discovered c r.2 := by
    intro r hr
    split at hr
    · simp only [Option.some.injEq] at hr
      subst hr
      exact hsys c
    · split at hr
      · simp only [Option.some.injEq] at hr
        subst hr
        exact hsys c
      · split at hr
        · exact absurd hr (by simp)
        · rename_i r' hr'
          have h1 := std_checkentries_discovered w target _ c r' hr'
          split at hr
          · simp only [Option.some.injEq] at hr
            subst hr
            exact h1
          · simp only [Option.some.injEq] at hr
            subst hr
            exact discovered_trans h1 (hsys _)
  simp only [findstdheader] at h
  split at h
  · exact hbuiltin r h
  · split at h
    · exact hbuiltin r h
    · exact std_checkentries_discovered w target _ c r h

theorem findtarget_discovered (cfg : config) (w : world) (env : environ) (l : List CStr)
    (c : commandargs) (r : Option CStr × commandargs)
    (h : findtarget cfg w env l c = some r) : discovered c r.2 := by
  induction l generalizing c with
  | nil =>
    simp only [findtarget, Option.some.injEq] at h
    subst h
    exact discovered_refl c
  | cons t rest ih =>
    simp only [findtarget] at h
    split at h
    · exact absurd h (by simp)
    · rename_i r' hr'
      have h1 := findstdheader_discovered cfg w env t c r' hr'
      split at h
      · simp only [Option.some.injEq] at h
        subst h
        exact h1
      · exact discovered_trans h1 (ih _ h)

theorem findintrinheaders_discovered (cfg : config) (w : world) (c : commandargs) (d : CStr) :
    discovered c (findintrinheaders cfg w c d).2 := by
  unfold findintrinheaders
  cases c
  dsimp only
  split <;> rfl

end Wclang

namespace Wclang

/-! ## The rounds of `parseargs` -/

theorem parsed_update_iscxx_find (cfg : config) (w : world) (target : CStr) (c : commandargs) :
    parsed c (findcxxheaders cfg w target { c with iscxx := true }).2 :=
  parsed_trans (by cases c; rfl)
    (cxxdiscovered_parsed (findcxxheaders_cxxdiscovered cfg w target _))

theorem findcxxheaders_kept (cfg : config) (w : world) (target : CStr) (c : commandargs) :
    (findcxxheaders cfg w target c).2.iscompilestep = c.iscompilestep
    ∧ (findcxxheaders cfg w target c).2.islinkstep = c.islinkstep
    ∧ (findcxxheaders cfg w target c).2.cflags = c.cflags
    ∧ (findcxxheaders cfg w target c).2.cxxflags = c.cxxflags := by
  have h := findcxxheaders_cxxdiscovered cfg w target c
  unfold cxxdiscovered at h
  rw [h]
  exact ⟨rfl, rfl, rfl, rfl⟩

theorem eq_of_strncmp_isnul (arg : CStr) (a b : Char)
    (h1 : strncmp arg [a, b] 2 = true) (h2 : isnul arg 2 = true) : arg = [a, b] := by
  match arg with
  | [] => simp [strncmp] at h1
  | [_] => simp [strncmp] at h1
  | [x, y] =>
    simp only [strncmp, Bool.and_eq_true, beq_iff_eq, and_true] at h1
    rw [h1.1, h1.2]
  | _ :: _ :: _ :: _ => simp [isnul] at h2

set_option maxHeartbeats 1000000 in
theorem parsecommand_round (cfg : config) (target : CStr) (env : List CStr)
    (arg : CStr) (nextarg : Option CStr) (st : parsestate) :
    roundspec st arg nextarg (parsecommand cfg target env arg st) := by
  simp only [parsecommand, invalid_argument]
  repeat' split
  all_goals first
    | (show True
       trivial)
    | (show stepspec _ _
       refine ⟨?_, ?_, ?_, rfl, rfl, rfl⟩
       · cases st with | mk c d i => cases c; rfl
       · exact id
       · exact id)

set_option maxHeartbeats 2000000 in
theorem parsearg_round (cfg : config) (w : world) (target : CStr) (env : List CStr)
    (arg : CStr) (nextarg : Option CStr) (st : parsestate) :
    roundspec st arg nextarg (parsearg cfg w target env arg nextarg st) := by
  have hc := parsecommand_round cfg target env arg nextarg st
  have hk := findcxxheaders_kept cfg w target { st.cmdargs with iscxx := true }
  have hp := parsed_update_iscxx_find cfg w target st.cmdargs
  have step : ∀ st2 : parsestate,
      (parsed st.cmdargs st2.cmdargs
        ∧ (st.cmdargs.iscompilestep = true → st2.cmdargs.iscompilestep = true)
        ∧ (st.cmdargs.islinkstep = true → st2.cmdargs.islinkstep = true)
        ∧ st2.cmdargs.cflags = st.cmdargs.cflags
        ∧ st2.cmdargs.cxxflags = st.cmdargs.cxxflags
        ∧ st2.io = st.io) → stepspec st st2 := fun _ h => h
  simp only [parsearg]
  repeat' split
  all_goals first
    | (with_reducible exact hc)
    | (show True
       trivial)
    | (first
        | (show stepspec _ _
           refine step _ ⟨?_, ?_, ?_, ?_, ?_, rfl⟩)
        | (show stepspec _ _ ∧ _ ∧ _
           refine ⟨step _ ⟨?_, ?_, ?_, ?_, ?_, rfl⟩, ?_, _, rfl, ?_⟩
           rotate_left 5
           · apply eq_of_strncmp_isnul <;> assumption
           · simp_all [languages, strcmp])
       · first
          | exact hp
          | (cases st with | mk c d i => cases c; rfl)
       · intro h
         first
          | exact h
          | rfl
          | (rw [hk.1]; exact h)
       · intro h
         first
          | exact h
          | rfl
          | (rw [hk.2.1]; exact h)
       · first
          | rfl
          | exact hk.2.2.1
       · first
          | rfl
          | exact hk.2.2.2)

end Wclang

namespace Wclang

/-! ## The loop of `parseargs` -/

theorem stepspec_refl (st : parsestate) : stepspec st st :=
  ⟨parsed_refl _, id, id, rfl, rfl, rfl⟩

theorem stepspec_trans {a b c : parsestate} (h1 : stepspec a b) (h2 : stepspec b c) :
    stepspec a c :=
  ⟨parsed_trans h1.1 h2.1, fun h => h2.2.1 (h1.2.1 h), fun h => h2.2.2.1 (h1.2.2.1 h),
    h2.2.2.2.1.trans h1.2.2.2.1, h2.2.2.2.2.1.trans h1.2.2.2.2.1,
    h2.2.2.2.2.2.trans h1.2.2.2.2.2⟩

theorem parseloop_nil (cfg : config) (w : world) (target : CStr) (env : List CStr)
    (st : parsestate) : parseloop cfg w target env [] st = result.ok st := rfl

/-- A round on a bare "-x" without a following token ends the process. -/
theorem parsearg_x_none (cfg : config) (w : world) (target : CStr) (env : List CStr)
    (st : parsestate) :
    parsearg cfg w target env "-x".toList none st
      = round.stop EXIT_FAILURE
          (ERRORMSG cfg st.io "missing argument for '-x'".toList "parseargs".toList 1067) := rfl

/-- A round on "-c" sets the compile-step flag. -/
theorem parsearg_dash_c (cfg : config) (w : world) (target : CStr) (env : List CStr)
    (nx : Option CStr) (st st1 : parsestate)
    (h : parsearg cfg w target env "-c".toList nx st = round.next st1) :
    st1.cmdargs.iscompilestep = true := by
  have e : parsearg cfg w target env "-c".toList nx st
      = round.next { st with cmdargs := { st.cmdargs with iscompilestep := true } } := rfl
  rw [e] at h
  cases h
  rfl

/-- A round on "-o" sets the link-step flag. -/
theorem parsearg_dash_o (cfg : config) (w : world) (target : CStr) (env : List CStr)
    (nx : Option CStr) (st st1 : parsestate)
    (h : parsearg cfg w target env "-o".toList nx st = round.next st1) :
    st1.cmdargs.islinkstep = true := by
  have e : parsearg cfg w target env "-o".toList nx st
      = round.next { st with cmdargs := { st.cmdargs with islinkstep := true } } := rfl
  rw [e] at h
  cases h
  rfl

/-- Only a bare "-x" looks at the following token. -/
theorem parsearg_indep (cfg : config) (w : world) (target : CStr) (env : List CStr)
    (arg : CStr) (nx nx2 : Option CStr) (st : parsestate) (h : arg ≠ "-x".toList) :
    parsearg cfg w target env arg nx st = parsearg cfg w target env arg nx2 st := by
  unfold parsearg
  by_cases h0 : arg.head? ≠ some '-'
  · rw [if_pos h0, if_pos h0]
  · rw [if_neg h0, if_neg h0]
    split <;> try rfl
    by_cases h1 : strncmp arg "-x".toList 2 = true
    · by_cases h2 : isnul arg 2 = true
      · exact absurd (eq_of_strncmp_isnul arg '-' 'x' h1 h2) h
      · rw [if_pos h1, if_pos h1, if_neg h2, if_neg h2]
    · rw [if_neg h1, if_neg h1]

theorem parseloop_spec (cfg : config) (w : world) (target : CStr) (env : List CStr) :
    ∀ (n : Nat) (l : List CStr) (st st2 : parsestate), l.length ≤ n →
      parseloop cfg w target env l st = result.ok st2 → stepspec st st2 := by
  intro n
  induction n with
  | zero =>
    intro l st st2 hl h
    have : l = [] := List.length_eq_zero.mp (Nat.le_zero.mp hl)
    subst this
    simp only [parseloop_nil, result.ok.injEq] at h
    subst h
    exact stepspec_refl st
  | succ n ih =>
    intro l st st2 hl h
    cases l with
    | nil =>
      simp only [parseloop_nil, result.ok.injEq] at h
      subst h
      exact stepspec_refl st
    | cons arg rest =>
      rw [parseloop] at h
      have hr := parsearg_round cfg w target env arg rest.head? st
      have hlen : rest.length ≤ n := by simpa using hl
      cases hp : parsearg cfg w target env arg rest.head? st with
      | next st1 =>
        rw [hp] at h hr
        exact stepspec_trans hr (ih rest st1 st2 hlen h)
      | stop status io =>
        rw [hp] at h
        exact absurd h (by simp)
      | skip st1 =>
        rw [hp] at h hr
        cases rest with
        | nil =>
          simp only [result.ok.injEq] at h
          subst h
          exact hr.1
        | cons p rest2 =>
          have hlen2 : rest2.length ≤ n := by
            simp only [List.length_cons] at hlen
            omega
          exact stepspec_trans hr.1 (ih rest2 st1 st2 hlen2 h)

/-- A token that every round turns into a state with the property `P`, which
later rounds keep, leaves `P` at the end of the loop wherever it stands. -/
theorem parseloop_sees (cfg : config) (w : world) (target : CStr) (env : List CStr)
    (tok : CStr) (P : parsestate → Prop)
    (hx : tok ≠ "-x".toList) (hlang : tok ∉ languages)
    (htok : ∀ nx st st1, parsearg cfg w target env tok nx st = round.next st1 → P st1)
    (hmono : ∀ st st2, stepspec st st2 → P st → P st2) :
    ∀ (n : Nat) (l : List CStr) (st st2 : parsestate), l.length ≤ n → tok ∈ l →
      parseloop cfg w target env l st = result.ok st2 → P st2 := by
  intro n
  induction n with
  | zero =>
    intro l st st2 hl hmem h
    have : l = [] := List.length_eq_zero.mp (Nat.le_zero.mp hl)
    subst this
    exact absurd hmem (List.not_mem_nil _)
  | succ n ih =>
    intro l st st2 hl hmem h
    cases l with
    | nil => exact absurd hmem (List.not_mem_nil _)
    | cons arg rest =>
      rw [parseloop] at h
      have hr := parsearg_round cfg w target env arg rest.head? st
      have hlen : rest.length ≤ n := by simpa using hl
      cases hp : parsearg cfg w target env arg rest.head? st with
      | next st1 =>
        rw [hp] at h hr
        rcases List.mem_cons.mp hmem with heq | hin
        · subst heq
          exact hmono st1 st2 (parseloop_spec cfg w target env _ rest st1 st2 (le_refl _) h)
            (htok _ _ _ hp)
        · exact ih rest st1 st2 hlen hin h
      | stop status io =>
        rw [hp] at h
        exact absurd h (by simp)
      | skip st1 =>
        rw [hp] at h hr
        obtain ⟨_, harg, p, hnx, hpl⟩ := hr
        have hne : tok ≠ arg := fun e => hx (e.trans harg)
        cases rest with
        | nil => simp at hnx
        | cons p2 rest2 =>
          simp only [List.head?_cons, Option.some.injEq] at hnx
          subst hnx
          have hlen2 : rest2.length ≤ n := by
            simp only [List.length_cons] at hlen
            omega
          have hin : tok ∈ rest2 := by
            rcases List.mem_cons.mp hmem with heq | hin
            · exact absurd heq hne
            · rcases List.mem_cons.mp hin with heq | hin2
              · exact absurd (heq ▸ hpl) hlang
              · exact hin2
          exact ih rest2 st1 st2 hlen2 hin h

/-- When the loop runs through `pre` to the state `st`, on `pre ++ rest` it
goes on with `rest` from `st`. -/
theorem parseloop_append (cfg : config) (w : world) (target : CStr) (env : List CStr)
    (rest : List CStr) :
    ∀ (n : Nat) (pre : List CStr) (st0 st : parsestate), pre.length ≤ n →
      parseloop cfg w target env pre st0 = result.ok st →
      parseloop cfg w target env (pre ++ rest) st0 = parseloop cfg w target env rest st := by
  intro n
  induction n with
  | zero =>
    intro pre st0 st hl h
    have : pre = [] := List.length_eq_zero.mp (Nat.le_zero.mp hl)
    subst this
    simp only [parseloop_nil, result.ok.injEq] at h
    subst h
    rfl
  | succ n ih =>
    intro pre st0 st hl h
    cases pre with
    | nil =>
      simp only [parseloop_nil, result.ok.injEq] at h
      subst h
      rfl
    | cons arg pre2 =>
      rw [parseloop] at h
      rw [List.cons_append, parseloop]
      have hlen : pre2.length ≤ n := by simpa using hl
      cases pre2 with
      | nil =>
        have hx : arg ≠ "-x".toList := by
          rintro rfl
          rw [List.head?_nil, parsearg_x_none] at h
          exact absurd h (by simp)
        rw [parsearg_indep cfg w target env arg _ ([] : List CStr).head? st0 hx]
        have hr := parsearg_round cfg w target env arg ([] : List CStr).head? st0
        cases hp : parsearg cfg w target env arg ([] : List CStr).head? st0 with
        | next st1 =>
          rw [hp] at h
          simp only [parseloop_nil, result.ok.injEq] at h
          subst h
          rfl
        | stop status io =>
          rw [hp] at h
          exact absurd h (by simp)
        | skip st1 =>
          rw [hp] at hr
          obtain ⟨_, _, p, hnx, _⟩ := hr
          simp at hnx
      | cons p pre3 =>
        have hhead : (p :: pre3 ++ rest).head? = (p :: pre3).head? := rfl
        rw [hhead]
        cases hp : parsearg cfg w target env arg (p :: pre3).head? st0 with
        | next st1 =>
          rw [hp] at h
          exact ih (p :: pre3) st1 st hlen h
        | stop status io =>
          rw [hp] at h
          exact absurd h (by simp)
        | skip st1 =>
          rw [hp] at h
          have hlen3 : pre3.length ≤ n := by
            simp only [List.length_cons] at hlen
            omega
          exact ih pre3 st1 st hlen3 h

end Wclang

namespace Wclang

/-! ## The run of `main` up to the argument vector -/

theorem keptflags_refl (a : commandargs) : keptflags a a := ⟨rfl, rfl, rfl, rfl⟩

theorem keptflags_trans {a b c : commandargs} (h1 : keptflags a b) (h2 : keptflags b c) :
    keptflags a c :=
  ⟨h2.1.trans h1.1, h2.2.1.trans h1.2.1, h2.2.2.1.trans h1.2.2.1, h2.2.2.2.trans h1.2.2.2⟩

theorem discovered_keptflags {a b : commandargs} (h : discovered a b) : keptflags a b := by
  unfold discovered at h
  rw [h]
  exact ⟨rfl, rfl, rfl, rfl⟩

theorem find_target_and_headers_kept (cfg : config) (w : world) (e : CStr) :
    ∀ (fuel : Nat) (st st1 : mainstate),
      find_target_and_headers cfg w e fuel st = some (result.ok st1) →
      keptflags st.cmdargs st1.cmdargs := by
  intro fuel
  induction fuel with
  | zero =>
    intro st st1 h
    simp [find_target_and_headers] at h
  | succ n ih =>
    intro st st1 h
    simp only [find_target_and_headers] at h
    split at h
    · exact absurd h (by simp)
    · rename_i st2 hfound
      have hk : keptflags st.cmdargs st2.cmdargs := by
        unfold main_resolve at hfound
        split at hfound
        · split at hfound
          · exact absurd hfound (by simp)
          · rename_i r hr
            simp only [Option.some.injEq] at hfound
            subst hfound
            have := discovered_keptflags (findstdheader_discovered cfg w st.env _ _ r hr)
            exact this
        · split at hfound
          · split at hfound
            · exact absurd hfound (by simp)
            · rename_i t c hr
              simp only [Option.some.injEq] at hfound
              subst hfound
              have := discovered_keptflags
                (findtarget_discovered cfg w st.env TARGET32 st.cmdargs (t, c) hr)
              exact this
          · split at hfound
            · split at hfound
              · exact absurd hfound (by simp)
              · rename_i t c hr
                simp only [Option.some.injEq] at hfound
                subst hfound
                have := discovered_keptflags
                  (findtarget_discovered cfg w st.env TARGET64 st.cmdargs (t, c) hr)
                exact this
            · simp only [Option.some.injEq] at hfound
              subst hfound
              exact keptflags_refl _
      split at h
      · exact absurd h (by simp)
      · split at h
        · split at h
          · split at h
            · have h3 := ih _ _ h
              exact keptflags_trans hk h3
            · exact absurd h (by simp)
          · exact absurd h (by simp)
        · simp only [Option.some.injEq, result.ok.injEq] at h
          subst h
          exact hk

theorem parsed_keptargs {a b : commandargs} (h : parsed a b) :
    b.args = a.args ∧ b.linkerflags = a.linkerflags ∧ b.target = a.target
      ∧ b.compiler = a.compiler := by
  unfold parsed at h
  rw [h]
  exact ⟨rfl, rfl, rfl, rfl⟩

theorem normalize_parsed (c : commandargs) : parsed c (normalize c) := by
  unfold normalize
  split
  · cases c; rfl
  · split
    · cases c; rfl
    · exact parsed_refl c

theorem rundelayed_parsed (cfg : config) (s : commandargs × streams) (dc : dcfun × CStr) :
    parsed s.1 (rundelayed cfg s dc).1 := by
  unfold rundelayed
  dsimp only
  split
  · exact parsed_refl _
  · split
    · split
      · cases s with | mk c i => cases c; rfl
      · cases s with | mk c i => cases c; rfl
    · cases s with | mk c i => cases c; rfl

theorem foldl_rundelayed_parsed (cfg : config) (l : List (dcfun × CStr))
    (s : commandargs × streams) : parsed s.1 (l.foldl (rundelayed cfg) s).1 := by
  induction l generalizing s with
  | nil => exact parsed_refl _
  | cons dc rest ih => exact parsed_trans (rundelayed_parsed cfg s dc) (ih _)

/-- A delayed command does nothing to the command state of a run that is not
a link step. -/
theorem rundelayed_nolink (cfg : config) (s : commandargs × streams) (dc : dcfun × CStr)
    (h : s.1.islinkstep = false) : (rundelayed cfg s dc).1 = s.1 := by
  unfold rundelayed
  simp [h]

theorem foldl_rundelayed_nolink (cfg : config) (l : List (dcfun × CStr))
    (s : commandargs × streams) (h : s.1.islinkstep = false) :
    (l.foldl (rundelayed cfg) s).1 = s.1 := by
  induction l generalizing s with
  | nil => rfl
  | cons dc rest ih =>
    have h1 := rundelayed_nolink cfg s dc h
    have h2 := ih (rundelayed cfg s dc) (by rw [h1]; exact h)
    exact h2.trans h1

/-- What `parseargs` returns: the loop ran through `argv` to a state `stp`, and
the returned state is the normalized one after the delayed commands. -/
theorem parseargs_result (cfg : config) (w : world) (argv : List CStr) (target : CStr)
    (cmdargs : commandargs) (env : List CStr) (io : streams) (r : commandargs × streams)
    (h : parseargs cfg w argv target cmdargs env io = result.ok r) :
    ∃ stp, parseloop cfg w target env argv { cmdargs := cmdargs, io := io } = result.ok stp
      ∧ r = stp.delayedcommands.foldl (rundelayed cfg) (normalize stp.cmdargs, stp.io)
      ∧ parsed cmdargs r.1 := by
  unfold parseargs at h
  split at h
  · rename_i stp hst
    simp only [result.ok.injEq] at h
    refine ⟨stp, hst, h.symm, ?_⟩
    have h1 := (parseloop_spec cfg w target env _ argv _ stp (le_refl _) hst).1
    have h2 := normalize_parsed stp.cmdargs
    have h3 := foldl_rundelayed_parsed cfg stp.delayedcommands (normalize stp.cmdargs, stp.io)
    rw [← h]
    exact parsed_trans h1 (parsed_trans h2 h3)
  · exact absurd h (by simp)
  · exact absurd h (by simp)

theorem setupargs_kept (cfg : config) (w : world) (st : mainstate) :
    keptflags st.cmdargs (setupargs cfg w st)
    ∧ (setupargs cfg w st).target = st.cmdargs.target
    ∧ (setupargs cfg w st).iscompilestep = st.cmdargs.iscompilestep
    ∧ (setupargs cfg w st).islinkstep = st.cmdargs.islinkstep := by
  have h := findcxxheaders_cxxdiscovered cfg w st.cmdargs.target st.cmdargs
  unfold cxxdiscovered at h
  unfold setupargs keptflags
  dsimp only
  rw [h]
  exact ⟨⟨rfl, rfl, rfl, rfl⟩, rfl, rfl, rfl⟩

theorem main_setup_ok (cfg : config) (w : world) (argv : List CStr) (st st2 : mainstate)
    (h : main_setup cfg w argv st = result.ok st2) :
    parseargs cfg w argv st.cmdargs.target (setupargs cfg w st) (setupargs cfg w st).env st.io
        = result.ok (st2.cmdargs, st2.io)
    ∧ st2.targettype = st.targettype ∧ st2.env = st.env := by
  unfold main_setup at h
  dsimp only at h
  split at h
  · exact absurd h (by simp)
  · split at h
    · exact absurd h (by simp)
    · split at h
      · rename_i c io hp
        simp only [result.ok.injEq] at h
        subst h
        exact ⟨hp, rfl, rfl⟩
      · exact absurd h (by simp)
      · exact absurd h (by simp)

theorem subsystemflags_kept (c : commandargs) :
    (subsystemflags c).args = c.args
    ∧ (subsystemflags c).iscompilestep = c.iscompilestep
    ∧ (subsystemflags c).islinkstep = c.islinkstep
    ∧ (subsystemflags c).cflags = c.cflags
    ∧ (subsystemflags c).cxxflags = c.cxxflags
    ∧ (c.islinkstep = false → (subsystemflags c).linkerflags = c.linkerflags) := by
  unfold subsystemflags
  split
  · rename_i hl
    split <;> exact ⟨rfl, rfl, rfl, rfl, rfl, fun h => absurd hl (by simp [h])⟩
  · exact ⟨rfl, rfl, rfl, rfl, rfl, fun _ => rfl⟩

theorem crtworkaround_kept (st : mainstate) :
    (crtworkaround st).args = st.cmdargs.args
    ∧ (crtworkaround st).iscompilestep = st.cmdargs.iscompilestep
    ∧ (crtworkaround st).islinkstep = st.cmdargs.islinkstep
    ∧ (crtworkaround st).cflags = st.cmdargs.cflags
    ∧ (crtworkaround st).linkerflags = st.cmdargs.linkerflags
    ∧ ((crtworkaround st).cxxflags = st.cmdargs.cxxflags
        ∨ (crtworkaround st).cxxflags = st.cmdargs.cxxflags ++ ["-D__CRT__NO_INLINE".toList]) := by
  unfold crtworkaround
  dsimp only
  split
  · split
    · exact ⟨rfl, rfl, rfl, rfl, rfl, Or.inr rfl⟩
    · exact ⟨rfl, rfl, rfl, rfl, rfl, Or.inl rfl⟩
  · exact ⟨rfl, rfl, rfl, rfl, rfl, Or.inl rfl⟩

theorem flagstep_of_eq {a b : commandargs}
    (h : b.args = a.args ∧ b.iscompilestep = a.iscompilestep ∧ b.islinkstep = a.islinkstep
      ∧ b.cflags = a.cflags ∧ b.cxxflags = a.cxxflags
      ∧ (a.islinkstep = false → b.linkerflags = a.linkerflags)) : flagstep a b :=
  ⟨h.1, h.2.1, h.2.2.1, h.2.2.2.1, Or.inl h.2.2.2.2.1, h.2.2.2.2.2⟩

theorem flagstep_trans_eq {a b c : commandargs} (h1 : flagstep a b)
    (h2 : c.args = b.args ∧ c.iscompilestep = b.iscompilestep ∧ c.islinkstep = b.islinkstep
      ∧ c.cflags = b.cflags ∧ c.cxxflags = b.cxxflags
      ∧ (b.islinkstep = false → c.linkerflags = b.linkerflags)) : flagstep a c := by
  obtain ⟨a1, a2, a3, a4, a5, a6⟩ := h1
  obtain ⟨b1, b2, b3, b4, b5, b6⟩ := h2
  refine ⟨b1.trans a1, b2.trans a2, b3.trans a3, b4.trans a4, ?_, ?_⟩
  · rw [b5]; exact a5
  · intro hl
    exact (b6 (a3.trans hl)).trans (a6 hl)

theorem subsystemflags_step (c : commandargs) : flagstep c (subsystemflags c) := by
  apply flagstep_of_eq
  unfold subsystemflags
  split
  · rename_i hl
    split <;> exact ⟨rfl, rfl, rfl, rfl, rfl, fun h => absurd hl (by simp [h])⟩
  · exact ⟨rfl, rfl, rfl, rfl, rfl, fun _ => rfl⟩

theorem crtworkaround_step (st : mainstate) : flagstep st.cmdargs (crtworkaround st) := by
  unfold crtworkaround
  dsimp only
  split
  · split
    · exact ⟨rfl, rfl, rfl, rfl, Or.inr rfl, fun _ => rfl⟩
    · exact ⟨rfl, rfl, rfl, rfl, Or.inl rfl, fun _ => rfl⟩
  · exact ⟨rfl, rfl, rfl, rfl, Or.inl rfl, fun _ => rfl⟩

theorem locatecompiler_step (w : world) (e : environ) (c c2 : commandargs)
    (h : locatecompiler w e c = some c2) :
    c2.args = c.args ∧ c2.iscompilestep = c.iscompilestep ∧ c2.islinkstep = c.islinkstep
      ∧ c2.cflags = c.cflags ∧ c2.cxxflags = c.cxxflags
      ∧ (c.islinkstep = false → c2.linkerflags = c.linkerflags) := by
  unfold locatecompiler at h
  split at h
  · dsimp only at h
    split at h
    · exact absurd h (by simp)
    · simp only [Option.some.injEq] at h
      subst h
      exact ⟨rfl, rfl, rfl, rfl, rfl, fun _ => rfl⟩
  · simp only [Option.some.injEq] at h
    subst h
    exact ⟨rfl, rfl, rfl, rfl, rfl, fun _ => rfl⟩

theorem libgccflag_step (w : world) (c c2 : commandargs) (h : libgccflag w c = some c2) :
    c2.args = c.args ∧ c2.iscompilestep = c.iscompilestep ∧ c2.islinkstep = c.islinkstep
      ∧ c2.cflags = c.cflags ∧ c2.cxxflags = c.cxxflags
      ∧ (c.islinkstep = false → c2.linkerflags = c.linkerflags) := by
  unfold libgccflag at h
  split at h
  · rename_i hl
    dsimp only at h
    split at h
    · split at h
      · exact absurd h (by simp)
      · simp only [Option.some.injEq] at h
        subst h
        exact ⟨rfl, rfl, rfl, rfl, rfl, fun h => absurd hl (by simp [h])⟩
    · simp only [Option.some.injEq] at h
      subst h
      exact ⟨rfl, rfl, rfl, rfl, rfl, fun _ => rfl⟩
  · simp only [Option.some.injEq] at h
    subst h
    exact ⟨rfl, rfl, rfl, rfl, rfl, fun _ => rfl⟩

/-- What `main_flags` leaves alone when it falls through. -/
theorem main_flags_ok (cfg : config) (w : world) (st st3 : mainstate)
    (h : main_flags cfg w st = result.ok st3) : flagstep st.cmdargs st3.cmdargs := by
  have h1 := subsystemflags_step st.cmdargs
  have h2 := crtworkaround_step { st with cmdargs := subsystemflags st.cmdargs }
  have h12 : flagstep st.cmdargs
      (crtworkaround { st with cmdargs := subsystemflags st.cmdargs }) := by
    obtain ⟨a1, a2, a3, a4, a5, a6⟩ := h1
    obtain ⟨b1, b2, b3, b4, b5, b6⟩ := h2
    refine ⟨b1.trans a1, b2.trans a2, b3.trans a3, b4.trans a4, ?_, ?_⟩
    · rcases a5 with a5 | a5
      · rcases b5 with b5 | b5
        · exact Or.inl (b5.trans a5)
        · exact Or.inr (b5.trans (by rw [a5]))
      · unfold subsystemflags at a5
        split at a5
        · split at a5 <;> simp at a5
        · simp at a5
    · intro hl
      exact (b6 (a3.trans hl)).trans (a6 hl)
  unfold main_flags at h
  dsimp only at h
  cases hloc : locatecompiler w st.env
      (crtworkaround { st with cmdargs := subsystemflags st.cmdargs }) with
  | none =>
    rw [hloc] at h
    exact absurd h (by simp)
  | some c =>
    rw [hloc] at h
    dsimp only at h
    have h3 := flagstep_trans_eq h12 (locatecompiler_step w st.env _ c hloc)
    by_cases hg : (!(getpathofcommand w (mingwenviron cfg st.env)
        (c.target ++ (if c.iscxx then "-g++".toList else "-gcc".toList))).1) = true
    · rw [if_pos hg] at h
      exact absurd h (by simp)
    · rw [if_neg hg] at h
      cases hlib : libgccflag w c with
      | none =>
        rw [hlib] at h
        exact absurd h (by simp)
      | some c2 =>
        rw [hlib] at h
        simp only [result.ok.injEq] at h
        subst h
        exact flagstep_trans_eq h3 (libgccflag_step w c c2 hlib)

theorem pushdirs_eq (paths args : List CStr) : pushdirs args paths = args ++ isystem paths := by
  induction paths generalizing args with
  | nil => simp [pushdirs, isystem]
  | cons d rest ih => simp [pushdirs, isystem, ih]

theorem pushargs_eq (c : commandargs) (user args : List CStr) :
    pushargs c user args = args ++ user.filter (forwarded c) := by
  induction user generalizing args with
  | nil => simp [pushargs]
  | cons a rest ih =>
    simp only [pushargs]
    split
    · rename_i h
      rw [ih, List.filter_cons_of_pos h, List.append_assoc]
      rfl
    · rename_i h
      rw [ih, List.filter_cons_of_neg h]

/-- The vector after the target block: the five fixed tokens, some further
flags, and the `-isystem` pairs of the three path lists in the order
intrinsic, C++, standard C; the block leaves the compiler, the flag lists and
the step classification alone. -/
theorem targetblock_spec (cfg : config) (w : world) (st : mainstate) :
    (∃ mid, (targetblock cfg w st).cmdargs.args
        = st.cmdargs.args
          ++ ([cfg.CLANG_TARGET_OPT, (targetblock cfg w st).cmdargs.target, "-nostdinc".toList,
                "-nostdinc++".toList, "-Qunused-arguments".toList]
              ++ mid
              ++ isystem (targetblock cfg w st).cmdargs.intrinpaths
              ++ isystem (targetblock cfg w st).cmdargs.cxxpaths
              ++ isystem (targetblock cfg w st).cmdargs.stdpaths))
    ∧ (targetblock cfg w st).cmdargs.compiler = st.cmdargs.compiler
    ∧ (targetblock cfg w st).cmdargs.cflags = st.cmdargs.cflags
    ∧ (targetblock cfg w st).cmdargs.cxxflags = st.cmdargs.cxxflags
    ∧ (targetblock cfg w st).cmdargs.linkerflags = st.cmdargs.linkerflags
    ∧ (targetblock cfg w st).cmdargs.iscxx = st.cmdargs.iscxx
    ∧ (targetblock cfg w st).cmdargs.iscompilestep = st.cmdargs.iscompilestep
    ∧ (targetblock cfg w st).cmdargs.islinkstep = st.cmdargs.islinkstep
    ∧ (targetblock cfg w st).cmdargs.usemingwlinker = st.cmdargs.usemingwlinker := by
  have hd := findintrinheaders_discovered cfg w st.cmdargs st.cmdargs.compilerbinpath
  unfold discovered at hd
  unfold targetblock
  dsimp only
  simp only [pushdirs_eq]
  have hassoc : ∀ (A F M I1 I2 I3 : List CStr),
      ((((A ++ F) ++ M) ++ I1) ++ I2) ++ I3 = A ++ (F ++ M ++ I1 ++ I2 ++ I3) := by
    intros
    simp only [List.append_assoc]
  rw [hd]
  exact ⟨⟨_, hassoc _ _ _ _ _ _⟩, rfl, rfl, rfl, rfl, rfl, rfl, rfl, rfl⟩

end Wclang

namespace Wclang

/-- The stages of a run of `main` that reaches the complete argument vector. -/
theorem main_args_ok (cfg : config) (w : world) (env : environ) (fuel : Nat)
    (argv0 : CStr) (user : List CStr) (stf : mainstate)
    (h : main_args cfg w env fuel (argv0 :: user) = some (result.ok stf)) :
    ∃ (e : CStr) (iscxx : Bool) (st1 st2 st3 : mainstate),
      find_target_and_headers cfg w e fuel { cmdargs := { iscxx := iscxx }, env := env }
          = some (result.ok st1)
      ∧ main_setup cfg w (argv0 :: user) st1 = result.ok st2
      ∧ main_flags cfg w st2 = result.ok st3
      ∧ stf = { pushhead cfg w st3 with
          cmdargs := { (pushhead cfg w st3).cmdargs with
            args := pushargs (pushhead cfg w st3).cmdargs user
              (pushhead cfg w st3).cmdargs.args } } := by
  unfold main_args at h
  dsimp only at h
  generalize programname argv0 = e at h
  cases hn : checkname e {} with
  | exit status io => rw [hn] at h; exact absurd h (by simp)
  | abort => rw [hn] at h; exact absurd h (by simp)
  | ok iscxx =>
    rw [hn] at h
    dsimp only at h
    cases hf : find_target_and_headers cfg w e fuel
        { cmdargs := { iscxx := iscxx }, env := env } with
    | none => rw [hf] at h; exact absurd h (by simp)
    | some r1 =>
      rw [hf] at h
      cases r1 with
      | exit status io => exact absurd h (by simp)
      | abort => exact absurd h (by simp)
      | ok st1 =>
        dsimp only at h
        cases hs : main_setup cfg w (argv0 :: user) st1 with
        | exit status io => rw [hs] at h; exact absurd h (by simp)
        | abort => rw [hs] at h; exact absurd h (by simp)
        | ok st2 =>
          rw [hs] at h
          dsimp only at h
          cases hm : main_flags cfg w st2 with
          | exit status io => rw [hm] at h; exact absurd h (by simp)
          | abort => rw [hm] at h; exact absurd h (by simp)
          | ok st3 =>
            rw [hm] at h
            simp only [Option.some.injEq, result.ok.injEq] at h
            exact ⟨e, iscxx, st1, st2, st3, hf, hs, hm, h.symm⟩

/-- The vector `pushhead` builds from an empty one. -/
theorem pushhead_spec (cfg : config) (w : world) (st : mainstate)
    (hargs : st.cmdargs.args = []) :
    (∃ block, (pushhead cfg w st).cmdargs.args
        = [(pushhead cfg w st).cmdargs.compiler]
          ++ (if (pushhead cfg w st).cmdargs.iscxx then (pushhead cfg w st).cmdargs.cxxflags
              else (pushhead cfg w st).cmdargs.cflags)
          ++ (pushhead cfg w st).cmdargs.linkerflags ++ block
      ∧ (block = [] ↔ ((pushhead cfg w st).cmdargs.islinkstep = true
          ∧ (pushhead cfg w st).cmdargs.usemingwlinker = subsystem.standard))
      ∧ (block ≠ [] → ∃ mid, block
          = [cfg.CLANG_TARGET_OPT, (pushhead cfg w st).cmdargs.target, "-nostdinc".toList,
              "-nostdinc++".toList, "-Qunused-arguments".toList]
            ++ mid
            ++ isystem (pushhead cfg w st).cmdargs.intrinpaths
            ++ isystem (pushhead cfg w st).cmdargs.cxxpaths
            ++ isystem (pushhead cfg w st).cmdargs.stdpaths))
    ∧ (pushhead cfg w st).cmdargs.cflags = st.cmdargs.cflags
    ∧ (pushhead cfg w st).cmdargs.cxxflags = st.cmdargs.cxxflags
    ∧ (pushhead cfg w st).cmdargs.linkerflags = st.cmdargs.linkerflags
    ∧ (pushhead cfg w st).cmdargs.iscompilestep = st.cmdargs.iscompilestep
    ∧ (pushhead cfg w st).cmdargs.islinkstep = st.cmdargs.islinkstep := by
  unfold pushhead
  by_cases hb : (!st.cmdargs.islinkstep || decide (st.cmdargs.usemingwlinker ≠ subsystem.standard))
      = true
  · rw [if_pos hb]
    obtain ⟨⟨mid, hmid⟩, h1, h2, h3, h4, h5, h6, h7, h8⟩ := targetblock_spec cfg w (pushflags st)
    generalize targetblock cfg w (pushflags st) = T at hmid h1 h2 h3 h4 h5 h6 h7 h8 ⊢
    have p1 : (pushflags st).cmdargs.args
        = [st.cmdargs.compiler]
          ++ (if st.cmdargs.iscxx then st.cmdargs.cxxflags else st.cmdargs.cflags)
          ++ st.cmdargs.linkerflags := by
      unfold pushflags
      dsimp only
      rw [hargs]
      rfl
    have p2 : (pushflags st).cmdargs.compiler = st.cmdargs.compiler
        ∧ (pushflags st).cmdargs.cflags = st.cmdargs.cflags
        ∧ (pushflags st).cmdargs.cxxflags = st.cmdargs.cxxflags
        ∧ (pushflags st).cmdargs.linkerflags = st.cmdargs.linkerflags
        ∧ (pushflags st).cmdargs.iscxx = st.cmdargs.iscxx
        ∧ (pushflags st).cmdargs.iscompilestep = st.cmdargs.iscompilestep
        ∧ (pushflags st).cmdargs.islinkstep = st.cmdargs.islinkstep
        ∧ (pushflags st).cmdargs.usemingwlinker = st.cmdargs.usemingwlinker :=
      ⟨rfl, rfl, rfl, rfl, rfl, rfl, rfl, rfl⟩
    obtain ⟨q1, q2, q3, q4, q5, q6, q7, q8⟩ := p2
    refine ⟨⟨[cfg.CLANG_TARGET_OPT, T.cmdargs.target, "-nostdinc".toList,
        "-nostdinc++".toList, "-Qunused-arguments".toList] ++ mid
        ++ isystem T.cmdargs.intrinpaths ++ isystem T.cmdargs.cxxpaths
        ++ isystem T.cmdargs.stdpaths, ?_, ?_, ?_⟩,
      h2.trans q2, h3.trans q3, h4.trans q4, h6.trans q6, h7.trans q7⟩
    · rw [hmid, p1, h1, h2, h3, h4, h5, q1, q2, q3, q4, q5]
    · constructor
      · intro hnil
        simp at hnil
      · rintro ⟨c1, c2⟩
        rw [h7, q7] at c1
        rw [h8, q8] at c2
        simp [c1, c2] at hb
    · intro _
      exact ⟨mid, rfl⟩
  · rw [if_neg hb]
    refine ⟨⟨[], ?_, ?_, ?_⟩, rfl, rfl, rfl, rfl, rfl⟩
    · unfold pushflags
      dsimp only
      rw [hargs]
      simp
    · constructor
      · intro _
        simp only [Bool.or_eq_true, Bool.not_eq_true', decide_eq_true_eq, not_or,
          Bool.not_eq_false, ne_eq, not_not] at hb
        exact hb
      · intro _
        rfl
    · intro hne
      exact absurd rfl hne

theorem forwarded_args (c : commandargs) (l : List CStr) :
    forwarded { c with args := l } = forwarded c := rfl

/-- The run of `main` up to the argument vector, in stages: `parseargs`, called
with empty compiler flag lists, returns the state of `st2` with empty linker
flags, `main_flags` gives `st3` with an argument vector still empty, and the
final state is that of `pushhead` with the forwarded user tokens appended. -/
theorem main_args_stages (cfg : config) (w : world) (env : environ) (fuel : Nat)
    (argv0 : CStr) (user : List CStr) (stf : mainstate)
    (h : main_args cfg w env fuel (argv0 :: user) = some (result.ok stf)) :
    ∃ (st1 st2 st3 : mainstate),
      parseargs cfg w (argv0 :: user) st1.cmdargs.target (setupargs cfg w st1)
          (setupargs cfg w st1).env st1.io = result.ok (st2.cmdargs, st2.io)
      ∧ (setupargs cfg w st1).cflags = [] ∧ (setupargs cfg w st1).cxxflags = []
      ∧ st2.cmdargs.linkerflags = []
      ∧ flagstep st2.cmdargs st3.cmdargs
      ∧ st3.cmdargs.args = []
      ∧ stf.cmdargs = { (pushhead cfg w st3).cmdargs with
            args := (pushhead cfg w st3).cmdargs.args
              ++ user.filter (forwarded (pushhead cfg w st3).cmdargs) } := by
  obtain ⟨e, iscxx, st1, st2, st3, h1, h2, h3, h4⟩ := main_args_ok cfg w env fuel argv0 user stf h
  have k1 := find_target_and_headers_kept cfg w e fuel _ st1 h1
  obtain ⟨k1a, k1b, k1c, k1d⟩ := k1
  dsimp only at k1a k1b k1c k1d
  obtain ⟨hp, _, _⟩ := main_setup_ok cfg w (argv0 :: user) st1 st2 h2
  obtain ⟨stp, hloop, hr, hparsed⟩ := parseargs_result cfg w _ _ _ _ _ _ hp
  obtain ⟨⟨s1, s2, s3, s4⟩, _, _, _⟩ := setupargs_kept cfg w st1
  obtain ⟨q1, q2, _, _⟩ := parsed_keptargs hparsed
  dsimp only at q1 q2
  have hflag := main_flags_ok cfg w st2 st3 h3
  refine ⟨st1, st2, st3, hp, s2.trans k1b, s3.trans k1c,
    q2.trans (s4.trans k1d), hflag, hflag.1.trans (q1.trans (s1.trans k1a)), ?_⟩
  rw [h4]
  dsimp only
  rw [pushargs_eq]

/-- The layout of the argument vector of a run of `main` that reaches it. -/
theorem main_args_layout_of_stages (cfg : config) (w : world) (user : List CStr)
    (st3 stf : mainstate) (hargs : st3.cmdargs.args = [])
    (hf : stf.cmdargs = { (pushhead cfg w st3).cmdargs with
            args := (pushhead cfg w st3).cmdargs.args
              ++ user.filter (forwarded (pushhead cfg w st3).cmdargs) }) :
    ∃ block, stf.cmdargs.args
        = [stf.cmdargs.compiler]
          ++ (if stf.cmdargs.iscxx then stf.cmdargs.cxxflags else stf.cmdargs.cflags)
          ++ stf.cmdargs.linkerflags ++ block ++ user.filter (forwarded stf.cmdargs)
      ∧ (block = [] ↔ (stf.cmdargs.islinkstep = true
          ∧ stf.cmdargs.usemingwlinker = subsystem.standard))
      ∧ (block ≠ [] → ∃ mid, block
          = [cfg.CLANG_TARGET_OPT, stf.cmdargs.target, "-nostdinc".toList,
              "-nostdinc++".toList, "-Qunused-arguments".toList]
            ++ mid
            ++ isystem stf.cmdargs.intrinpaths
            ++ isystem stf.cmdargs.cxxpaths
            ++ isystem stf.cmdargs.stdpaths) := by
  obtain ⟨⟨block, hb1, hb2, hb3⟩, _⟩ := pushhead_spec cfg w st3 hargs
  refine ⟨block, ?_, ?_, ?_⟩
  · rw [hf]
    dsimp only
    rw [hb1]
    rfl
  · rw [hf]
    exact hb2
  · rw [hf]
    exact hb3

end Wclang


namespace Wclang

/-! ## Target triples -/

/-- C1: for every triple of TARGET32 or TARGET64 and either suffix "-clang" or
"-clang++", `findtriple` on the triple followed by the suffix returns exactly
that triple and sets the target type to TARGET_WIN32 for a TARGET32 triple and
to TARGET_WIN64 for a TARGET64 triple, whatever the target type was before. -/
theorem findtriple_exact_match (t suffix : CStr) (targettype : Int)
    (ht : t ∈ TARGET32 ++ TARGET64)
    (hs : suffix = "-clang".toList ∨ suffix = "-clang++".toList) :
    findtriple (t ++ suffix) targettype
      = (some t, if t ∈ TARGET32 then TARGET_WIN32 else TARGET_WIN64) := by
  simp only [TARGET32, TARGET64, List.cons_append, List.nil_append, List.mem_cons,
    List.mem_singleton, List.not_mem_nil, or_false] at ht
  rcases hs with rfl | rfl <;>
    rcases ht with rfl | rfl | rfl | rfl | rfl | rfl | rfl | rfl | rfl | rfl | rfl <;> rfl

/-- Witness of C1 at the MXE triple that extends another triple. -/
theorem findtriple_exact_match_witness :
    findtriple ("i686-w64-mingw32.static".toList ++ "-clang++".toList) (-1)
      = (some "i686-w64-mingw32.static".toList,
          if "i686-w64-mingw32.static".toList ∈ TARGET32 then TARGET_WIN32 else TARGET_WIN64) :=
  findtriple_exact_match _ _ _ (by decide) (Or.inr rfl)

end Wclang


namespace Wclang

/-! ## Version model -/

/-- C10: the comparison operators of `compilerversion` form a strict total
order relative to `operator==`: `<` is irreflexive and transitive, exactly one
of `a < b`, `a == b`, `b < a` holds, `<=`, `>`, `>=`, `!=` are the derived
relations, (1,2,3) < (1,3,0) < (2,0,0) < (2,0,1), and the unset version is
`==` to (0,0,0). -/
theorem compilerversion_strict_total_order (a b c : compilerversion) :
    a.lt a = false
    ∧ (a.lt b = true → b.lt c = true → a.lt c = true)
    ∧ ((a.lt b = true ∧ a.eq b = false ∧ b.lt a = false)
        ∨ (a.lt b = false ∧ a.eq b = true ∧ b.lt a = false)
        ∨ (a.lt b = false ∧ a.eq b = false ∧ b.lt a = true))
    ∧ a.le b = (a.lt b || a.eq b)
    ∧ a.gt b = b.lt a
    ∧ a.ge b = !(a.lt b)
    ∧ a.ne b = !(a.eq b)
    ∧ (compilerversion.mk3 1 2 3).lt (compilerversion.mk3 1 3 0) = true
    ∧ (compilerversion.mk3 1 3 0).lt (compilerversion.mk3 2 0 0) = true
    ∧ (compilerversion.mk3 2 0 0).lt (compilerversion.mk3 2 0 1) = true
    ∧ ({} : compilerversion).eq (compilerversion.mk3 0 0 0) = true := by
  refine ⟨?_, ?_, ?_, ?_, ?_, ?_, ?_, by decide, by decide, by decide, by decide⟩
  · simp [compilerversion.lt]
  · simp only [compilerversion.lt, decide_eq_true_eq]
    intro h1 h2
    exact lt_trans h1 h2
  · simp only [compilerversion.lt, compilerversion.eq, decide_eq_true_eq, decide_eq_false_iff_not]
    rcases lt_trichotomy a.num b.num with h | h | h
    · exact Or.inl ⟨h, by omega, by omega⟩
    · exact Or.inr (Or.inl ⟨by omega, h, by omega⟩)
    · exact Or.inr (Or.inr ⟨by omega, by omega, h⟩)
  · simp only [compilerversion.le, compilerversion.lt, compilerversion.eq, ← Bool.decide_or]
    congr 1
    exact propext le_iff_lt_or_eq
  · simp [compilerversion.gt, compilerversion.lt]
  · simp only [compilerversion.ge, compilerversion.lt, ← decide_not]
    congr 1
    exact propext (by omega)
  · simp [compilerversion.ne, compilerversion.eq]

/-! ### Round trip through `str()` -/

theorem atoidigits_append (d r : CStr) (acc : Int)
    (hr : ∀ c ∈ r.head?, c.isDigit = false) :
    atoidigits (d ++ r) acc = atoidigits d acc := by
  induction d generalizing acc with
  | nil =>
    cases r with
    | nil => rfl
    | cons c cs =>
      have : c.isDigit = false := hr c (by simp)
      simp [atoidigits, this]
  | cons x xs ih =>
    simp only [List.cons_append, atoidigits]
    split
    · exact ih _
    · rfl

theorem isspace_of_isDigit (c : Char) (h : c.isDigit = true) :
    isspace c = false ∧ c ≠ '-' ∧ c ≠ '+' := by
  refine ⟨?_, ?_, ?_⟩
  · by_contra hs
    simp only [isspace, Bool.not_eq_false, Bool.or_eq_true, beq_iff_eq] at hs
    rcases hs with ((((rfl | rfl) | rfl) | rfl) | rfl) | rfl <;> revert h <;> decide
  · rintro rfl; revert h; decide
  · rintro rfl; revert h; decide

theorem strtolvalue_digit_cons (x : Char) (xs : CStr) (h : x.isDigit = true) :
    strtolvalue (x :: xs) = atoidigits (x :: xs) 0 := by
  obtain ⟨h1, h2, h3⟩ := isspace_of_isDigit x h
  unfold strtolvalue
  simp only [List.dropWhile, h1]
  split
  · rename_i heq; simp only [List.cons.injEq] at heq; exact absurd heq.1 h2
  · rename_i heq; simp only [List.cons.injEq] at heq; exact absurd heq.1 h3
  · rfl

theorem wrapint_small (x : Int) (h1 : -2147483648 ≤ x) (h2 : x ≤ 2147483647) :
    wrapint x = x := by
  unfold wrapint
  rw [Int.emod_eq_of_lt (by omega) (by omega)]
  omega

theorem longclamp_small (x : Int) (h1 : -9223372036854775808 ≤ x)
    (h2 : x ≤ 9223372036854775807) : longclamp x = x := by
  unfold longclamp
  rw [if_neg (by omega), if_neg (by omega)]

/-- A text whose number fits `int` is read by `atoi` as that number. -/
theorem atoi_small (s : CStr) (h1 : -2147483648 ≤ strtolvalue s)
    (h2 : strtolvalue s ≤ 2147483647) : atoi s = strtolvalue s := by
  unfold atoi strtol
  rw [longclamp_small _ (by omega) (by omega), wrapint_small _ h1 h2]

theorem atoi_digit_cons (x : Char) (xs : CStr) (h : x.isDigit = true)
    (h1 : 0 ≤ atoidigits (x :: xs) 0) (h2 : atoidigits (x :: xs) 0 ≤ 2147483647) :
    atoi (x :: xs) = atoidigits (x :: xs) 0 := by
  have e := strtolvalue_digit_cons x xs h
  rw [atoi_small _ (by omega) (by omega), e]

theorem skipdot_append (d r : CStr) (hd : ∀ c ∈ d, c ≠ '.') :
    skipdot (d ++ '.' :: r) = r := by
  induction d with
  | nil => simp [skipdot]
  | cons x xs ih =>
    have hx : x ≠ '.' := hd x (by simp)
    simp only [List.cons_append, skipdot, hx, if_false]
    exact ih (fun c hc => hd c (by simp [hc]))

/-- The decimal rendering of `n < 100` starts with a digit, holds no '.', and
reads back as `n`. -/
theorem repr_lt_100 : ∀ n, n < 100 →
    (match (Nat.repr n).toList with
      | [] => false
      | x :: xs =>
        x.isDigit && (x :: xs).all (fun c => c != '.')
          && atoidigits (x :: xs) 0 == (n : Int)) = true := by
  decide

theorem itoa_small (i : Int) (h0 : 0 ≤ i) (h99 : i ≤ 99) :
    ∃ x xs, itoa i = x :: xs ∧ x.isDigit = true ∧ (∀ c ∈ x :: xs, c ≠ '.')
      ∧ atoidigits (x :: xs) 0 = i := by
  obtain ⟨n, rfl⟩ := Int.eq_ofNat_of_zero_le h0
  have hn : n < 100 := by omega
  have hg := repr_lt_100 n hn
  have hi : itoa (n : Int) = (Nat.repr n).toList := rfl
  rw [hi]
  split at hg
  · exact absurd hg (by simp)
  · rename_i x xs heq
    rw [heq]
    simp only [Bool.and_eq_true, List.all_eq_true, bne_iff_ne, ne_eq, beq_iff_eq] at hg
    exact ⟨x, xs, rfl, hg.1.1, hg.1.2, hg.2⟩

/-- C9: for a version whose three fields lie in [0,99], parsing the text of
`str()` gives a version that is `==` to it, and the parsed major, minor and
patch fields equal the original ones. -/
theorem parsecompilerversion_str_roundtrip (v : compilerversion)
    (hmajor : 0 ≤ v.major ∧ v.major ≤ 99)
    (hminor : 0 ≤ v.minor ∧ v.minor ≤ 99)
    (hpatch : 0 ≤ v.patch ∧ v.patch ≤ 99) :
    (parsecompilerversion v.str).eq v = true
    ∧ (parsecompilerversion v.str).major = v.major
    ∧ (parsecompilerversion v.str).minor = v.minor
    ∧ (parsecompilerversion v.str).patch = v.patch := by
  obtain ⟨a, as, ha, hda, hna, hva⟩ := itoa_small v.major hmajor.1 hmajor.2
  obtain ⟨b, bs, hb, hdb, hnb, hvb⟩ := itoa_small v.minor hminor.1 hminor.2
  obtain ⟨c, cs, hc, hdc, hnc, hvc⟩ := itoa_small v.patch hpatch.1 hpatch.2
  have hnd : ∀ ch ∈ ('.' :: (b :: bs ++ '.' :: c :: cs)).head?, ch.isDigit = false := by
    intro ch hch; simp at hch; subst hch; decide
  have hnd2 : ∀ ch ∈ ('.' :: c :: cs).head?, ch.isDigit = false := by
    intro ch hch; simp at hch; subst hch; decide
  have e1 : atoi (a :: as ++ '.' :: (b :: bs ++ '.' :: c :: cs)) = v.major := by
    have e : atoidigits (a :: (as ++ '.' :: (b :: bs ++ '.' :: c :: cs))) 0 = v.major := by
      rw [← List.cons_append, atoidigits_append _ _ _ hnd, hva]
    rw [List.cons_append, atoi_digit_cons _ _ hda (by omega) (by omega), e]
  have s1 : skipdot (a :: as ++ '.' :: (b :: bs ++ '.' :: c :: cs))
      = b :: bs ++ '.' :: c :: cs := skipdot_append _ _ hna
  have e2 : atoi (b :: bs ++ '.' :: c :: cs) = v.minor := by
    have e : atoidigits (b :: (bs ++ '.' :: c :: cs)) 0 = v.minor := by
      rw [← List.cons_append, atoidigits_append _ _ _ hnd2, hvb]
    rw [List.cons_append, atoi_digit_cons _ _ hdb (by omega) (by omega), e]
  have s2 : skipdot (b :: bs ++ '.' :: c :: cs) = c :: cs := skipdot_append _ _ hnb
  have e3 : atoi (c :: cs) = v.patch := by
    rw [atoi_digit_cons _ _ hdc (by omega) (by omega), hvc]
  have fields : (parsecompilerversion v.str).major = v.major
      ∧ (parsecompilerversion v.str).minor = v.minor
      ∧ (parsecompilerversion v.str).patch = v.patch := by
    simp only [parsecompilerversion, compilerversion.str, ha, hb, hc, s1, s2, e1, e2, e3]
    simp
  refine ⟨?_, fields⟩
  simp only [compilerversion.eq, compilerversion.num, fields.1, fields.2.1, fields.2.2,
    decide_True]

/-- Witness of C9 at version 7.8.99. -/
theorem parsecompilerversion_str_roundtrip_witness :
    (parsecompilerversion (compilerversion.mk3 7 8 99).str).eq (compilerversion.mk3 7 8 99) = true
    ∧ (parsecompilerversion (compilerversion.mk3 7 8 99).str).major = 7
    ∧ (parsecompilerversion (compilerversion.mk3 7 8 99).str).minor = 8
    ∧ (parsecompilerversion (compilerversion.mk3 7 8 99).str).patch = 99 :=
  parsecompilerversion_str_roundtrip (compilerversion.mk3 7 8 99)
    (by decide) (by decide) (by decide)

end Wclang


namespace Wclang

/-! ## Output name suffix -/

theorem strrchr_append (s t : CStr) (c : Char) (ht : strrchr t c = none) :
    strrchr (s ++ c :: t) c = some (c :: t) := by
  induction s with
  | nil => simp [strrchr, ht]
  | cons x xs ih => simp [strrchr, ih]

theorem appendexe_at_exe (arg name : CStr) (rest : List CStr) :
    appendexe_at arg (name ++ ".exe".toList) rest = none := by
  have h : strrchr (name ++ ".exe".toList) '.' = some ".exe".toList :=
    strrchr_append name "exe".toList '.' (by decide)
  simp only [String.toList] at h
  simp [appendexe_at, h, strcmp]

theorem appendexe_at_fresh (arg name : CStr) (rest : List CStr)
    (hsuf : ∀ suf, strrchr name '.' = some suf →
      suf ≠ ".exe".toList ∧ suf ≠ ".dll".toList ∧ suf ≠ ".S".toList)
    (hc : "-c".toList ∉ rest) :
    appendexe_at arg name rest
      = some (arg ++ ".exe".toList,
          "wclang: appending \".exe\" to output filename \"".toList ++ name ++ "\"\n".toList) := by
  have hany : rest.any (fun p => strcmp p "-c".toList) = false := by
    rw [List.any_eq_false]
    intro p hp hq
    simp only [strcmp, decide_eq_true_eq] at hq
    exact hc (hq ▸ hp)
  unfold appendexe_at
  simp only [hany]
  cases hs : strrchr name '.' with
  | none => simp
  | some suf =>
    obtain ⟨h1, h2, h3⟩ := hsuf suf hs
    simp only [String.toList] at h1 h2 h3
    simp [strcmp, h1, h2, h3]

theorem appendexetooutputname_skip (pre rest : List CStr)
    (hpre : ∀ a ∈ pre, strncmp a "-o".toList 2 = false ∧ a ≠ "-c".toList) :
    (appendexetooutputname (pre ++ rest)).1 = pre ++ (appendexetooutputname rest).1 := by
  induction pre with
  | nil => rfl
  | cons a as ih =>
    obtain ⟨h1, h2⟩ := hpre a (by simp)
    have ih2 := ih (fun b hb => hpre b (by simp [hb]))
    simp only [String.toList] at h1 h2
    simp [appendexetooutputname, h1, strcmp, h2, ih2]

theorem strncmp_dash_o (name : CStr) : strncmp ("-o".toList ++ name) "-o".toList 2 = true := by
  simp [strncmp]

theorem strncmp_dash_o_of_head (name : CStr) (h : name.head? ≠ some '-') :
    strncmp name "-o".toList 2 = false := by
  cases name with
  | nil => rfl
  | cons x xs =>
    have hx : x ≠ '-' := by simpa using h
    simp [strncmp, hx]

/-- C8: in a vector without any "-c" token whose first token starting with
"-o" is an output indicator (a bare "-o" followed by a name that does not
start with '-', or an attached "-oname" with a non-empty name) and whose output
name has a last dot-suffix other than ".exe", ".dll" and ".S",
`appendexetooutputname` replaces the token holding the name by that token
followed by ".exe", and applying it again changes nothing. -/
theorem appendexetooutputname_appends_once (pre post : List CStr) (name : CStr)
    (hpre : ∀ a ∈ pre, strncmp a "-o".toList 2 = false)
    (hc : "-c".toList ∉ pre ++ post)
    (hsuf : ∀ suf, strrchr name '.' = some suf →
      suf ≠ ".exe".toList ∧ suf ≠ ".dll".toList ∧ suf ≠ ".S".toList) :
    (name.head? ≠ some '-' →
      (appendexetooutputname (pre ++ "-o".toList :: name :: post)).1
          = pre ++ "-o".toList :: (name ++ ".exe".toList) :: post
      ∧ (appendexetooutputname (pre ++ "-o".toList :: (name ++ ".exe".toList) :: post)).1
          = pre ++ "-o".toList :: (name ++ ".exe".toList) :: post)
    ∧ (name ≠ [] →
      (appendexetooutputname (pre ++ ("-o".toList ++ name) :: post)).1
          = pre ++ ("-o".toList ++ name ++ ".exe".toList) :: post
      ∧ (appendexetooutputname (pre ++ ("-o".toList ++ name ++ ".exe".toList) :: post)).1
          = pre ++ ("-o".toList ++ name ++ ".exe".toList) :: post) := by
  have hpre2 : ∀ a ∈ pre, strncmp a "-o".toList 2 = false ∧ a ≠ "-c".toList := by
    intro a ha
    refine ⟨hpre a ha, ?_⟩
    rintro rfl
    exact hc (List.mem_append_left _ ha)
  have hcpost : "-c".toList ∉ post := fun h => hc (List.mem_append_right _ h)
  constructor
  · intro hname
    have hname2 : (name ++ ".exe".toList).head? ≠ some '-' := by
      cases name with
      | nil => decide
      | cons x xs => simpa using hname
    have hno := strncmp_dash_o_of_head name hname
    have hno2 := strncmp_dash_o_of_head _ hname2
    have hbare : strncmp "-o".toList "-o".toList 2 = true ∧ isnul "-o".toList 2 = true := by
      decide
    constructor
    · rw [appendexetooutputname_skip pre _ hpre2]
      have hf := appendexe_at_fresh name name post hsuf hcpost
      simp only [String.toList] at hno hbare hf
      simp [appendexetooutputname, hbare.1, hbare.2, hname, hno, hf]
    · rw [appendexetooutputname_skip pre _ hpre2]
      have hf := appendexe_at_exe (name ++ ".exe".toList) name post
      simp only [String.toList] at hno2 hname2 hbare hf
      simp [appendexetooutputname, hbare.1, hbare.2, hname2, hno2, hf]
  · intro hname
    have hlen : isnul ("-o".toList ++ name) 2 = false := by
      cases name with
      | nil => exact absurd rfl hname
      | cons x xs => simp [isnul]
    have hlen2 : isnul ("-o".toList ++ name ++ ".exe".toList) 2 = false := by
      simp [isnul]
    have hdrop : ("-o".toList ++ name).drop 2 = name := by simp
    have hdrop2 : ("-o".toList ++ name ++ ".exe".toList).drop 2 = name ++ ".exe".toList := by
      simp
    have h2 : strncmp ("-o".toList ++ name ++ ".exe".toList) "-o".toList 2 = true := by
      rw [List.append_assoc]; exact strncmp_dash_o _
    constructor
    · rw [appendexetooutputname_skip pre _ hpre2]
      have hf := appendexe_at_fresh ("-o".toList ++ name) name post hsuf hcpost
      have h1 := strncmp_dash_o name
      simp only [String.toList, List.cons_append, List.nil_append, List.append_assoc] at hlen hdrop hf h1
      simp [appendexetooutputname, h1, hlen, hdrop, hf]
    · rw [appendexetooutputname_skip pre _ hpre2]
      have hf := appendexe_at_exe ("-o".toList ++ name ++ ".exe".toList) name post
      simp only [String.toList, List.cons_append, List.nil_append, List.append_assoc] at hlen2 hdrop2 hf h2
      simp [appendexetooutputname, h2, hlen2, hdrop2, hf]

/-- Witness of C8: "-o a.out" and "-oa.out" after the compiler path. -/
theorem appendexetooutputname_appends_once_witness :
    (appendexetooutputname
        (["clang".toList, "x.c".toList] ++ "-o".toList :: "a.out".toList :: ["-O2".toList])).1
      = ["clang".toList, "x.c".toList] ++ "-o".toList :: "a.out.exe".toList :: ["-O2".toList]
    ∧ (appendexetooutputname
        (["clang".toList, "x.c".toList] ++ ("-o".toList ++ "a.out".toList) :: ["-O2".toList])).1
      = ["clang".toList, "x.c".toList] ++ "-oa.out.exe".toList :: ["-O2".toList] :=
  have h := appendexetooutputname_appends_once ["clang".toList, "x.c".toList] ["-O2".toList]
    "a.out".toList (by decide) (by decide) (by decide)
  ⟨(h.1 (by decide)).1, (h.2 (by decide)).1⟩

end Wclang

namespace Wclang

/-! ## Step classification -/

theorem rundelayed_steps (cfg : config) (s : commandargs × streams) (dc : dcfun × CStr) :
    (rundelayed cfg s dc).1.iscompilestep = s.1.iscompilestep
    ∧ (rundelayed cfg s dc).1.islinkstep = s.1.islinkstep := by
  unfold rundelayed
  dsimp only
  split
  · exact ⟨rfl, rfl⟩
  · split
    · split <;> exact ⟨rfl, rfl⟩
    · exact ⟨rfl, rfl⟩

theorem foldl_rundelayed_steps (cfg : config) (l : List (dcfun × CStr))
    (s : commandargs × streams) :
    (l.foldl (rundelayed cfg) s).1.iscompilestep = s.1.iscompilestep
    ∧ (l.foldl (rundelayed cfg) s).1.islinkstep = s.1.islinkstep := by
  induction l generalizing s with
  | nil => exact ⟨rfl, rfl⟩
  | cons dc rest ih =>
    have h1 := rundelayed_steps cfg s dc
    have h2 := ih (rundelayed cfg s dc)
    exact ⟨h2.1.trans h1.1, h2.2.trans h1.2⟩

theorem parseargs_ok (cfg : config) (w : world) (argv : List CStr) (target : CStr)
    (cmdargs : commandargs) (env : List CStr) (io : streams) (r : commandargs × streams)
    (h : parseargs cfg w argv target cmdargs env io = result.ok r) :
    ∃ st, parseloop cfg w target env argv { cmdargs := cmdargs, io := io } = result.ok st
      ∧ r = st.delayedcommands.foldl (rundelayed cfg) (normalize st.cmdargs, st.io) := by
  unfold parseargs at h
  split at h
  · rename_i st hst
    simp only [result.ok.injEq] at h
    exact ⟨st, hst, h.symm⟩
  · exact absurd h (by simp)
  · exact absurd h (by simp)

/-- C3: when `parseargs` returns, exactly one of the compile-step and
link-step flags is true; if the sweep had set both, link-step is cleared and
compile-step stays; if it had set neither, link-step is set; if it had set
exactly one, both are as the sweep left them. -/
theorem parseargs_steps_exclusive (cfg : config) (w : world) (argv : List CStr)
    (target : CStr) (cmdargs : commandargs) (env : List CStr) (io : streams)
    (r : commandargs × streams)
    (h : parseargs cfg w argv target cmdargs env io = result.ok r) :
    ∃ st, parseloop cfg w target env argv { cmdargs := cmdargs, io := io } = result.ok st
      ∧ r.1.iscompilestep = !r.1.islinkstep
      ∧ (st.cmdargs.iscompilestep = true ∧ st.cmdargs.islinkstep = true →
          r.1.iscompilestep = true ∧ r.1.islinkstep = false)
      ∧ (st.cmdargs.iscompilestep = false ∧ st.cmdargs.islinkstep = false →
          r.1.iscompilestep = false ∧ r.1.islinkstep = true)
      ∧ (st.cmdargs.iscompilestep ≠ st.cmdargs.islinkstep →
          r.1.iscompilestep = st.cmdargs.iscompilestep
          ∧ r.1.islinkstep = st.cmdargs.islinkstep) := by
  obtain ⟨st, hst, hr⟩ := parseargs_ok cfg w argv target cmdargs env io r h
  refine ⟨st, hst, ?_⟩
  have hf := foldl_rundelayed_steps cfg st.delayedcommands (normalize st.cmdargs, st.io)
  rw [← hr] at hf
  rw [hf.1, hf.2]
  unfold normalize
  cases hc : st.cmdargs.iscompilestep <;> cases hl : st.cmdargs.islinkstep <;>
    simp [hc, hl]

/-- Witness of C3: "-c -o x.o" sets both flags in the sweep. -/
theorem parseargs_steps_exclusive_witness :
    ∃ st, parseloop democonfig demoworld "i686-w64-mingw32".toList []
        ["w32-clang".toList, "-c".toList, "-o".toList, "x.o".toList]
        { cmdargs := {}, io := {} } = result.ok st
      ∧ ({ iscompilestep := true } : commandargs).iscompilestep
          = !({ iscompilestep := true } : commandargs).islinkstep
      ∧ (st.cmdargs.iscompilestep = true ∧ st.cmdargs.islinkstep = true →
          ({ iscompilestep := true } : commandargs).iscompilestep = true
          ∧ ({ iscompilestep := true } : commandargs).islinkstep = false)
      ∧ (st.cmdargs.iscompilestep = false ∧ st.cmdargs.islinkstep = false →
          ({ iscompilestep := true } : commandargs).iscompilestep = false
          ∧ ({ iscompilestep := true } : commandargs).islinkstep = true)
      ∧ (st.cmdargs.iscompilestep ≠ st.cmdargs.islinkstep →
          ({ iscompilestep := true } : commandargs).iscompilestep = st.cmdargs.iscompilestep
          ∧ ({ iscompilestep := true } : commandargs).islinkstep = st.cmdargs.islinkstep) :=
  parseargs_steps_exclusive democonfig demoworld
    ["w32-clang".toList, "-c".toList, "-o".toList, "x.o".toList]
    "i686-w64-mingw32".toList {} [] {} ({ iscompilestep := true }, {}) rfl

/-- C7 (the code departs from it): a "-c" token anywhere sets the compile-step
flag in every sweep that runs through; but on "-S foo.c" the sweep leaves the
flag false, whatever the configuration, and the normalization then makes the
invocation a link step: in the demo installation `main` accordingly emits
"-S foo.c" without the target block. -/
theorem parseargs_assemble_only_is_link_step :
    (∀ (cfg : config) (w : world) (target : CStr) (env : List CStr) (argv : List CStr)
        (st stp : parsestate), "-c".toList ∈ argv →
      parseloop cfg w target env argv st = result.ok stp →
      stp.cmdargs.iscompilestep = true)
    ∧ (∀ (cfg : config) (w : world) (target : CStr) (env : List CStr),
      ∃ stp, parseloop cfg w target env ["w32-clang".toList, "-S".toList, "foo.c".toList]
          { cmdargs := {} } = result.ok stp
        ∧ stp.cmdargs.iscompilestep = false)
    ∧ (∀ (cfg : config) (w : world) (target : CStr) (env : List CStr),
      ∃ r, parseargs cfg w ["w32-clang".toList, "-S".toList, "foo.c".toList] target {} env {}
          = result.ok r
        ∧ r.1.iscompilestep = false ∧ r.1.islinkstep = true)
    ∧ (reached democonfig demoworld demoenv 2
          ["w32-clang".toList, "-S".toList, "foo.c".toList]).cmdargs.args
      = ["/usr/bin/clang".toList, "-S".toList, "foo.c".toList] := by
  refine ⟨?_, ?_, ?_, by decide⟩
  · intro cfg w target env argv st stp hc h
    exact parseloop_sees cfg w target env "-c".toList
      (fun s => s.cmdargs.iscompilestep = true) (by decide) (by decide)
      (fun nx s s1 hs => parsearg_dash_c cfg w target env nx s s1 hs)
      (fun s s2 hs hp => hs.2.1 hp) _ argv st stp (le_refl _) hc h
  · intro cfg w target env
    exact ⟨_, rfl, rfl⟩
  · intro cfg w target env
    exact ⟨_, rfl, rfl, rfl⟩

end Wclang

namespace Wclang

/-! ## Unknown tokens of the driver's namespace -/

theorem parsearg_command (cfg : config) (w : world) (target : CStr) (env : List CStr)
    (tok s : CStr) (nx : Option CStr) (st : parsestate)
    (htok : tok = "-wc-".toList ++ s ∨ tok = "--wc-".toList ++ s) :
    parsearg cfg w target env tok nx st = parsecommand cfg target env tok st := by
  rcases htok with rfl | rfl <;> rfl

theorem parsecommand_invalid (cfg : config) (target : CStr) (env : List CStr)
    (tok s : CStr) (st : parsestate)
    (htok : tok = "-wc-".toList ++ s ∨ tok = "--wc-".toList ++ s)
    (hs : s ∉ ["version".toList, "v".toList, "help".toList, "h".toList, "target".toList,
      "t".toList, "arch".toList, "a".toList, "env".toList, "e".toList,
      "static-runtime".toList, "append-exe".toList, "use-mingw-linker".toList,
      "verbose".toList])
    (henv : strncmp s "env-".toList 4 = false) (he : strncmp s "e-".toList 2 = false)
    (hni : strncmp s "no-intrin".toList 9 = false) :
    parsecommand cfg target env tok st = invalid_argument cfg st.io s := by
  have h1 : (if strncmp tok "--".toList 2 then tok.drop 1 else tok) = "-wc-".toList ++ s := by
    rcases htok with rfl | rfl <;> rfl
  have h2 : strncmp ("-wc-".toList ++ s) COMMANDPREFIX 4 = true := by
    simp [COMMANDPREFIX, strncmp]
  have h3 : ("-wc-".toList ++ s).drop 4 = s := rfl
  simp only [List.mem_cons, List.mem_singleton, List.not_mem_nil, or_false, not_or] at hs
  obtain ⟨a1, a2, a3, a4, a5, a6, a7, a8, a9, a10, a11, a12, a13, a14⟩ := hs
  unfold parsecommand
  simp only [h1, h2, h3, Bool.not_true, Bool.false_eq_true, if_false]
  split <;>
    simp only [strcmp, a1, a2, a3, a4, a5, a6, a7, a8, a9, a10, a11, a12, a13, a14, henv, he,
      hni, decide_False, Bool.or_self, Bool.false_eq_true, if_false]

/-- C6, as amended: when the sweep has run through the tokens before it, a
token "-wc-s" or "--wc-s" whose `s` is none of version, v, help, h, target,
t, arch, a, env, e, static-runtime, append-exe, use-mingw-linker, verbose and
starts with none of "env-", "e-", "no-intrin" makes `parseargs` end the process
with exit status 1, after the header line on standard output and the line
"invalid argument: -wc-s" on standard error. -/
theorem parseargs_unknown_command (cfg : config) (w : world) (target : CStr)
    (env : List CStr) (cmdargs : commandargs) (io : streams)
    (pre post : List CStr) (tok s : CStr) (st : parsestate)
    (hpre : parseloop cfg w target env pre { cmdargs := cmdargs, io := io } = result.ok st)
    (htok : tok = "-wc-".toList ++ s ∨ tok = "--wc-".toList ++ s)
    (hs : s ∉ ["version".toList, "v".toList, "help".toList, "h".toList, "target".toList,
      "t".toList, "arch".toList, "a".toList, "env".toList, "e".toList,
      "static-runtime".toList, "append-exe".toList, "use-mingw-linker".toList,
      "verbose".toList])
    (henv : strncmp s "env-".toList 4 = false) (he : strncmp s "e-".toList 2 = false)
    (hni : strncmp s "no-intrin".toList 9 = false) :
    parseargs cfg w (pre ++ tok :: post) target cmdargs env io
      = result.exit 1
          ((printheader cfg st.io).err
            ("invalid argument: ".toList ++ "-wc-".toList ++ s ++ "\n".toList)) := by
  unfold parseargs
  rw [parseloop_append cfg w target env (tok :: post) pre.length pre _ st (le_refl _) hpre,
    parseloop, parsearg_command cfg w target env tok s _ st htok,
    parsecommand_invalid cfg target env tok s st htok hs henv he hni]
  rfl

/-- Witness of C6 as amended: "--wc-frobnicate" after "-O2". -/
theorem parseargs_unknown_command_witness :
    parseargs democonfig demoworld
        (["w32-clang".toList, "-O2".toList] ++ "--wc-frobnicate".toList :: ["foo.c".toList])
        "i686-w64-mingw32".toList {} [] {}
      = result.exit 1
          ((printheader democonfig
              ({ cmdargs := { optimizationlevel := 2 } } : parsestate).io).err
            ("invalid argument: ".toList ++ "-wc-".toList ++ "frobnicate".toList
              ++ "\n".toList)) :=
  parseargs_unknown_command democonfig demoworld "i686-w64-mingw32".toList [] {} {}
    ["w32-clang".toList, "-O2".toList] ["foo.c".toList] "--wc-frobnicate".toList
    "frobnicate".toList { cmdargs := { optimizationlevel := 2 } }
    rfl (Or.inr rfl) (by decide) (by decide) (by decide) (by decide)

/-- Counterexample to C6 as stated: the first token of the driver's namespace
is "-wc-no-intrinsics", whose suffix is none of the listed ones, and
`parseargs` returns, with the skip-intrinsics flag set. -/
theorem parseargs_accepts_no_intrinsics :
    ∃ r, parseargs democonfig demoworld
        ["w32-clang".toList, "-wc-no-intrinsics".toList, "foo.c".toList]
        "i686-w64-mingw32".toList {} [] {} = result.ok r
      ∧ r.1.nointrinsics = true
      ∧ "no-intrinsics".toList ∉ ["version".toList, "v".toList, "help".toList, "h".toList,
          "target".toList, "t".toList, "arch".toList, "a".toList, "env".toList, "e".toList,
          "static-runtime".toList, "append-exe".toList, "use-mingw-linker".toList,
          "no-intrin".toList, "verbose".toList] :=
  ⟨_, rfl, rfl, by decide⟩

end Wclang

namespace Wclang

/-! ## The emitted argument vector -/

/-- C4: in every run of `main` that reaches the complete argument vector, the
vector is the resolved compiler path, the flags of the language (the C++ flags
in C++ mode, the C flags otherwise), the linker flags, the target block and the
forwarded user tokens in their original order; the target block is empty
exactly for a link step with the standard linker, and otherwise starts with the
target option, the triple, -nostdinc, -nostdinc++, -Qunused-arguments and ends
with the "-isystem dir" pairs of the intrinsic, then the C++, then the
standard C directories. -/
theorem main_args_layout (cfg : config) (w : world) (env : environ) (fuel : Nat)
    (argv0 : CStr) (user : List CStr) (st : mainstate)
    (h : main_args cfg w env fuel (argv0 :: user) = some (result.ok st)) :
    ∃ block, st.cmdargs.args
        = [st.cmdargs.compiler]
          ++ (if st.cmdargs.iscxx then st.cmdargs.cxxflags else st.cmdargs.cflags)
          ++ st.cmdargs.linkerflags ++ block ++ user.filter (forwarded st.cmdargs)
      ∧ (block = [] ↔ (st.cmdargs.islinkstep = true
          ∧ st.cmdargs.usemingwlinker = subsystem.standard))
      ∧ (block ≠ [] → ∃ mid, block
          = [cfg.CLANG_TARGET_OPT, st.cmdargs.target, "-nostdinc".toList,
              "-nostdinc++".toList, "-Qunused-arguments".toList]
            ++ mid
            ++ isystem st.cmdargs.intrinpaths
            ++ isystem st.cmdargs.cxxpaths
            ++ isystem st.cmdargs.stdpaths) := by
  obtain ⟨st1, st2, st3, _, _, _, _, _, hargs, hf⟩ :=
    main_args_stages cfg w env fuel argv0 user st h
  exact main_args_layout_of_stages cfg w user st3 st hargs hf

/-- Witness of C4: "w32-clang -c -o out.o foo.c" in the demo installation. -/
theorem main_args_layout_witness :
    ∃ block,
      (reached democonfig demoworld demoenv 2
          ("w32-clang".toList :: ["-c".toList, "-o".toList, "out.o".toList, "foo.c".toList])
        ).cmdargs.args
        = ["/usr/bin/clang".toList] ++ [] ++ [] ++ block
          ++ ["-c".toList, "-o".toList, "out.o".toList, "foo.c".toList]
      ∧ block ≠ [] :=
  have h := main_args_layout democonfig demoworld demoenv 2 "w32-clang".toList
    ["-c".toList, "-o".toList, "out.o".toList, "foo.c".toList]
    (reached democonfig demoworld demoenv 2
      ("w32-clang".toList :: ["-c".toList, "-o".toList, "out.o".toList, "foo.c".toList])) rfl
  match h with
  | ⟨block, h1, h2, _⟩ => ⟨block, h1, fun hb => absurd (h2.mp hb).1 (by decide)⟩

theorem forwarded_output (c : commandargs) (out : CStr) (hout : out.head? ≠ some '-') :
    forwarded c "-o".toList = true ∧ forwarded c out = true := by
  constructor
  · simp [forwarded, strncmp, strcmp, COMMANDPREFIX]
  · cases out with
    | nil => simp [forwarded, strncmp, strcmp, COMMANDPREFIX]
    | cons x xs =>
      have hx : x ≠ '-' := by simpa using hout
      simp [forwarded, strncmp, strcmp, COMMANDPREFIX, hx]

/-- After a sweep that saw "-c" and "-o", `parseargs` returns a compile step
that is no link step, with the compiler flag lists it was given. -/
theorem parseargs_compile_output (cfg : config) (w : world) (argv : List CStr)
    (target : CStr) (cmdargs : commandargs) (envt : List CStr) (io : streams)
    (r : commandargs × streams)
    (h : parseargs cfg w argv target cmdargs envt io = result.ok r)
    (hc : "-c".toList ∈ argv) (ho : "-o".toList ∈ argv) :
    r.1.iscompilestep = true ∧ r.1.islinkstep = false
    ∧ r.1.cflags = cmdargs.cflags ∧ r.1.cxxflags = cmdargs.cxxflags
    ∧ r.1.linkerflags = cmdargs.linkerflags := by
  obtain ⟨stp, hloop, hr, hparsed⟩ := parseargs_result cfg w _ _ _ _ _ _ h
  have hcomp : stp.cmdargs.iscompilestep = true :=
    parseloop_sees cfg w _ _ "-c".toList (fun s => s.cmdargs.iscompilestep = true)
      (by decide) (by decide)
      (fun nx s s1 hs => parsearg_dash_c cfg w _ _ nx s s1 hs)
      (fun s s2 hs hp => hs.2.1 hp) _ _ _ stp (le_refl _) hc hloop
  have hlink : stp.cmdargs.islinkstep = true :=
    parseloop_sees cfg w _ _ "-o".toList (fun s => s.cmdargs.islinkstep = true)
      (by decide) (by decide)
      (fun nx s s1 hs => parsearg_dash_o cfg w _ _ nx s s1 hs)
      (fun s s2 hs hp => hs.2.2.1 hp) _ _ _ stp (le_refl _) ho hloop
  have hspec := parseloop_spec cfg w _ _ _ _ _ stp (le_refl _) hloop
  have hn : normalize stp.cmdargs = { stp.cmdargs with islinkstep := false } := by
    unfold normalize
    simp [hcomp, hlink]
  have hr1 : r.1 = { stp.cmdargs with islinkstep := false } := by
    have := foldl_rundelayed_nolink cfg stp.delayedcommands (normalize stp.cmdargs, stp.io)
      (by rw [hn])
    rw [← hr] at this
    exact this.trans hn
  refine ⟨?_, ?_, ?_, ?_, (parsed_keptargs hparsed).2.1⟩
  · rw [hr1]; exact hcomp
  · rw [hr1]
  · rw [hr1]; exact hspec.2.2.2.1
  · rw [hr1]; exact hspec.2.2.2.2.1

/-- C2: let the user arguments hold "-c" and "-o out" (an output name `out`
that does not start with '-').  Whenever `parseargs` returns on them, the
compile-step flag is true, the link-step flag false, and the flag lists are
as they were.  Whenever `main` reaches the argument vector, moreover the linker
flags are empty, no static-runtime flag is among the compiler flags (the C
flags are empty, the C++ flags hold at most the `__CRT__NO_INLINE` define), and
the vector ends with the forwarded user tokens, "-o" and `out` among them
verbatim at their original place. -/
theorem main_compile_with_output (cfg : config) (w : world)
    (argv0 : CStr) (a b : List CStr) (out : CStr)
    (hc : "-c".toList ∈ a ++ "-o".toList :: out :: b)
    (hout : out.head? ≠ some '-') :
    (∀ (target : CStr) (cmdargs : commandargs) (envt : List CStr) (io : streams)
        (r : commandargs × streams),
      parseargs cfg w (argv0 :: (a ++ "-o".toList :: out :: b)) target cmdargs envt io
          = result.ok r →
        r.1.iscompilestep = true ∧ r.1.islinkstep = false
        ∧ r.1.cflags = cmdargs.cflags ∧ r.1.cxxflags = cmdargs.cxxflags
        ∧ r.1.linkerflags = cmdargs.linkerflags)
    ∧ (∀ (env : environ) (fuel : Nat) (st : mainstate),
      main_args cfg w env fuel (argv0 :: (a ++ "-o".toList :: out :: b))
          = some (result.ok st) →
        st.cmdargs.iscompilestep = true ∧ st.cmdargs.islinkstep = false
        ∧ st.cmdargs.linkerflags = []
        ∧ st.cmdargs.cflags = []
        ∧ (st.cmdargs.cxxflags = [] ∨ st.cmdargs.cxxflags = ["-D__CRT__NO_INLINE".toList])
        ∧ ∃ block, st.cmdargs.args
            = [st.cmdargs.compiler]
              ++ (if st.cmdargs.iscxx then st.cmdargs.cxxflags else st.cmdargs.cflags)
              ++ block
              ++ (a.filter (forwarded st.cmdargs)
                  ++ "-o".toList :: out :: b.filter (forwarded st.cmdargs))) := by
  have hc2 : "-c".toList ∈ argv0 :: (a ++ "-o".toList :: out :: b) :=
    List.mem_cons_of_mem _ hc
  have ho2 : "-o".toList ∈ argv0 :: (a ++ "-o".toList :: out :: b) :=
    List.mem_cons_of_mem _ (List.mem_append_right _ (List.mem_cons_self _ _))
  constructor
  · intro target cmdargs envt io r h
    exact parseargs_compile_output cfg w _ target cmdargs envt io r h hc2 ho2
  · intro env fuel st h
    obtain ⟨st1, st2, st3, hp, hcf, hcxx, hlf, hflag, hargs, hf⟩ :=
      main_args_stages cfg w env fuel argv0 _ st h
    obtain ⟨a1, a2, a3, a4, _⟩ := parseargs_compile_output cfg w _ _ _ _ _ _ hp hc2 ho2
    dsimp only at a1 a2 a3 a4
    obtain ⟨_, f2, f3, f4, f5, f6⟩ := hflag
    obtain ⟨_, p1, p2, p3, p4, p5⟩ := pushhead_spec cfg w st3 hargs
    have e1 : st.cmdargs.iscompilestep = true := by
      rw [hf]; exact p4.trans (f2.trans a1)
    have e2 : st.cmdargs.islinkstep = false := by
      rw [hf]; exact p5.trans (f3.trans a2)
    have e3 : st.cmdargs.linkerflags = [] := by
      rw [hf]; exact p3.trans ((f6 a2).trans hlf)
    have e4 : st.cmdargs.cflags = [] := by
      rw [hf]; exact p1.trans (f4.trans (a3.trans hcf))
    have e5 : st.cmdargs.cxxflags = []
        ∨ st.cmdargs.cxxflags = ["-D__CRT__NO_INLINE".toList] := by
      rw [hf]
      rcases f5 with f5 | f5
      · exact Or.inl (p2.trans (f5.trans (a4.trans hcxx)))
      · exact Or.inr (p2.trans (f5.trans (by rw [a4, hcxx]; rfl)))
    refine ⟨e1, e2, e3, e4, e5, ?_⟩
    obtain ⟨block, hb, _, _⟩ := main_args_layout_of_stages cfg w _ st3 st hargs hf
    obtain ⟨fo, fout⟩ := forwarded_output st.cmdargs out hout
    refine ⟨block, ?_⟩
    rw [hb, e3, List.filter_append, List.filter_cons_of_pos fo, List.filter_cons_of_pos fout,
      List.append_nil]

/-- Witness of C2: "w32-clang -c -o out.o foo.c" in the demo installation. -/
theorem main_compile_with_output_witness :
    (reached democonfig demoworld demoenv 2
        ("w32-clang".toList :: (["-c".toList] ++ "-o".toList :: "out.o".toList
          :: ["foo.c".toList]))).cmdargs.iscompilestep = true
    ∧ (reached democonfig demoworld demoenv 2
        ("w32-clang".toList :: (["-c".toList] ++ "-o".toList :: "out.o".toList
          :: ["foo.c".toList]))).cmdargs.islinkstep = false
    ∧ (reached democonfig demoworld demoenv 2
        ("w32-clang".toList :: (["-c".toList] ++ "-o".toList :: "out.o".toList
          :: ["foo.c".toList]))).cmdargs.linkerflags = [] :=
  have h := (main_compile_with_output democonfig demoworld "w32-clang".toList
    ["-c".toList] ["foo.c".toList] "out.o".toList (by decide) (by decide)).2 demoenv 2
    (reached democonfig demoworld demoenv 2
      ("w32-clang".toList :: (["-c".toList] ++ "-o".toList :: "out.o".toList
        :: ["foo.c".toList]))) rfl
  ⟨h.1, h.2.1, h.2.2.1⟩

/-- C5 (the code departs from it): the loop over `argv[1..]` drops every token
that starts with "-wc-", but it forwards every token "--wc-s" with a non-empty
`s`, because it compares six characters with the five of "--wc-"; in the demo
installation "--wc-verbose" is taken as the verbose flag by `parseargs` and
also handed to the compiler. -/
theorem double_dash_command_is_forwarded :
    (∀ (c : commandargs) (s : CStr), forwarded c ("-wc-".toList ++ s) = false)
    ∧ (∀ (c : commandargs) (s : CStr), s ≠ [] → forwarded c ("--wc-".toList ++ s) = true)
    ∧ (reached democonfig demoworld demoenv 2
        ["w32-clang".toList, "--wc-verbose".toList, "foo.c".toList]).cmdargs.args
      = ["/usr/bin/clang".toList, "--wc-verbose".toList, "foo.c".toList]
    ∧ (reached democonfig demoworld demoenv 2
        ["w32-clang".toList, "--wc-verbose".toList, "foo.c".toList]).cmdargs.verbose = true := by
  refine ⟨?_, ?_, by decide, by decide⟩
  · intro c s
    simp [forwarded, strncmp, COMMANDPREFIX]
  · intro c s hs
    cases s with
    | nil => exact absurd rfl hs
    | cons x xs => simp [forwarded, strncmp, strcmp, COMMANDPREFIX]

end Wclang

namespace Wclang

/-! ## Version order against the tuple order -/

/-- C11 (counterexample): with a field above 99 the comparison through `num()`
is not the tuple comparison: (0,100,0) and (1,0,0) are `==` although their
fields differ, and (0,100,0) is not `<` (1,0,0) although its fields precede;
(0,101,0) even compares above (1,0,0). -/
theorem compilerversion_order_not_fieldwise :
    (compilerversion.mk3 0 100 0).eq (compilerversion.mk3 1 0 0) = true
    ∧ (compilerversion.mk3 0 100 0).fields ≠ (compilerversion.mk3 1 0 0).fields
    ∧ (compilerversion.mk3 0 100 0).lt (compilerversion.mk3 1 0 0) = false
    ∧ fieldslt (compilerversion.mk3 0 100 0) (compilerversion.mk3 1 0 0)
    ∧ (compilerversion.mk3 1 0 0).lt (compilerversion.mk3 0 101 0) = true := by
  refine ⟨by decide, by decide, by decide, ?_, by decide⟩
  exact Or.inl (by decide)

/-- C11 (amended): for two versions whose minor and patch fields lie in [0,99]
and whose major field lies in [0,214747] (so that `num()` stays inside `int`),
`a < b` holds exactly when the fields of `a` precede those of `b` in the tuple
order, and `a == b` exactly when the three fields are pairwise equal. -/
theorem compilerversion_order_fieldwise (a b : compilerversion)
    (ha : 0 ≤ a.major ∧ a.major ≤ 214747 ∧ 0 ≤ a.minor ∧ a.minor ≤ 99
      ∧ 0 ≤ a.patch ∧ a.patch ≤ 99)
    (hb : 0 ≤ b.major ∧ b.major ≤ 214747 ∧ 0 ≤ b.minor ∧ b.minor ≤ 99
      ∧ 0 ≤ b.patch ∧ b.patch ≤ 99) :
    (a.lt b = true ↔ fieldslt a b)
    ∧ (a.eq b = true ↔ a.major = b.major ∧ a.minor = b.minor ∧ a.patch = b.patch) := by
  obtain ⟨a1, a2, a3, a4, a5, a6⟩ := ha
  obtain ⟨b1, b2, b3, b4, b5, b6⟩ := hb
  have na : a.num = a.major * 10000 + a.minor * 100 + a.patch :=
    wrapint_small _ (by omega) (by omega)
  have nb : b.num = b.major * 10000 + b.minor * 100 + b.patch :=
    wrapint_small _ (by omega) (by omega)
  simp only [compilerversion.lt, compilerversion.eq, fieldslt, decide_eq_true_eq, na, nb]
  constructor
  · constructor
    · intro h; omega
    · intro h; omega
  · constructor
    · intro h; omega
    · intro h; omega

theorem compilerversion_order_fieldwise_witness :
    (compilerversion.mk3 4 8 3).lt (compilerversion.mk3 4 9 2) = true
    ∧ fieldslt (compilerversion.mk3 4 8 3) (compilerversion.mk3 4 9 2) := by
  have h := compilerversion_order_fieldwise (compilerversion.mk3 4 8 3)
    (compilerversion.mk3 4 9 2) (by decide) (by decide)
  exact ⟨by decide, h.1.1 (by decide)⟩

/-! ## Parsing digit strings -/

theorem atoidigits_digits (ds : CStr) (acc : Int) (h : ∀ c ∈ ds, c.isDigit = true) :
    atoidigits ds acc = ds.foldl (fun n c => n * 10 + ((c.toNat : Int) - 48)) acc := by
  induction ds generalizing acc with
  | nil => rfl
  | cons x xs ih =>
    have hx : x.isDigit = true := h x (by simp)
    simp only [atoidigits, hx, if_true, List.foldl_cons]
    exact ih _ (fun c hc => h c (by simp [hc]))

theorem isDigit_ge (c : Char) (h : c.isDigit = true) : (48 : Int) ≤ (c.toNat : Int) := by
  simp only [Char.isDigit, Bool.and_eq_true, decide_eq_true_eq] at h
  have h1 : (48 : Nat) ≤ c.val.toNat := h.1
  have : c.toNat = c.val.toNat := rfl
  omega

theorem atoidigits_nonneg (s : CStr) (acc : Int) (h : 0 ≤ acc) : 0 ≤ atoidigits s acc := by
  induction s generalizing acc with
  | nil => exact h
  | cons x xs ih =>
    simp only [atoidigits]
    split
    · rename_i hx
      have := isDigit_ge x hx
      exact ih _ (by omega)
    · exact h

theorem atoi_digits_append (M r : CStr) (hM : digits M)
    (hr : ∀ c ∈ r.head?, c.isDigit = false) (hrange : decimal M < 2147483648) :
    atoi (M ++ r) = decimal M := by
  obtain ⟨hne, hd⟩ := hM
  cases M with
  | nil => exact absurd rfl hne
  | cons x xs =>
    have e : atoidigits (x :: (xs ++ r)) 0 = decimal (x :: xs) := by
      rw [← List.cons_append, atoidigits_append _ _ _ hr, atoidigits_digits _ _ hd]
      rfl
    have h0 : 0 ≤ atoidigits (x :: (xs ++ r)) 0 := atoidigits_nonneg _ _ (le_refl _)
    rw [List.cons_append, atoi_digit_cons _ _ (hd x (by simp)) h0 (by omega), e]

theorem atoi_digits (M : CStr) (hM : digits M) (hrange : decimal M < 2147483648) :
    atoi M = decimal M := by
  have h := atoi_digits_append M [] hM (by simp) hrange
  rwa [List.append_nil] at h

theorem digits_nodot (M : CStr) (hM : digits M) : ∀ c ∈ M, c ≠ '.' := by
  intro c hc hdot
  have h := hM.2 c hc
  rw [hdot] at h
  revert h; decide

theorem skipdot_nodot (s : CStr) (h : ∀ c ∈ s, c ≠ '.') : skipdot s = [] := by
  induction s with
  | nil => rfl
  | cons x xs ih =>
    have hx : x ≠ '.' := h x (by simp)
    simp only [skipdot, hx, if_false]
    exact ih (fun c hc => h c (by simp [hc]))

theorem dot_not_digit (r : CStr) : ∀ c ∈ ('.' :: r).head?, c.isDigit = false := by
  intro c hc
  simp at hc
  subst hc
  decide

theorem digits_append_ne_nil (p r : CStr) (hp : digits p) : p ++ r ≠ [] := by
  intro h
  exact hp.1 (List.append_eq_nil.mp h).1

/-- C12: for strings of decimal digits M, m and p (denoting values of `int`),
`parsecompilerversion` reads "M" as (M,0,0), "M.m" as (M,m,0), "M.m.p" as
(M,m,p), and "M.m.p" followed by any remainder that does not begin with a digit
as (M,m,p) too; "M." reads as (M,0,0) and "M.m." as (M,m,0). -/
theorem parsecompilerversion_digits (M m p r : CStr)
    (hM : digits M) (hm : digits m) (hp : digits p)
    (hr : ∀ c ∈ r.head?, c.isDigit = false)
    (_hrange : decimal M < 2147483648 ∧ decimal m < 2147483648 ∧ decimal p < 2147483648) :
    (parsecompilerversion M).fields = (decimal M, 0, 0)
    ∧ (parsecompilerversion (M ++ '.' :: m)).fields = (decimal M, decimal m, 0)
    ∧ (parsecompilerversion (M ++ '.' :: (m ++ '.' :: p))).fields
        = (decimal M, decimal m, decimal p)
    ∧ (parsecompilerversion (M ++ '.' :: (m ++ '.' :: (p ++ r)))).fields
        = (decimal M, decimal m, decimal p)
    ∧ (parsecompilerversion (M ++ ['.'])).fields = (decimal M, 0, 0)
    ∧ (parsecompilerversion (M ++ '.' :: (m ++ ['.']))).fields
        = (decimal M, decimal m, 0) := by
  have hMd := digits_nodot M hM
  have hmd := digits_nodot m hm
  have hpd := digits_nodot p hp
  have major : ∀ t, atoi (M ++ '.' :: t) = decimal M :=
    fun t => atoi_digits_append M _ hM (dot_not_digit t) _hrange.1
  have minor : ∀ t, atoi (m ++ '.' :: t) = decimal m :=
    fun t => atoi_digits_append m _ hm (dot_not_digit t) _hrange.2.1
  have s1 : ∀ t, skipdot (M ++ '.' :: t) = t := fun t => skipdot_append M t hMd
  have s2 : ∀ t, skipdot (m ++ '.' :: t) = t := fun t => skipdot_append m t hmd
  have n1 : ∀ t, m ++ t ≠ [] := fun t => digits_append_ne_nil m t hm
  have n2 : ∀ t, p ++ t ≠ [] := fun t => digits_append_ne_nil p t hp
  refine ⟨?_, ?_, ?_, ?_, ?_, ?_⟩
  · simp only [parsecompilerversion, compilerversion.fields, skipdot_nodot M hMd, if_true,
      atoi_digits M hM _hrange.1]
  · have h1 : m ≠ [] := hm.1
    simp only [parsecompilerversion, compilerversion.fields, s1, h1, if_false,
      skipdot_nodot m hmd, if_true, major, atoi_digits m hm _hrange.2.1]
  · have h1 : p ≠ [] := hp.1
    simp only [parsecompilerversion, compilerversion.fields, s1, s2, n1, h1, if_false, major,
      minor, atoi_digits p hp _hrange.2.2]
  · simp only [parsecompilerversion, compilerversion.fields, s1, s2, n1, n2, if_false, major,
      minor, atoi_digits_append p r hp hr _hrange.2.2]
  · simp only [parsecompilerversion, compilerversion.fields, s1, if_true, major]
  · simp only [parsecompilerversion, compilerversion.fields, s1, s2, n1, if_false, if_true,
      major, minor]

theorem parsecompilerversion_digits_witness :
    (parsecompilerversion "4.9.2-win32".toList).fields = (4, 9, 2)
    ∧ (parsecompilerversion "4.9.".toList).fields = (4, 9, 0) := by
  have h := parsecompilerversion_digits "4".toList "9".toList "2".toList "-win32".toList
    (by constructor <;> decide) (by constructor <;> decide) (by constructor <;> decide)
    (by decide) (by decide)
  exact ⟨h.2.2.2.1, h.2.2.2.2.2⟩

/-! ## Parsing text that is no version -/

/-- C13 (counterexample): text that does not begin with a digit may parse to
fields other than (0,0,0), and to a negative field: "x.5" gives (0,5,0), "-3"
gives (-3,0,0), " 7" gives (7,0,0), "gcc.-1" gives (0,-1,0), and
"x.2147483648", which holds no sign at all, gives (0,-2147483648,0). -/
theorem parsecompilerversion_garbage_fields :
    (parsecompilerversion "x.5".toList).fields = (0, 5, 0)
    ∧ (parsecompilerversion "-3".toList).fields = (-3, 0, 0)
    ∧ (parsecompilerversion " 7".toList).fields = (7, 0, 0)
    ∧ (parsecompilerversion "gcc.-1".toList).fields = (0, -1, 0)
    ∧ (parsecompilerversion "x.2147483648".toList).fields = (0, -2147483648, 0)
    ∧ (∀ text ∈ ["x.5".toList, "-3".toList, " 7".toList, "gcc.-1".toList,
          "x.2147483648".toList],
        ∀ c ∈ text.head?, c.isDigit = false) := by
  decide

theorem isDigit_le (c : Char) (h : c.isDigit = true) : (c.toNat : Int) ≤ 57 := by
  simp only [Char.isDigit, Bool.and_eq_true, decide_eq_true_eq] at h
  have h1 : c.val.toNat ≤ (57 : Nat) := h.2
  have : c.toNat = c.val.toNat := rfl
  omega

theorem atoidigits_lt (s : CStr) : ∀ (k : Nat) (acc : Int), 0 ≤ acc →
    (s.takeWhile Char.isDigit).length ≤ k → atoidigits s acc < (acc + 1) * 10 ^ k := by
  induction s with
  | nil =>
    intro k acc h0 _
    have hp : (1 : Int) ≤ 10 ^ k := one_le_pow₀ (by norm_num)
    simp only [atoidigits]
    nlinarith
  | cons x xs ih =>
    intro k acc h0 hk
    have hp : (1 : Int) ≤ 10 ^ k := one_le_pow₀ (by norm_num)
    simp only [atoidigits]
    by_cases hx : x.isDigit = true
    · rw [if_pos hx]
      cases k with
      | zero => simp [List.takeWhile, hx] at hk
      | succ k =>
        have hk2 : (xs.takeWhile Char.isDigit).length ≤ k := by
          simpa [List.takeWhile, hx] using hk
        have h1 := isDigit_ge x hx
        have h2 := isDigit_le x hx
        have h3 := ih k (acc * 10 + ((x.toNat : Int) - 48)) (by omega) hk2
        have hq : (1 : Int) ≤ 10 ^ k := one_le_pow₀ (by norm_num)
        rw [pow_succ]
        nlinarith
    · rw [if_neg hx]
      nlinarith

theorem skipdot_suffix (s : CStr) : skipdot s <:+ s := by
  induction s with
  | nil => exact List.suffix_refl _
  | cons x xs ih =>
    simp only [skipdot]
    split
    · exact List.suffix_cons _ _
    · exact ih.trans (List.suffix_cons _ _)

/-- A text without '-' in which no run of digits is longer than nine is read
by `strtol` as a number from 0 to 999999999. -/
theorem strtolvalue_bounds (s : CStr) (hminus : '-' ∉ s)
    (hrun : ∀ t ∈ s.tails, (t.takeWhile Char.isDigit).length ≤ 9) :
    0 ≤ strtolvalue s ∧ strtolvalue s < 1000000000 := by
  have hsuf : s.dropWhile isspace <:+ s := List.dropWhile_suffix _
  have bound : ∀ r, r <:+ s → 0 ≤ atoidigits r 0 ∧ atoidigits r 0 < 1000000000 := by
    intro r hr
    have h1 := atoidigits_nonneg r 0 (le_refl _)
    have h2 := atoidigits_lt r 9 0 (le_refl _) (hrun r ((List.mem_tails _ _).mpr hr))
    norm_num at h2
    exact ⟨h1, h2⟩
  unfold strtolvalue
  split
  · rename_i r heq
    exfalso
    apply hminus
    have hm : '-' ∈ s.dropWhile isspace := by rw [heq]; simp
    exact hsuf.subset hm
  · rename_i r heq
    have hr : r <:+ s := by
      have : r <:+ s.dropWhile isspace := by rw [heq]; exact List.suffix_cons _ _
      exact this.trans hsuf
    exact bound r hr
  · exact bound _ hsuf

theorem atoi_nonneg (s : CStr) (hminus : '-' ∉ s)
    (hrun : ∀ t ∈ s.tails, (t.takeWhile Char.isDigit).length ≤ 9) : 0 ≤ atoi s := by
  obtain ⟨h1, h2⟩ := strtolvalue_bounds s hminus hrun
  rw [atoi_small s (by omega) (by omega)]
  exact h1

theorem atoi_range (s : CStr) : -2147483648 ≤ atoi s ∧ atoi s ≤ 2147483647 := by
  unfold atoi wrapint
  omega

theorem skipdot_subset (s : CStr) : ∀ c ∈ skipdot s, c ∈ s :=
  fun _ hc => (skipdot_suffix s).subset hc

theorem atoi_garbage (text : CStr)
    (h : ∀ c ∈ text.head?, c.isDigit = false ∧ isspace c = false ∧ c ≠ '+' ∧ c ≠ '-') :
    atoi text = 0 := by
  have hv : strtolvalue text = 0 := by
    cases text with
    | nil => rfl
    | cons x xs =>
      obtain ⟨h1, h2, h3, h4⟩ := h x (by simp)
      unfold strtolvalue
      simp only [List.dropWhile, h2]
      split
      · rename_i heq; simp only [List.cons.injEq] at heq; exact absurd heq.1 h4
      · rename_i heq; simp only [List.cons.injEq] at heq; exact absurd heq.1 h3
      · simp [atoidigits, h1]
  rw [atoi_small text (by omega) (by omega), hv]

/-- C13 (amended): `parsecompilerversion` is total, and for a text that begins
with none of a decimal digit, a sign and white space (the empty text included)
the major field is 0; if the text holds no '.' either, the fields are (0,0,0);
if the text holds no '-' and no run of more than nine digits, no field is
negative; and the minor and patch fields are values of `int` in every case. -/
theorem parsecompilerversion_garbage (text : CStr)
    (h : ∀ c ∈ text.head?, c.isDigit = false ∧ isspace c = false ∧ c ≠ '+' ∧ c ≠ '-') :
    (parsecompilerversion text).major = 0
    ∧ ('.' ∉ text → (parsecompilerversion text).fields = (0, 0, 0))
    ∧ ('-' ∉ text → (∀ t ∈ text.tails, (t.takeWhile Char.isDigit).length ≤ 9) →
        0 ≤ (parsecompilerversion text).minor ∧ 0 ≤ (parsecompilerversion text).patch)
    ∧ (-2147483648 ≤ (parsecompilerversion text).minor
        ∧ (parsecompilerversion text).minor ≤ 2147483647
        ∧ -2147483648 ≤ (parsecompilerversion text).patch
        ∧ (parsecompilerversion text).patch ≤ 2147483647) := by
  have hmajor : (parsecompilerversion text).major = 0 := by
    have := atoi_garbage text h
    simp only [parsecompilerversion]
    split
    · exact this
    · split
      · exact this
      · exact this
  refine ⟨hmajor, ?_, ?_, ?_⟩
  · intro hdot
    have hs : skipdot text = [] := skipdot_nodot text (fun c hc hcd => hdot (hcd ▸ hc))
    simp only [parsecompilerversion, compilerversion.fields, hs, if_true, atoi_garbage text h]
  · intro hminus hrun
    have s1 : skipdot text <:+ text := skipdot_suffix text
    have s2 : skipdot (skipdot text) <:+ text := (skipdot_suffix _).trans s1
    have run : ∀ u : CStr, u <:+ text →
        ∀ t ∈ u.tails, (t.takeWhile Char.isDigit).length ≤ 9 := fun u hu t ht =>
      hrun t ((List.mem_tails _ _).mpr (((List.mem_tails _ _).mp ht).trans hu))
    have a1 := atoi_nonneg _ (fun hc => hminus (s1.subset hc)) (run _ s1)
    have a2 := atoi_nonneg _ (fun hc => hminus (s2.subset hc)) (run _ s2)
    simp only [parsecompilerversion]
    split
    · exact ⟨le_refl _, le_refl _⟩
    · split
      · exact ⟨a1, le_refl _⟩
      · exact ⟨a1, a2⟩
  · have r1 := atoi_range (skipdot text)
    have r2 := atoi_range (skipdot (skipdot text))
    have z1 : (-2147483648 : Int) ≤ 0 := by decide
    have z2 : (0 : Int) ≤ 2147483647 := by decide
    simp only [parsecompilerversion]
    split
    · exact ⟨z1, z2, z1, z2⟩
    · split
      · exact ⟨r1.1, r1.2, z1, z2⟩
      · exact ⟨r1.1, r1.2, r2.1, r2.2⟩

theorem parsecompilerversion_garbage_witness :
    (parsecompilerversion "include".toList).major = 0
    ∧ (parsecompilerversion "include".toList).fields = (0, 0, 0)
    ∧ (parsecompilerversion [] ).fields = (0, 0, 0)
    ∧ (0 ≤ (parsecompilerversion "lib.4.9".toList).minor
        ∧ 0 ≤ (parsecompilerversion "lib.4.9".toList).patch) :=
  ⟨(parsecompilerversion_garbage "include".toList (by decide)).1,
    (parsecompilerversion_garbage "include".toList (by decide)).2.1 (by decide),
    (parsecompilerversion_garbage [] (by decide)).2.1 (by decide),
    (parsecompilerversion_garbage "lib.4.9".toList (by decide)).2.2.1 (by decide) (by decide)⟩

/-! ## The latest version of a directory -/

theorem sortedlast_spec (vs : List compilerver) (best : compilerver) :
    (sortedlast vs best = best ∨ sortedlast vs best ∈ vs)
    ∧ best.num ≤ (sortedlast vs best).num
    ∧ ∀ v ∈ vs, v.num ≤ (sortedlast vs best).num := by
  induction vs generalizing best with
  | nil => exact ⟨Or.inl rfl, le_refl _, fun v hv => absurd hv (List.not_mem_nil v)⟩
  | cons x xs ih =>
    simp only [sortedlast]
    obtain ⟨h1, h2, h3⟩ := ih (if x.lt best = true then best else x)
    refine ⟨?_, ?_, ?_⟩
    · rcases h1 with h1 | h1
      · rw [h1]
        split
        · exact Or.inl rfl
        · exact Or.inr (List.mem_cons_self _ _)
      · exact Or.inr (List.mem_cons_of_mem _ h1)
    · refine le_trans ?_ h2
      split
      · exact le_refl _
      · rename_i hlt
        simp only [compilerversion.lt, decide_eq_true_eq] at hlt
        omega
    · intro v hv
      rcases List.mem_cons.mp hv with rfl | hv
      · refine le_trans ?_ h2
        split
        · rename_i hlt
          simp only [compilerversion.lt, decide_eq_true_eq] at hlt
          omega
        · exact le_refl _
      · exact h3 v hv

/-- C14: `findlatestcompilerversion` returns the unset version when the
directory cannot be opened or no entry passes the filter; otherwise it returns
the parse of some listed name whose `num()` is at least that of the parse of
every listed name, so that a result with `num()` 0 means that no listed name
parses to a version above 0.  In the directory with the entries "4.8" and
"4.9.2" the result is the parse of "4.9.2". -/
theorem findlatestcompilerversion_max (w : world) (dir : CStr)
    (cmp : Option (CStr → CStr → Bool)) :
    (listfiles w dir cmp = none → findlatestcompilerversion w dir cmp = {})
    ∧ (listfiles w dir cmp = some [] → findlatestcompilerversion w dir cmp = {})
    ∧ (∀ L, listfiles w dir cmp = some L → L ≠ [] →
        ∃ n ∈ L, findlatestcompilerversion w dir cmp = parsecompilerversion n
          ∧ (∀ n2 ∈ L, (parsecompilerversion n2).num ≤ (parsecompilerversion n).num)
          ∧ ((findlatestcompilerversion w dir cmp).num = 0 →
              ∀ n2 ∈ L, (parsecompilerversion n2).num ≤ 0))
    ∧ listfiles gccworld "/usr/lib/gcc/i686-w64-mingw32/".toList none
        = some ["4.8".toList, "4.9.2".toList]
    ∧ findlatestcompilerversion gccworld "/usr/lib/gcc/i686-w64-mingw32/".toList none
        = parsecompilerversion "4.9.2".toList := by
  refine ⟨?_, ?_, ?_, by decide, by decide⟩
  · intro h
    simp only [findlatestcompilerversion, h]
  · intro h
    simp only [findlatestcompilerversion, h, List.map_nil]
  · intro L h hne
    cases L with
    | nil => exact absurd rfl hne
    | cons x xs =>
      have hf : findlatestcompilerversion w dir cmp
          = sortedlast (xs.map parsecompilerversion) (parsecompilerversion x) := by
        simp only [findlatestcompilerversion, h, List.map_cons]
      obtain ⟨h1, h2, h3⟩ :=
        sortedlast_spec (xs.map parsecompilerversion) (parsecompilerversion x)
      have hall : ∀ n2 ∈ x :: xs, (parsecompilerversion n2).num
          ≤ (findlatestcompilerversion w dir cmp).num := by
        intro n2 hn2
        rw [hf]
        rcases List.mem_cons.mp hn2 with rfl | hn2
        · exact h2
        · exact h3 _ (List.mem_map_of_mem _ hn2)
      have hex : ∃ n ∈ x :: xs, findlatestcompilerversion w dir cmp = parsecompilerversion n := by
        rw [hf]
        rcases h1 with h1 | h1
        · exact ⟨x, List.mem_cons_self _ _, h1⟩
        · obtain ⟨n, hn, hnv⟩ := List.mem_map.mp h1
          exact ⟨n, List.mem_cons_of_mem _ hn, hnv.symm⟩
      obtain ⟨n, hn, hnv⟩ := hex
      refine ⟨n, hn, hnv, ?_, ?_⟩
      · intro n2 hn2
        rw [← hnv]
        exact hall n2 hn2
      · intro h0 n2 hn2
        rw [← h0]
        exact hall n2 hn2

end Wclang

namespace Wclang

/-! ## The roots of MINGW_PATH -/

/-- C16: `checkpath` does not strip a trailing "/bin" only: it removes the last
four characters of every entry that holds any of the characters '/', 'b', 'i',
'n', and it ends abnormally on such an entry of fewer than four characters.
The entry "/opt/mingw" is probed as "/opt/m", "/a" ends the run, and with
MINGW_PATH=/opt/mingw the headers under "/opt/mingw" are not found although
they are found with MINGW_PATH=/opt/mingw/bin; only an entry that ends in "/bin" or holds none of
the four characters is treated as described. -/
theorem stripbin_strips_any_entry :
    stripbin "/opt/mingw".toList = some "/opt/m".toList
    ∧ stripbin "/a".toList = none
    ∧ stripbin "/opt/mingw/bin".toList = some "/opt/mingw".toList
    ∧ stripbin "C:".toList = some "C:".toList
    ∧ (findstdheader democonfig optworld
        (setenv demoenv "MINGW_PATH".toList "/opt/mingw".toList)
        "i686-w64-mingw32".toList {}).map (fun r => (r.1, r.2.stdpaths)) = some (false, [])
    ∧ (findstdheader democonfig optworld
        (setenv demoenv "MINGW_PATH".toList "/opt/mingw/bin".toList)
        "i686-w64-mingw32".toList {}).map (fun r => (r.1, r.2.stdpaths))
        = some (true, ["/opt/mingw/i686-w64-mingw32/include".toList])
    ∧ (findstdheader democonfig optworld (setenv demoenv "MINGW_PATH".toList "/a".toList)
        "i686-w64-mingw32".toList {}).isNone = true := by
  decide

/-! ## The retry of the resolution -/

/-- C17: with an explicit triple in the invocation name there is no retry: for
"i686-w64-mingw32-clang" with MINGW_PATH pointing to a place without headers and
the headers present under the built-in root "/usr", `main` exits with status 1
and the text "cannot find ... C headers"; without MINGW_PATH the same run
replaces the process, and under the generic name "w32-clang" the run with
MINGW_PATH set drops the variable, retries and replaces the process. -/
theorem main_explicit_triple_no_retry :
    outcome.exit? (main democonfig demoworld overrideenv 2
        ["i686-w64-mingw32-clang".toList, "foo.c".toList])
      = some (1, ("cannot find i686-w64-mingw32 C headers\n"
          ++ "make sure i686-w64-mingw32 C headers are installed on your system \n").toList)
    ∧ outcome.isreplaced (main democonfig demoworld demoenv 2
        ["i686-w64-mingw32-clang".toList, "foo.c".toList]) = true
    ∧ outcome.isreplaced (main democonfig demoworld overrideenv 2
        ["w32-clang".toList, "foo.c".toList]) = true := by
  refine ⟨by decide, by decide, by decide⟩

/-! ## The second layout of the C++ headers -/

theorem findcxx_base2_paths (w : world) (target root : CStr) :
    ∀ (bases : List CStr) (c c2 : commandargs),
      findcxx_base2 w target root bases c = (true, c2) →
      ∃ B ∈ bases,
        c2.mingwversion = findlatestcompilerversion w
          (root ++ B ++ "/".toList ++ target ++ "/".toList)
          (some (checkmingwheaders w target))
        ∧ c2.cxxpaths = c.cxxpaths
          ++ [root ++ B ++ "/".toList ++ target ++ "/".toList ++ c2.mingwversion.s
                ++ "/include/c++".toList,
              root ++ B ++ "/".toList ++ target ++ "/".toList] := by
  intro bases
  induction bases with
  | nil =>
    intro c c2 h
    simp [findcxx_base2] at h
  | cons B rest ih =>
    intro c c2 h
    simp only [findcxx_base2] at h
    split at h
    · obtain ⟨B2, hB2, h1, h2⟩ := ih _ _ h
      exact ⟨B2, List.mem_cons_of_mem _ hB2, h1, h2⟩
    · split at h
      · simp only [Prod.mk.injEq, true_and] at h
        subst h
        exact ⟨B, List.mem_cons_self _ _, rfl, by simp [addheaderdir]⟩
      · obtain ⟨B2, hB2, h1, h2⟩ := ih _ _ h
        exact ⟨B2, List.mem_cons_of_mem _ hB2, h1, h2⟩

/-- C19: when the second layout of `CXXINCLUDEBASE` succeeds at the base B with
the highest version V, the two entries appended to the C++ path list are
"B/T/V/include/c++" and then "B/T/", the directory of the target, which does
not hold the version (the comment in the code names a path under "B/T/V/"). -/
theorem findcxx_base2_second_entry (w : world) (target root : CStr)
    (bases : List CStr) (c c2 : commandargs)
    (h : findcxx_base2 w target root bases c = (true, c2)) :
    ∃ B ∈ bases, ∃ V,
      V = (findlatestcompilerversion w (root ++ B ++ "/".toList ++ target ++ "/".toList)
            (some (checkmingwheaders w target))).s
      ∧ c2.cxxpaths = c.cxxpaths
          ++ [root ++ B ++ "/".toList ++ target ++ "/".toList ++ V ++ "/include/c++".toList,
              root ++ B ++ "/".toList ++ target ++ "/".toList] := by
  obtain ⟨B, hB, h1, h2⟩ := findcxx_base2_paths w target root bases c c2 h
  exact ⟨B, hB, _, by rw [← h1], h2⟩

theorem findcxx_base2_second_entry_witness :
    (findcxxheaders democonfig gccworld "i686-w64-mingw32".toList
        { stdpaths := ["/usr/i686-w64-mingw32/include".toList] }).1 = true
    ∧ (findcxxheaders democonfig gccworld "i686-w64-mingw32".toList
        { stdpaths := ["/usr/i686-w64-mingw32/include".toList] }).2.cxxpaths
      = ["/usr/lib/gcc/i686-w64-mingw32/4.9.2/include/c++".toList,
         "/usr/lib/gcc/i686-w64-mingw32/".toList]
    ∧ ∃ B ∈ CXXINCLUDEBASE, ∃ V,
        V = (findlatestcompilerversion gccworld
              ([] ++ B ++ "/".toList ++ "i686-w64-mingw32".toList ++ "/".toList)
              (some (checkmingwheaders gccworld "i686-w64-mingw32".toList))).s
        ∧ (findcxx_base2 gccworld "i686-w64-mingw32".toList [] CXXINCLUDEBASE {}).2.cxxpaths
          = ({} : commandargs).cxxpaths
            ++ [[] ++ B ++ "/".toList ++ "i686-w64-mingw32".toList ++ "/".toList ++ V
                  ++ "/include/c++".toList,
                [] ++ B ++ "/".toList ++ "i686-w64-mingw32".toList ++ "/".toList] :=
  ⟨by decide, by decide,
    findcxx_base2_second_entry gccworld "i686-w64-mingw32".toList [] CXXINCLUDEBASE {}
      (findcxx_base2 gccworld "i686-w64-mingw32".toList [] CXXINCLUDEBASE {}).2
      (by
        have h1 : (findcxx_base2 gccworld "i686-w64-mingw32".toList [] CXXINCLUDEBASE {}).1
            = true := by decide
        rw [← h1])⟩

end Wclang

namespace Wclang

/-! ## The rounds of the resolution -/

theorem main_resolve_env (cfg : config) (w : world) (e : CStr) (st st2 : mainstate)
    (h : main_resolve cfg w e st = some st2) : st2.env = st.env := by
  unfold main_resolve at h
  split at h
  · split at h
    · exact absurd h (by simp)
    · simp only [Option.some.injEq] at h
      subst h
      rfl
  · split at h
    · split at h
      · exact absurd h (by simp)
      · simp only [Option.some.injEq] at h
        subst h
        rfl
    · split at h
      · split at h
        · exact absurd h (by simp)
        · simp only [Option.some.injEq] at h
          subst h
          rfl
      · simp only [Option.some.injEq] at h
        subst h
        rfl

theorem unsetenv_self (env : environ) (var : CStr) : unsetenv env var var = none := by
  simp [unsetenv]

theorem find_target_and_headers_one (cfg : config) (w : world) (e : CStr) (st : mainstate)
    (henv : st.env "MINGW_PATH".toList = none) (fuel : Nat) :
    find_target_and_headers cfg w e (fuel + 1) st = find_target_and_headers cfg w e 1 st
    ∧ find_target_and_headers cfg w e 1 st ≠ none := by
  cases hr : main_resolve cfg w e st with
  | none =>
    simp only [find_target_and_headers, hr]
    simp
  | some st2 =>
    have he : st2.env "MINGW_PATH".toList = none := by
      rw [main_resolve_env cfg w e st st2 hr]; exact henv
    simp only [find_target_and_headers, hr, he, Option.isSome_none]
    by_cases h1 : st2.targettype = -1
    · simp only [h1, if_true]
      simp
    · simp only [h1, if_false]
      by_cases h2 : st2.cmdargs.target.isEmpty = true
      · simp only [h2, if_true]
        exact ⟨by simp, by simp⟩
      · simp only [h2, if_false]
        exact ⟨by simp, by simp⟩

theorem find_target_and_headers_two (cfg : config) (w : world) (e : CStr) (st : mainstate)
    (fuel : Nat) :
    find_target_and_headers cfg w e (fuel + 2) st = find_target_and_headers cfg w e 2 st
    ∧ find_target_and_headers cfg w e 2 st ≠ none := by
  cases hr : main_resolve cfg w e st with
  | none =>
    simp only [find_target_and_headers, hr]
    simp
  | some st2 =>
    have hone := fun io => find_target_and_headers_one cfg w e
      { st2 with env := unsetenv st2.env "MINGW_PATH".toList, io := io }
      (unsetenv_self st2.env "MINGW_PATH".toList)
    rw [find_target_and_headers, find_target_and_headers.eq_def cfg w e 2 st]
    simp only [hr]
    by_cases h1 : st2.targettype = -1
    · simp only [h1, if_true]
      simp
    · simp only [h1, if_false]
      by_cases h2 : st2.cmdargs.target.isEmpty = true
      · simp only [h2, if_true]
        by_cases h3 : (st2.env "MINGW_PATH".toList).isSome = true
        · simp only [h3, if_true]
          by_cases h4 : cfg.HAVE_UNSETENV = true
          · simp only [h4, if_true]
            exact ⟨(hone _ fuel).1.trans (hone _ 0).1.symm, (hone _ 0).2⟩
          · simp only [h4, if_false]
            exact ⟨by simp, by simp⟩
        · simp only [h3, if_false]
          exact ⟨by simp, by simp⟩
      · simp only [h2, if_false]
        exact ⟨by simp, by simp⟩

theorem find_target_and_headers_status (cfg : config) (w : world) (e : CStr) :
    ∀ (fuel : Nat) (st : mainstate) (status : Int) (io : streams),
      find_target_and_headers cfg w e fuel st = some (result.exit status io) → status = 1 := by
  intro fuel
  induction fuel with
  | zero =>
    intro st status io h
    simp [find_target_and_headers] at h
  | succ n ih =>
    intro st status io h
    simp only [find_target_and_headers] at h
    split at h
    · simp at h
    · split at h
      · simp only [Option.some.injEq, result.exit.injEq] at h
        exact h.1.symm
      · split at h
        · split at h
          · split at h
            · exact ih _ _ _ h
            · simp only [Option.some.injEq, result.exit.injEq] at h
              exact h.1.symm
          · simp only [Option.some.injEq, result.exit.injEq] at h
            exact h.1.symm
        · simp at h

/-- C18: the block at `find_target_and_headers` runs at most twice: two rounds
always end the resolution, with the same result for every larger bound; one
round ends it when MINGW_PATH is not set; every exit of the resolution has
status 1; a round that names no target while MINGW_PATH is set goes on with
the round on the state without the variable (where `unsetenv` exists; it exits
with status 1 where it does not); and the second round is taken in the run of
"w32-clang" whose MINGW_PATH names a place without headers, where one round
does not suffice and the second one finds the headers under "/usr". -/
theorem find_target_and_headers_at_most_twice (cfg : config) (w : world) (e : CStr)
    (st : mainstate) :
    (∃ r, ∀ fuel, 2 ≤ fuel → find_target_and_headers cfg w e fuel st = some r)
    ∧ (st.env "MINGW_PATH".toList = none →
        ∃ r, ∀ fuel, 1 ≤ fuel → find_target_and_headers cfg w e fuel st = some r)
    ∧ (∀ fuel status io,
        find_target_and_headers cfg w e fuel st = some (result.exit status io) → status = 1)
    ∧ (∀ st2, main_resolve cfg w e st = some st2 → st2.targettype ≠ -1 →
        st2.cmdargs.target.isEmpty = true → (st.env "MINGW_PATH".toList).isSome = true →
        ∀ fuel, find_target_and_headers cfg w e (fuel + 1) st
          = if cfg.HAVE_UNSETENV = true then
              find_target_and_headers cfg w e fuel
                { st2 with
                  env := unsetenv st.env "MINGW_PATH".toList,
                  io := warn cfg w st2.io
                    ("MINGW_PATH env variable does not point to any ".toList
                      ++ "valid mingw installation for the current target!".toList) }
            else some (result.exit 1 (warn cfg w st2.io
              ("MINGW_PATH env variable does not point to any ".toList
                ++ "valid mingw installation for the current target!".toList))))
    ∧ (find_target_and_headers democonfig demoworld "w32-clang".toList 1
        { env := overrideenv }).isNone = true
    ∧ (find_target_and_headers democonfig demoworld "w32-clang".toList 2
          { env := overrideenv }).map
        (fun r => match r with
          | result.ok st2 => some (st2.cmdargs.stdpaths, st2.env "MINGW_PATH".toList)
          | _ => none)
        = some (some (["/usr/i686-w64-mingw32/include".toList], none)) := by
  refine ⟨?_, ?_, ?_, ?_, by decide, by decide⟩
  rotate_left 3
  · intro st2 hr h1 h2 h3 fuel
    have he := main_resolve_env cfg w e st st2 hr
    simp only [find_target_and_headers, hr, h1, h2, h3, he, if_true, if_false, EXIT_FAILURE]
  · cases h2 : find_target_and_headers cfg w e 2 st with
    | none => exact absurd h2 (find_target_and_headers_two cfg w e st 0).2
    | some r =>
      refine ⟨r, fun fuel hfuel => ?_⟩
      obtain ⟨k, rfl⟩ := Nat.exists_eq_add_of_le hfuel
      rw [Nat.add_comm, (find_target_and_headers_two cfg w e st k).1, h2]
  · intro henv
    cases h1 : find_target_and_headers cfg w e 1 st with
    | none => exact absurd h1 (find_target_and_headers_one cfg w e st henv 0).2
    | some r =>
      refine ⟨r, fun fuel hfuel => ?_⟩
      obtain ⟨k, rfl⟩ := Nat.exists_eq_add_of_le hfuel
      rw [Nat.add_comm, (find_target_and_headers_one cfg w e st henv k).1, h1]
  · intro fuel status io h
    exact find_target_and_headers_status cfg w e fuel st status io h

/-! ## The invocation name -/

theorem strrchr_some (c : Char) : ∀ (s p : CStr), strrchr s c = some p →
    ∃ P q, s = P ++ c :: q ∧ p = c :: q := by
  intro s
  induction s with
  | nil => intro p h; simp [strrchr] at h
  | cons x xs ih =>
    intro p h
    simp only [strrchr] at h
    split at h
    · rename_i r hr
      simp only [Option.some.injEq] at h
      subst h
      obtain ⟨P, q, h1, h2⟩ := ih _ hr
      exact ⟨x :: P, q, by rw [h1, List.cons_append], h2⟩
    · split at h
      · rename_i hx
        simp only [Option.some.injEq] at h
        subst h
        exact ⟨[], xs, by rw [hx, List.nil_append], by rw [hx]⟩
      · exact absurd h (by simp)

theorem strncmp_isPrefix : ∀ (b a : CStr), strncmp a b b.length = true → b <+: a := by
  intro b
  induction b with
  | nil => intro a _; exact List.nil_prefix
  | cons y ys ih =>
    intro a h
    cases a with
    | nil => simp [strncmp] at h
    | cons x xs =>
      simp only [List.length_cons, strncmp, Bool.and_eq_true, beq_iff_eq] at h
      obtain ⟨hxy, hrest⟩ := h
      subst hxy
      exact (List.cons_prefix_cons).mpr ⟨rfl, ih xs hrest⟩

theorem strncmp_take : ∀ (n : Nat) (t e : CStr), strncmp t e n = true → t.length ≤ n →
    t = e.take n := by
  intro n
  induction n with
  | zero =>
    intro t e _ hl
    have : t = [] := List.eq_nil_of_length_eq_zero (Nat.le_zero.mp hl)
    rw [this, List.take_zero]
  | succ n ih =>
    intro t e h hl
    cases t with
    | nil =>
      cases e with
      | nil => rfl
      | cons b bs => simp [strncmp] at h
    | cons a as =>
      cases e with
      | nil => simp [strncmp] at h
      | cons b bs =>
        simp only [strncmp, Bool.and_eq_true, beq_iff_eq] at h
        simp only [List.length_cons, Nat.add_le_add_iff_right] at hl
        rw [List.take_succ_cons, h.1, ← ih as bs h.2 hl]

theorem strstr_isPrefix (needle : CStr) : ∀ (s : CStr) (n : Nat), strstr s needle = some n →
    needle <+: s.drop n := by
  intro s
  induction s with
  | nil =>
    intro n h
    simp only [strstr] at h
    split at h
    · rename_i hn
      rw [hn]
      exact List.nil_prefix
    · exact absurd h (by simp)
  | cons c cs ih =>
    intro n h
    simp only [strstr] at h
    split at h
    · rename_i hp
      simp only [Option.some.injEq] at h
      subst h
      exact List.isPrefixOf_iff_prefix.mp hp
    · simp only [Option.map_eq_some'] at h
      obtain ⟨m, hm, rfl⟩ := h
      exact ih m hm

/-- What the name check decides: a name accepted as C or as C++ ends in "-clang"
or in "-clang++", and every other name ends the run with status 1. -/
theorem checkname_cases (e : CStr) (io : streams) :
    (checkname e io = result.ok false ∧ ∃ P, e = P ++ "-clang".toList)
    ∨ (checkname e io = result.ok true ∧ ∃ P, e = P ++ "-clang++".toList)
    ∨ ∃ io2, checkname e io = result.exit 1 io2 := by
  unfold checkname
  split
  · exact Or.inr (Or.inr ⟨_, rfl⟩)
  · rename_i p hp
    obtain ⟨P, q, h1, h2⟩ := strrchr_some '-' e p hp
    subst h2
    simp only [List.drop_succ_cons, List.drop_zero]
    by_cases hc : strncmp q "clang".toList 5 = true
    · have hpre : "clang".toList <+: q := strncmp_isPrefix "clang".toList q hc
      obtain ⟨t, ht⟩ := hpre
      subst ht
      have hd : List.drop 5 ("clang".toList ++ t) = t := rfl
      simp only [hc, Bool.not_true, Bool.false_eq_true, if_false, hd]
      by_cases hpp : strcmp t "++".toList = true
      · simp only [hpp, if_true]
        refine Or.inr (Or.inl ⟨trivial, P, ?_⟩)
        have : t = "++".toList := by simpa [strcmp] using hpp
        rw [h1, this]
        rfl
      · simp only [hpp, if_false]
        by_cases hn : isnul t 0 = true
        · simp only [hn, Bool.not_true, Bool.false_eq_true, if_false]
          refine Or.inl ⟨trivial, P, ?_⟩
          have : t = [] := by
            simp only [isnul, decide_eq_true_eq, Nat.le_zero] at hn
            exact List.eq_nil_of_length_eq_zero hn
          rw [h1, this]
          rfl
        · simp only [hn, Bool.not_false, if_true]
          exact Or.inr (Or.inr ⟨_, rfl⟩)
    · simp only [hc, Bool.not_false, if_true]
      exact Or.inr (Or.inr ⟨_, rfl⟩)

theorem findtriple_none (e : CStr) (targettype : Int)
    (h : ∀ t ∈ TARGET32 ++ TARGET64, ¬ (t ++ "-clang".toList) <+: e) :
    findtriple e targettype = (none, targettype) := by
  unfold findtriple
  split
  · rfl
  · rename_i len hlen
    have hpre := strstr_isPrefix _ e len hlen
    have hno : ∀ t ∈ TARGET32 ++ TARGET64,
        (strncmp t e len && isnul t len) = false := by
      intro t ht
      by_contra hc
      simp only [Bool.not_eq_false, Bool.and_eq_true, isnul, decide_eq_true_eq] at hc
      have htake := strncmp_take len t e hc.1 hc.2
      apply h t ht
      obtain ⟨r, hr⟩ := hpre
      refine ⟨r, ?_⟩
      rw [htake, List.append_assoc, hr, List.take_append_drop]
    have h32 : TARGET32.find? (fun target => strncmp target e len && isnul target len)
        = none := by
      rw [List.find?_eq_none]
      intro t ht
      rw [hno t (List.mem_append_left _ ht)]
      simp
    have h64 : TARGET64.find? (fun target => strncmp target e len && isnul target len)
        = none := by
      rw [List.find?_eq_none]
      intro t ht
      rw [hno t (List.mem_append_right _ ht)]
      simp
    simp only [h32, h64]

/-- C15 (counterexample): the names "w32x-clang" and
"i686-w64-mingw32-clang-clang" are not a listed triple or "w32" or "w64"
followed by "-clang" or "-clang++", yet `main` under these names resolves the
target, translates the arguments and replaces the process. -/
theorem main_accepts_other_names :
    (∀ P ∈ TARGET32 ++ TARGET64 ++ ["w32".toList, "w64".toList],
      ∀ e ∈ ["w32x-clang".toList, "i686-w64-mingw32-clang-clang".toList],
        e ≠ P ++ "-clang".toList ∧ e ≠ P ++ "-clang++".toList)
    ∧ outcome.isreplaced (main democonfig demoworld demoenv 2
        ["/usr/bin/w32x-clang".toList, "foo.c".toList]) = true
    ∧ outcome.isreplaced (main democonfig demoworld demoenv 2
        ["/usr/bin/i686-w64-mingw32-clang-clang".toList, "foo.c".toList]) = true := by
  refine ⟨by decide, by decide, by decide⟩

/-- C15 (amended): when the name after the last '/' of the invocation path does
not end in "-clang" or "-clang++", or begins neither with "w32" nor with "w64"
nor with a triple of TARGET32 or TARGET64 followed by "-clang", `main` exits
with status 1 whatever the filesystem and the environment hold; it does so
before any argument is looked at and without replacing the process. -/
theorem main_rejects_name (cfg : config) (w : world) (env : environ) (fuel : Nat)
    (argv0 : CStr) (user : List CStr) (hfuel : 1 ≤ fuel)
    (h : (¬ ∃ P, programname argv0 = P ++ "-clang".toList
            ∨ programname argv0 = P ++ "-clang++".toList)
        ∨ (¬ "w32".toList <+: programname argv0 ∧ ¬ "w64".toList <+: programname argv0
            ∧ ∀ t ∈ TARGET32 ++ TARGET64, ¬ (t ++ "-clang".toList) <+: programname argv0)) :
    ∃ io, main cfg w env fuel (argv0 :: user) = some (outcome.exited 1 io)
      ∧ main_args cfg w env fuel (argv0 :: user) = some (result.exit 1 io) := by
  obtain ⟨k, rfl⟩ := Nat.exists_eq_add_of_le hfuel
  have hexit : ∀ io, main_args cfg w env (1 + k) (argv0 :: user) = some (result.exit 1 io) →
      ∃ io, main cfg w env (1 + k) (argv0 :: user) = some (outcome.exited 1 io)
        ∧ main_args cfg w env (1 + k) (argv0 :: user) = some (result.exit 1 io) := by
    intro io hio
    exact ⟨io, by simp only [main, hio], hio⟩
  have hgeneric : (¬ "w32".toList <+: programname argv0 ∧ ¬ "w64".toList <+: programname argv0
      ∧ ∀ t ∈ TARGET32 ++ TARGET64, ¬ (t ++ "-clang".toList) <+: programname argv0) →
      ∀ b, checkname (programname argv0) {} = result.ok b →
      ∃ io, main_args cfg w env (1 + k) (argv0 :: user) = some (result.exit 1 io) := by
    intro ⟨h32, h64, ht⟩ b hb
    have hft := findtriple_none (programname argv0) (-1) ht
    have hw32 : strncmp (programname argv0) "w32".toList 3 = false := by
      by_contra hc
      exact h32 (strncmp_isPrefix "w32".toList _ (by simpa using hc))
    have hw64 : strncmp (programname argv0) "w64".toList 3 = false := by
      by_contra hc
      exact h64 (strncmp_isPrefix "w64".toList _ (by simpa using hc))
    have hm : main_args cfg w env (1 + k) (argv0 :: user)
        = some (result.exit 1 (({} : streams).err
            ("invalid target: ".toList ++ programname argv0 ++ "\n".toList))) := by
      rw [Nat.add_comm]
      simp only [main_args, hb, find_target_and_headers, main_resolve, hft, hw32, hw64,
        Bool.false_eq_true, if_false, if_true]
    exact ⟨_, hm⟩
  rcases checkname_cases (programname argv0) {} with ⟨hc, P, hP⟩ | ⟨hc, P, hP⟩ | ⟨io2, hc⟩
  · rcases h with h | h
    · exact absurd ⟨P, Or.inl hP⟩ h
    · obtain ⟨io, hio⟩ := hgeneric h _ hc
      exact hexit io hio
  · rcases h with h | h
    · exact absurd ⟨P, Or.inr hP⟩ h
    · obtain ⟨io, hio⟩ := hgeneric h _ hc
      exact hexit io hio
  · exact hexit io2 (by simp only [main_args, hc])

theorem main_rejects_name_witness :
    (∃ io, main democonfig demoworld demoenv 2 ["/usr/bin/clang".toList, "foo.c".toList]
        = some (outcome.exited 1 io)
      ∧ main_args democonfig demoworld demoenv 2 ["/usr/bin/clang".toList, "foo.c".toList]
        = some (result.exit 1 io))
    ∧ (∃ io, main democonfig demoworld demoenv 2 ["arm-clang".toList, "foo.c".toList]
        = some (outcome.exited 1 io)
      ∧ main_args democonfig demoworld demoenv 2 ["arm-clang".toList, "foo.c".toList]
        = some (result.exit 1 io)) := by
  refine ⟨main_rejects_name democonfig demoworld demoenv 2 "/usr/bin/clang".toList
      ["foo.c".toList] (by decide) (Or.inl ?_),
    main_rejects_name democonfig demoworld demoenv 2 "arm-clang".toList
      ["foo.c".toList] (by decide) (Or.inr ⟨?_, ?_, ?_⟩)⟩
  · rintro ⟨P, hP | hP⟩
    · have h1 : programname "/usr/bin/clang".toList = "clang".toList := by decide
      rw [h1] at hP
      have := congrArg (fun l => decide ('-' ∈ l)) hP
      simp at this
    · have h1 : programname "/usr/bin/clang".toList = "clang".toList := by decide
      rw [h1] at hP
      have := congrArg (fun l => decide ('-' ∈ l)) hP
      simp at this
  · rw [← List.isPrefixOf_iff_prefix]; decide
  · rw [← List.isPrefixOf_iff_prefix]; decide
  · intro t ht
    rw [← List.isPrefixOf_iff_prefix]
    revert t
    decide

end Wclang

namespace Wclang

/-! ## Running header discovery again -/

theorem appends_seq (proj : commandargs → List CStr) (f g : commandargs → Bool × commandargs)
    (b1 b2 : Bool) (d1 d2 : List CStr)
    (hf : appends proj f b1 d1) (hg : appends proj g b2 d2) :
    ∃ b d, appends proj (fun c => if (f c).1 = true then f c else g (f c).2) b d := by
  cases b1 with
  | true =>
    refine ⟨true, d1, hf.1, fun c => ?_⟩
    have h := hf.2 c
    simp only [h.1, if_true]
    exact ⟨trivial, h.2⟩
  | false =>
    have hd : d1 = [] := by
      by_contra hne
      exact absurd (hf.1.mpr hne) (by simp)
    refine ⟨b2, d2, hg.1, fun c => ?_⟩
    have h := hf.2 c
    have h2 := hg.2 (f c).2
    simp only [h.1, Bool.false_eq_true, if_false]
    refine ⟨h2.1, ?_⟩
    rw [h2.2, h.2, hd, List.append_nil]

theorem appends_ite (proj : commandargs → List CStr) (p : Prop) [Decidable p]
    (f g : commandargs → Bool × commandargs)
    (hf : ∃ b d, appends proj f b d) (hg : ∃ b d, appends proj g b d) :
    ∃ b d, appends proj (fun c => if p then f c else g c) b d := by
  by_cases hp : p
  · simp only [hp, if_true]
    exact hf
  · simp only [hp, if_false]
    exact hg

theorem appends_fail (proj : commandargs → List CStr) :
    appends proj (fun c => (false, c)) false [] :=
  ⟨by simp, fun c => ⟨rfl, by simp⟩⟩

/-! ### The standard C headers -/

theorem std_trydir_appends (w : world) (dir : CStr) :
    ∃ b d, appends (fun c => c.stdpaths) (fun c => std_trydir w c dir) b d := by
  by_cases h1 : w.stat dir = some true
  · by_cases h2 : (w.stat (dir ++ "/stdlib.h".toList)).isNone = true
    · exact ⟨false, [], by simp, fun c => by simp only [std_trydir, h1, h2, if_true]; simp⟩
    · exact ⟨true, [dir], by simp, fun c => by simp only [std_trydir, h1, h2, if_true]; simp⟩
  · exact ⟨false, [], by simp, fun c => by simp only [std_trydir, h1, if_false]; simp⟩

theorem std_checkdir_appends (w : world) (target stdinclude : CStr) :
    ∃ b d, appends (fun c => c.stdpaths) (fun c => std_checkdir w target c stdinclude) b d := by
  obtain ⟨b1, d1, h1⟩ := std_trydir_appends w
    (stdinclude ++ "/".toList ++ target ++ "/include".toList)
  obtain ⟨b2, d2, h2⟩ := std_trydir_appends w
    (stdinclude ++ "/".toList ++ target ++ "/sys-root/mingw/include".toList)
  obtain ⟨b3, d3, h3⟩ := std_trydir_appends w
    (stdinclude ++ "/usr/".toList ++ target ++ "/include".toList)
  obtain ⟨b23, d23, h23⟩ := appends_seq _ _ _ _ _ _ _ h2 h3
  exact appends_seq _ _ _ _ _ _ _ h1 h23

theorem std_bases_appends (w : world) (target : CStr) (l : List CStr) :
    ∃ b d, appends (fun c => c.stdpaths) (fun c => std_bases w target l c) b d := by
  induction l with
  | nil => exact ⟨false, [], appends_fail _⟩
  | cons x rest ih =>
    obtain ⟨b1, d1, h1⟩ := std_checkdir_appends w target x
    obtain ⟨b2, d2, h2⟩ := ih
    exact appends_seq _ _ _ _ _ _ _ h1 h2

theorem appendsopt_some (proj : commandargs → List CStr)
    (f : commandargs → Bool × commandargs) (h : ∃ b d, appends proj f b d) :
    appendsopt proj (fun c => some (f c)) := by
  obtain ⟨b, d, hbd, hall⟩ := h
  exact Or.inr ⟨b, d, hbd, fun c => ⟨f c, rfl, (hall c).1, (hall c).2⟩⟩

/-- A step that may end abnormally, followed by a total one when it fails. -/
theorem appendsopt_seq (proj : commandargs → List CStr)
    (f : commandargs → Option (Bool × commandargs)) (g : commandargs → Option (Bool × commandargs))
    (hf : appendsopt proj f) (hg : appendsopt proj g) :
    appendsopt proj (fun c =>
      match f c with
      | none => none
      | some r => if r.1 = true then some r else g r.2) := by
  rcases hf with hf | ⟨b1, d1, hbd1, hall1⟩
  · exact Or.inl (fun c => by simp only [hf c])
  · cases b1 with
    | true =>
      refine Or.inr ⟨true, d1, hbd1, fun c => ?_⟩
      obtain ⟨r, hr, hr1, hr2⟩ := hall1 c
      exact ⟨r, by simp only [hr, hr1, if_true], hr1, hr2⟩
    | false =>
      have hd : d1 = [] := by
        by_contra hne
        exact absurd (hbd1.mpr hne) (by simp)
      rcases hg with hg | ⟨b2, d2, hbd2, hall2⟩
      · refine Or.inl (fun c => ?_)
        obtain ⟨r, hr, hr1, hr2⟩ := hall1 c
        simp only [hr, hr1, Bool.false_eq_true, if_false]
        exact hg _
      · refine Or.inr ⟨b2, d2, hbd2, fun c => ?_⟩
        obtain ⟨r, hr, hr1, hr2⟩ := hall1 c
        obtain ⟨r2, hr3, hr4, hr5⟩ := hall2 r.2
        refine ⟨r2, by simp only [hr, hr1, Bool.false_eq_true, if_false]; exact hr3, hr4, ?_⟩
        rw [hr5, hr2, hd, List.append_nil]

theorem std_checkentries_appends (w : world) (target : CStr) (l : List CStr) :
    appendsopt (fun c => c.stdpaths) (fun c => std_checkentries w target l c) := by
  induction l with
  | nil =>
    exact Or.inr ⟨false, [], by simp, fun c => ⟨(false, c), rfl, rfl, by simp⟩⟩
  | cons entry rest ih =>
    cases hs : stripbin entry with
    | none => exact Or.inl (fun c => by simp only [std_checkentries, hs])
    | some path =>
      have h1 := appendsopt_some _ _ (std_checkdir_appends w target path)
      have h2 := appendsopt_seq _ _ _ h1 ih
      have he : (fun c => std_checkentries w target (entry :: rest) c)
          = (fun c =>
              match (fun c => some (std_checkdir w target c path)) c with
              | none => none
              | some r => if r.1 = true then some r
                else (fun c => std_checkentries w target rest c) r.2) := by
        funext c
        simp only [std_checkentries, hs]
      rw [he]
      exact h2

theorem findstdheader_appends (cfg : config) (w : world) (env : environ) (target : CStr) :
    appendsopt (fun c => c.stdpaths) (fun c => findstdheader cfg w env target c) := by
  have hsys : appendsopt (fun c => c.stdpaths) (fun c => some
      (if cfg.NO_SYS_PATH = true then (false, c) else std_bases w target STDINCLUDEBASE c)) :=
    appendsopt_some _ _ (appends_ite _ _ _ _ ⟨false, [], appends_fail _⟩
      (std_bases_appends w target STDINCLUDEBASE))
  have hpath : ∀ p, appendsopt (fun c => c.stdpaths) (fun c => std_checkpath w target c p) :=
    fun p => std_checkentries_appends w target (pathentries p)
  have hbuiltin : appendsopt (fun c => c.stdpaths) (fun c =>
      match cfg.MINGW_PATH with
      | none => some
        (if cfg.NO_SYS_PATH = true then (false, c) else std_bases w target STDINCLUDEBASE c)
      | some mp =>
        if mp = [] then some
          (if cfg.NO_SYS_PATH = true then (false, c) else std_bases w target STDINCLUDEBASE c)
        else
          match std_checkpath w target c mp with
          | none => none
          | some r => if r.1 = true then some r else some
            (if cfg.NO_SYS_PATH = true then (false, r.2)
              else std_bases w target STDINCLUDEBASE r.2)) := by
    cases hm : cfg.MINGW_PATH with
    | none => exact hsys
    | some mp =>
      by_cases he : mp = []
      · simp only [he, if_true]
        exact hsys
      · simp only [he, if_false]
        exact appendsopt_seq _ _ _ (hpath mp) hsys
  cases hm : env "MINGW_PATH".toList with
  | none =>
    simp only [findstdheader, hm]
    exact hbuiltin
  | some mingwpath =>
    by_cases he : mingwpath = []
    · simp only [findstdheader, hm, he, if_true]
      exact hbuiltin
    · simp only [findstdheader, hm, he, if_false]
      exact hpath mingwpath

/-! ### The C++ headers -/

theorem addheaderdir_appends (target : CStr) (c : commandargs) (dir : CStr) :
    (addheaderdir target c dir true).cxxpaths = c.cxxpaths ++ [dir, dir ++ "/".toList ++ target]
    ∧ (addheaderdir target c dir false).cxxpaths = c.cxxpaths ++ [dir] := by
  simp [addheaderdir]

theorem findcxx_stdpaths_appends (w : world) (target : CStr) (l : List CStr) :
    ∃ b d, appends (fun c => c.cxxpaths) (fun c => findcxx_stdpaths w target l c) b d := by
  induction l with
  | nil => exact ⟨false, [], appends_fail _⟩
  | cons stddir rest ih =>
    obtain ⟨b, d, hbd, hall⟩ := ih
    by_cases h1 : checkheaderdir w (stddir ++ "/c++".toList ++ "/".toList) = true
    · exact ⟨true, [stddir ++ "/c++".toList ++ "/".toList,
          stddir ++ "/c++".toList ++ "/".toList ++ "/".toList ++ target], by simp, fun c => by
        simp only [findcxx_stdpaths, h1, if_true]
        exact ⟨trivial, (addheaderdir_appends target c _).1⟩⟩
    · by_cases h2 : (findlatestcompilerversion w
          (stddir ++ "/c++".toList ++ "/".toList) none).num = 0
      · exact ⟨b, d, hbd, fun c => by
          simp only [findcxx_stdpaths, h1, h2, if_true, if_false, Bool.false_eq_true]
          exact hall _⟩
      · by_cases h3 : checkheaderdir w (stddir ++ "/c++".toList ++ "/".toList
            ++ (findlatestcompilerversion w (stddir ++ "/c++".toList ++ "/".toList) none).s)
            = true
        · exact ⟨true, [stddir ++ "/c++".toList ++ "/".toList
              ++ (findlatestcompilerversion w (stddir ++ "/c++".toList ++ "/".toList) none).s,
            stddir ++ "/c++".toList ++ "/".toList
              ++ (findlatestcompilerversion w (stddir ++ "/c++".toList ++ "/".toList) none).s
              ++ "/".toList ++ target], by simp, fun c => by
            simp only [findcxx_stdpaths, h1, h2, h3, if_true, if_false, Bool.false_eq_true]
            exact ⟨trivial, (addheaderdir_appends target _ _).1⟩⟩
        · exact ⟨b, d, hbd, fun c => by
            simp only [findcxx_stdpaths, h1, h2, h3, if_false, Bool.false_eq_true]
            exact hall _⟩

theorem findcxx_base1_appends (w : world) (target root : CStr) (l : List CStr) :
    ∃ b d, appends (fun c => c.cxxpaths) (fun c => findcxx_base1 w target root l c) b d := by
  induction l with
  | nil => exact ⟨false, [], appends_fail _⟩
  | cons x rest ih =>
    obtain ⟨b, d, hbd, hall⟩ := ih
    by_cases h2 : (findlatestcompilerversion w (root ++ x ++ "/".toList)
        (some (checkmingwheaders w target))).num = 0
    · exact ⟨b, d, hbd, fun c => by
        simp only [findcxx_base1, h2, if_true]
        exact hall _⟩
    · by_cases h3 : checkheaderdir w (root ++ x ++ "/".toList
          ++ (findlatestcompilerversion w (root ++ x ++ "/".toList)
              (some (checkmingwheaders w target))).s) = true
      · exact ⟨true, [root ++ x ++ "/".toList
            ++ (findlatestcompilerversion w (root ++ x ++ "/".toList)
                (some (checkmingwheaders w target))).s,
          root ++ x ++ "/".toList
            ++ (findlatestcompilerversion w (root ++ x ++ "/".toList)
                (some (checkmingwheaders w target))).s ++ "/".toList ++ target],
          by simp, fun c => by
          simp only [findcxx_base1, h2, h3, if_true, if_false, Bool.false_eq_true]
          exact ⟨trivial, (addheaderdir_appends target _ _).1⟩⟩
      · exact ⟨b, d, hbd, fun c => by
          simp only [findcxx_base1, h2, h3, if_false, Bool.false_eq_true]
          exact hall _⟩

theorem findcxx_base2_appends (w : world) (target root : CStr) (l : List CStr) :
    ∃ b d, appends (fun c => c.cxxpaths) (fun c => findcxx_base2 w target root l c) b d := by
  induction l with
  | nil => exact ⟨false, [], appends_fail _⟩
  | cons x rest ih =>
    obtain ⟨b, d, hbd, hall⟩ := ih
    by_cases h2 : (findlatestcompilerversion w (root ++ x ++ "/".toList ++ target ++ "/".toList)
        (some (checkmingwheaders w target))).num = 0
    · exact ⟨b, d, hbd, fun c => by
        simp only [findcxx_base2, h2, if_true]
        exact hall _⟩
    · by_cases h3 : checkheaderdir w (root ++ x ++ "/".toList ++ target ++ "/".toList
          ++ (findlatestcompilerversion w (root ++ x ++ "/".toList ++ target ++ "/".toList)
              (some (checkmingwheaders w target))).s ++ "/include/c++".toList) = true
      · exact ⟨true,
          [root ++ x ++ "/".toList ++ target ++ "/".toList
            ++ (findlatestcompilerversion w (root ++ x ++ "/".toList ++ target ++ "/".toList)
                (some (checkmingwheaders w target))).s ++ "/include/c++".toList,
           root ++ x ++ "/".toList ++ target ++ "/".toList],
          by simp, fun c => by
          simp only [findcxx_base2, h2, h3, if_true, if_false, Bool.false_eq_true]
          refine ⟨trivial, ?_⟩
          rw [(addheaderdir_appends target _ _).2, (addheaderdir_appends target _ _).2,
            List.append_assoc]
          rfl⟩
      · exact ⟨b, d, hbd, fun c => by
          simp only [findcxx_base2, h2, h3, if_false, Bool.false_eq_true]
          exact hall _⟩

theorem findcxx_base3_appends (w : world) (target root : CStr) (l : List CStr) :
    ∃ b d, appends (fun c => c.cxxpaths) (fun c => findcxx_base3 w target root l c) b d := by
  induction l with
  | nil => exact ⟨false, [], appends_fail _⟩
  | cons x rest ih =>
    obtain ⟨b, d, hbd, hall⟩ := ih
    by_cases h2 : (findlatestcompilerversion w (root ++ x ++ "/".toList ++ target ++ "/".toList)
        none).num = 0
    · exact ⟨b, d, hbd, fun c => by
        simp only [findcxx_base3, h2, if_true]
        exact hall _⟩
    · by_cases h4 : checkmingwheaders w target (root ++ x ++ "/".toList ++ target ++ "/".toList
          ++ (findlatestcompilerversion w (root ++ x ++ "/".toList ++ target ++ "/".toList)
              none).s ++ "/include/c++".toList) [] = true
      · by_cases h3 : checkheaderdir w (root ++ x ++ "/".toList ++ target ++ "/".toList
            ++ (findlatestcompilerversion w (root ++ x ++ "/".toList ++ target ++ "/".toList)
                none).s ++ "/include/c++".toList) = true
        · exact ⟨true, [root ++ x ++ "/".toList ++ target ++ "/".toList
              ++ (findlatestcompilerversion w (root ++ x ++ "/".toList ++ target ++ "/".toList)
                  none).s ++ "/include/c++".toList,
            root ++ x ++ "/".toList ++ target ++ "/".toList
              ++ (findlatestcompilerversion w (root ++ x ++ "/".toList ++ target ++ "/".toList)
                  none).s ++ "/include/c++".toList ++ "/".toList ++ target],
            by simp, fun c => by
            simp only [findcxx_base3, h2, h3, h4, if_true, if_false, Bool.not_true,
              Bool.false_eq_true]
            exact ⟨trivial, (addheaderdir_appends target _ _).1⟩⟩
        · exact ⟨b, d, hbd, fun c => by
            simp only [findcxx_base3, h2, h3, h4, if_false, Bool.not_true, Bool.false_eq_true]
            exact hall _⟩
      · exact ⟨b, d, hbd, fun c => by
          simp only [findcxx_base3, h2, h4, if_true, if_false, Bool.not_false]
          exact hall _⟩

theorem findcxx_findheaders_appends (cfg : config) (w : world) (target root : CStr)
    (l : List CStr) :
    ∃ b d, (b = true ↔ d ≠ []) ∧ ∀ c : commandargs, c.stdpaths = l →
      (findcxx_findheaders cfg w target root c).1 = b
      ∧ (findcxx_findheaders cfg w target root c).2.cxxpaths = c.cxxpaths ++ d := by
  obtain ⟨b0, d0, h0⟩ := findcxx_stdpaths_appends w target l
  obtain ⟨b1, d1, h1⟩ := findcxx_base1_appends w target root CXXINCLUDEBASE
  obtain ⟨b2, d2, h2⟩ := findcxx_base2_appends w target root CXXINCLUDEBASE
  obtain ⟨b3, d3, h3⟩ := findcxx_base3_appends w target root CXXINCLUDEBASE
  obtain ⟨b23, d23, h23⟩ := appends_seq _ _ _ _ _ _ _ h2 h3
  have h123 := appends_seq _ _ _ _ _ _ _ h1 h23
  obtain ⟨bs, ds, hs⟩ := appends_ite (fun c => c.cxxpaths) (cfg.NO_SYS_PATH = true) _ _
    ⟨false, [], appends_fail _⟩ h123
  obtain ⟨b, d, hbd, hall⟩ := appends_seq _ _ _ _ _ _ _ h0 hs
  refine ⟨b, d, hbd, fun c hc => ?_⟩
  subst hc
  exact hall c

theorem findcxxheaders_appends (cfg : config) (w : world) (target : CStr) (l : List CStr) :
    ∃ b d, (b = true ↔ d ≠ []) ∧ ∀ c : commandargs, c.stdpaths = l →
      (findcxxheaders cfg w target c).1 = b
      ∧ (findcxxheaders cfg w target c).2.cxxpaths = c.cxxpaths ++ d := by
  obtain ⟨b1, d1, hbd1, hall1⟩ := findcxx_findheaders_appends cfg w target
    (l.headD [] ++ "/../../..".toList) l
  obtain ⟨b2, d2, hbd2, hall2⟩ := findcxx_findheaders_appends cfg w target [] l
  cases b1 with
  | true =>
    refine ⟨true, d1, hbd1, fun c hc => ?_⟩
    have h := hall1 c hc
    rw [← hc] at h
    simp only [findcxxheaders, h.1, if_true]
    exact ⟨trivial, h.2⟩
  | false =>
    have hd : d1 = [] := by
      by_contra hne
      exact absurd (hbd1.mpr hne) (by simp)
    refine ⟨b2, d2, hbd2, fun c hc => ?_⟩
    have h := hall1 c hc
    rw [← hc] at h
    have hkeep : (findcxx_findheaders cfg w target
        (c.stdpaths.headD [] ++ "/../../..".toList) c).2.stdpaths = l := by
      have hk := findcxx_findheaders_cxxdiscovered cfg w target
        (c.stdpaths.headD [] ++ "/../../..".toList) c
      unfold cxxdiscovered at hk
      rw [hk]
      exact hc
    have h2 := hall2 _ hkeep
    simp only [findcxxheaders, h.1, Bool.false_eq_true, if_false]
    refine ⟨h2.1, ?_⟩
    rw [h2.2, h.2, hd, List.append_nil]

/-- C20 (counterexample): a second run of discovery does not leave the path
list as it was: where the headers are found, `findstdheader` lists the
directory twice and `findcxxheaders` lists its two directories twice, and the
run of "w32-clang -x c++ foo.cpp", in which `parseargs` repeats the C++
discovery of `main`, reaches the argument vector with four C++ directories. -/
theorem discovery_twice_duplicates :
    (findstdheader democonfig demoworld demoenv "i686-w64-mingw32".toList {}).map
        (fun r => r.2.stdpaths) = some ["/usr/i686-w64-mingw32/include".toList]
    ∧ ((findstdheader democonfig demoworld demoenv "i686-w64-mingw32".toList {}).bind
        (fun r => findstdheader democonfig demoworld demoenv "i686-w64-mingw32".toList r.2)).map
        (fun r => r.2.stdpaths)
      = some ["/usr/i686-w64-mingw32/include".toList, "/usr/i686-w64-mingw32/include".toList]
    ∧ (findcxxheaders democonfig gccworld "i686-w64-mingw32".toList
        { stdpaths := ["/usr/i686-w64-mingw32/include".toList] }).2.cxxpaths
      = ["/usr/lib/gcc/i686-w64-mingw32/4.9.2/include/c++".toList,
         "/usr/lib/gcc/i686-w64-mingw32/".toList]
    ∧ (findcxxheaders democonfig gccworld "i686-w64-mingw32".toList
        (findcxxheaders democonfig gccworld "i686-w64-mingw32".toList
          { stdpaths := ["/usr/i686-w64-mingw32/include".toList] }).2).2.cxxpaths
      = ["/usr/lib/gcc/i686-w64-mingw32/4.9.2/include/c++".toList,
         "/usr/lib/gcc/i686-w64-mingw32/".toList,
         "/usr/lib/gcc/i686-w64-mingw32/4.9.2/include/c++".toList,
         "/usr/lib/gcc/i686-w64-mingw32/".toList]
    ∧ (reached democonfig gccworld demoenv 2
        ["w32-clang".toList, "-x".toList, "c++".toList, "foo.cpp".toList]).cmdargs.cxxpaths
      = ["/usr/lib/gcc/i686-w64-mingw32/4.9.2/include/c++".toList,
         "/usr/lib/gcc/i686-w64-mingw32/".toList,
         "/usr/lib/gcc/i686-w64-mingw32/4.9.2/include/c++".toList,
         "/usr/lib/gcc/i686-w64-mingw32/".toList] := by
  refine ⟨by decide, by decide, by decide, by decide, by decide⟩

/-- C20 (amended): header discovery is repeatable but not idempotent: a second
run of `findstdheader`, or of `findcxxheaders`, against the same filesystem
gives the same verdict as the first and appends the same entries in the same
order once more, so that the path list after the second run is the one after
the first run followed by a second copy of what the first run appended; the list
is unchanged exactly when the first run found nothing. -/
theorem discovery_appends_again (cfg : config) (w : world) (env : environ) (target : CStr)
    (c : commandargs) :
    (∀ r1, findstdheader cfg w env target c = some r1 →
      ∃ r2 delta, findstdheader cfg w env target r1.2 = some r2
        ∧ r2.1 = r1.1
        ∧ r1.2.stdpaths = c.stdpaths ++ delta
        ∧ r2.2.stdpaths = r1.2.stdpaths ++ delta
        ∧ (r1.1 = true ↔ delta ≠ []))
    ∧ (∃ delta,
        (findcxxheaders cfg w target (findcxxheaders cfg w target c).2).1
          = (findcxxheaders cfg w target c).1
        ∧ (findcxxheaders cfg w target c).2.cxxpaths = c.cxxpaths ++ delta
        ∧ (findcxxheaders cfg w target (findcxxheaders cfg w target c).2).2.cxxpaths
          = (findcxxheaders cfg w target c).2.cxxpaths ++ delta
        ∧ ((findcxxheaders cfg w target c).1 = true ↔ delta ≠ [])) := by
  constructor
  · intro r1 h1
    rcases findstdheader_appends cfg w env target with hn | ⟨b, d, hbd, hall⟩
    · have hc := hn c
      simp only [h1] at hc
      exact absurd hc (by simp)
    · obtain ⟨r, hr, hr1, hr2⟩ := hall c
      have hrr : r = r1 := by
        have := hr.symm.trans h1
        simpa using this
      subst hrr
      obtain ⟨r2, hr3, hr4, hr5⟩ := hall r.2
      exact ⟨r2, d, hr3, by rw [hr4, hr1], hr2, hr5, by rw [hr1]; exact hbd⟩
  · obtain ⟨b, d, hbd, hall⟩ := findcxxheaders_appends cfg w target c.stdpaths
    have h1 := hall c rfl
    have hkeep : (findcxxheaders cfg w target c).2.stdpaths = c.stdpaths := by
      have hk := findcxxheaders_cxxdiscovered cfg w target c
      unfold cxxdiscovered at hk
      rw [hk]
    have h2 := hall _ hkeep
    exact ⟨d, by rw [h2.1, h1.1], h1.2, h2.2, by rw [h1.1]; exact hbd⟩

end Wclang

namespace Wclang

/-! ## The environment table -/

theorem setupenv_append (target : CStr) : ∀ (vars env : List CStr),
    setupenv target vars env
      = env ++ vars.map (fun N => N ++ "=".toList ++ (target ++ '-' :: N.map tolower)) := by
  intro vars
  induction vars with
  | nil => intro env; simp [setupenv]
  | cons v rest ih =>
    intro env
    simp only [setupenv, envvar, ih, List.map_cons, List.flatten_cons, List.flatten_nil,
      List.append_nil, List.append_assoc, List.singleton_append]

/-- C22 (counterexample): the table for the target i686-w64-mingw32 holds the
nineteen entries NAME=i686-w64-mingw32-name and nothing else: no value holds a
blank or a target option after the tool name. -/
theorem setupenv_values_hold_no_pair :
    setupenv "i686-w64-mingw32".toList ENVVARS []
      = ["AR=i686-w64-mingw32-ar".toList, "AS=i686-w64-mingw32-as".toList,
         "CPP=i686-w64-mingw32-cpp".toList, "DLLTOOL=i686-w64-mingw32-dlltool".toList,
         "DLLWRAP=i686-w64-mingw32-dllwrap".toList, "ELFEDIT=i686-w64-mingw32-elfedit".toList,
         "GCOV=i686-w64-mingw32-gcov".toList, "GNAT=i686-w64-mingw32-gnat".toList,
         "LD=i686-w64-mingw32-ld".toList, "NM=i686-w64-mingw32-nm".toList,
         "OBJCOPY=i686-w64-mingw32-objcopy".toList, "OBJDUMP=i686-w64-mingw32-objdump".toList,
         "RANLIB=i686-w64-mingw32-ranlib".toList, "READELF=i686-w64-mingw32-readelf".toList,
         "SIZE=i686-w64-mingw32-size".toList, "STRINGS=i686-w64-mingw32-strings".toList,
         "STRIP=i686-w64-mingw32-strip".toList, "WINDMC=i686-w64-mingw32-windmc".toList,
         "WINDRES=i686-w64-mingw32-windres".toList]
    ∧ (∀ entry ∈ setupenv "i686-w64-mingw32".toList ENVVARS [], ' ' ∉ entry)
    ∧ (reached democonfig demoworld demoenv 2
        ["w32-clang".toList, "foo.c".toList]).cmdargs.env
      = setupenv "i686-w64-mingw32".toList ENVVARS [] := by
  refine ⟨by decide, by decide, by decide⟩

/-- C22 (amended): for every target T the environment table built from the
empty table has one entry per name of ENVVARS, nineteen in all and in the
order of ENVVARS, and the entry of NAME is "NAME=" followed by T, a '-' and
NAME in lower case, with nothing after it. -/
theorem setupenv_table (target : CStr) :
    setupenv target ENVVARS []
      = ENVVARS.map (fun N => N ++ "=".toList ++ (target ++ '-' :: N.map tolower))
    ∧ (setupenv target ENVVARS []).length = 19
    ∧ ENVVARS.length = 19
    ∧ ENVVARS.Nodup := by
  have h := setupenv_append target ENVVARS []
  rw [List.nil_append] at h
  refine ⟨h, ?_, by decide, by decide⟩
  rw [h, List.length_map]
  decide

/-! ## The flags that print the table -/

theorem parseargs_reaches (cfg : config) (w : world) (target : CStr) (env : List CStr)
    (cmdargs : commandargs) (io : streams) (pre post : List CStr) (tok : CStr)
    (st : parsestate)
    (hpre : parseloop cfg w target env pre { cmdargs := cmdargs, io := io } = result.ok st)
    (status : Int) (io2 : streams)
    (htok : ∀ nx, parsearg cfg w target env tok nx st = round.stop status io2) :
    parseargs cfg w (pre ++ tok :: post) target cmdargs env io = result.exit status io2
    ∧ st.io = io := by
  have hio : st.io = io :=
    (parseloop_spec cfg w target env pre.length pre _ st (le_refl _) hpre).2.2.2.2.2
  refine ⟨?_, hio⟩
  unfold parseargs
  rw [parseloop_append cfg w target env (tok :: post) pre.length pre _ st (le_refl _) hpre,
    parseloop, htok]

theorem flatten_no_newline (env : List CStr) (h : ∀ v ∈ env, '\n' ∉ v) :
    '\n' ∉ (env.map (fun v => v ++ " ".toList)).flatten := by
  intro hmem
  rw [List.mem_flatten] at hmem
  obtain ⟨l, hl, hc⟩ := hmem
  rw [List.mem_map] at hl
  obtain ⟨v, hv, rfl⟩ := hl
  rw [List.mem_append] at hc
  rcases hc with hc | hc
  · exact h v hv hc
  · revert hc; decide

/-- C21: when the sweep of `parseargs` has run through the tokens before it,
the token "-wc-env" or "-wc-e" (also with two dashes) makes `parseargs` end
the process with exit status 0 after writing to standard output the entries
of the environment table in table order, each followed by a blank, and a line
end; nothing else is written, and the text is one line when no entry holds a
line end. -/
theorem parseargs_env_all (cfg : config) (w : world) (target : CStr) (env : List CStr)
    (cmdargs : commandargs) (io : streams) (pre post : List CStr) (tok : CStr)
    (st : parsestate)
    (hpre : parseloop cfg w target env pre { cmdargs := cmdargs, io := io } = result.ok st)
    (htok : tok ∈ ["-wc-env".toList, "-wc-e".toList, "--wc-env".toList, "--wc-e".toList]) :
    parseargs cfg w (pre ++ tok :: post) target cmdargs env io
      = result.exit 0
          (io.out ((env.map (fun v => v ++ " ".toList)).flatten ++ "\n".toList))
    ∧ ((∀ v ∈ env, '\n' ∉ v) → '\n' ∉ (env.map (fun v => v ++ " ".toList)).flatten) := by
  refine ⟨?_, flatten_no_newline env⟩
  have hstop : ∀ nx, parsearg cfg w target env tok nx st
      = round.stop 0
          (st.io.out ((env.map (fun v => v ++ " ".toList)).flatten ++ "\n".toList)) := by
    intro nx
    simp only [List.mem_cons, List.mem_singleton, List.not_mem_nil, or_false] at htok
    rcases htok with rfl | rfl | rfl | rfl <;> rfl
  obtain ⟨h1, h2⟩ := parseargs_reaches cfg w target env cmdargs io pre post tok st hpre _ _ hstop
  rw [h1, h2]

set_option maxRecDepth 100000 in
set_option maxHeartbeats 4000000 in
theorem parseargs_env_all_witness :
    parseargs democonfig demoworld
        (["w32-clang".toList, "-O2".toList] ++ "-wc-env".toList :: ["foo.c".toList])
        "i686-w64-mingw32".toList {} (setupenv "i686-w64-mingw32".toList ENVVARS []) {}
      = result.exit 0
          (({} : streams).out
            (((setupenv "i686-w64-mingw32".toList ENVVARS []).map
                (fun v => v ++ " ".toList)).flatten ++ "\n".toList))
    ∧ outcome.exitout? (main democonfig demoworld demoenv 2
          ["w32-clang".toList, "-wc-env".toList, "foo.c".toList])
      = some (0, ((setupenv "i686-w64-mingw32".toList ENVVARS []).map
          (fun v => v ++ " ".toList)).flatten ++ "\n".toList) :=
  ⟨(parseargs_env_all democonfig demoworld "i686-w64-mingw32".toList
      (setupenv "i686-w64-mingw32".toList ENVVARS []) {} {}
      ["w32-clang".toList, "-O2".toList] ["foo.c".toList] "-wc-env".toList
      { cmdargs := { optimizationlevel := 2 } } rfl (by decide)).1, by rfl⟩

/-! ## The flags that print one entry -/

theorem envlookup_found (target N : CStr) : ∀ (vars pre : List CStr), N ∈ vars →
    envlookup (pre ++ vars.map (fun V => V ++ "=".toList ++ (target ++ '-' :: V.map tolower)))
        N vars pre.length
      = some (target ++ '-' :: N.map tolower) := by
  intro vars
  induction vars with
  | nil => intro pre h; exact absurd h (List.not_mem_nil _)
  | cons v rest ih =>
    intro pre h
    simp only [envlookup, strcmp]
    by_cases hv : N = v
    · subst hv
      simp only [decide_True, if_true, List.map_cons]
      have hget : (pre ++ (N ++ "=".toList ++ (target ++ '-' :: N.map tolower))
          :: rest.map (fun V => V ++ "=".toList ++ (target ++ '-' :: V.map tolower))).getD
            pre.length []
          = N ++ "=".toList ++ (target ++ '-' :: N.map tolower) := by
        rw [List.getD_eq_getElem?_getD, List.getElem?_append_right (le_refl _)]
        simp
      rw [hget]
      have hd : (N ++ "=".toList ++ (target ++ '-' :: N.map tolower)).drop (N.length + 1)
          = target ++ '-' :: N.map tolower := by
        have hl : (N ++ "=".toList).length = N.length + 1 := by simp
        rw [← hl, List.drop_left]
      rw [hd]
    · have hmem : N ∈ rest := by
        rcases List.mem_cons.mp h with h | h
        · exact absurd h hv
        · exact h
      simp only [hv, decide_False, Bool.false_eq_true, if_false, List.map_cons]
      have h2 := ih (pre ++ [v ++ "=".toList ++ (target ++ '-' :: v.map tolower)]) hmem
      simpa [List.append_assoc] using h2

theorem envlookup_none (env : List CStr) (N : CStr) : ∀ (vars : List CStr) (i : Nat),
    N ∉ vars → envlookup env N vars i = none := by
  intro vars
  induction vars with
  | nil => intro i _; rfl
  | cons v rest ih =>
    intro i h
    have hv : N ≠ v := fun e => h (e ▸ List.mem_cons_self _ _)
    have hr : N ∉ rest := fun e => h (List.mem_cons_of_mem _ e)
    simp only [envlookup, strcmp, hv, decide_False, Bool.false_eq_true, if_false]
    exact ih (i + 1) hr

theorem parsecommand_envname (cfg : config) (target : CStr) (env : List CStr)
    (tok s n : CStr) (st : parsestate)
    (htok : tok = "-wc-".toList ++ s ∨ tok = "--wc-".toList ++ s)
    (hs : s = "env-".toList ++ n ∨ s = "e-".toList ++ n) :
    parsecommand cfg target env tok st
      = match envlookup env (n.map toupper) ENVVARS 0 with
        | some val => round.stop EXIT_SUCCESS (st.io.out (val ++ "\n".toList))
        | none =>
          round.stop EXIT_FAILURE
            (st.io.err ("environment variable ".toList ++ n.map toupper ++ " not found".toList
              ++ "\n".toList ++ "available environment variables: ".toList ++ "\n".toList
              ++ (ENVVARS.map (fun var => " ".toList ++ var ++ "\n".toList)).flatten)) := by
  have h1 : (if strncmp tok "--".toList 2 then tok.drop 1 else tok) = "-wc-".toList ++ s := by
    rcases htok with rfl | rfl <;> rfl
  have h2 : strncmp ("-wc-".toList ++ s) COMMANDPREFIX 4 = true := by
    simp [COMMANDPREFIX, strncmp]
  have h3 : ("-wc-".toList ++ s).drop 4 = s := rfl
  have h5 : (strncmp s "env-".toList 4 || strncmp s "e-".toList 2) = true := by
    rcases hs with rfl | rfl <;> simp [strncmp]
  have h6 : ((s.drop 1).dropWhile (fun c => c ≠ '-')).drop 1 = n := by
    rcases hs with rfl | rfl <;> simp [List.dropWhile]
  unfold parsecommand
  simp only [h1, h2, h3, h5, h6, Bool.not_true, Bool.false_eq_true, if_false, if_true]
  rcases hs with rfl | rfl <;> rfl

theorem parsearg_envname (cfg : config) (w : world) (target : CStr) (env : List CStr)
    (tok n : CStr) (nx : Option CStr) (st : parsestate)
    (htok : tok ∈ ["-wc-env-".toList ++ n, "-wc-e-".toList ++ n,
      "--wc-env-".toList ++ n, "--wc-e-".toList ++ n]) :
    parsearg cfg w target env tok nx st
      = match envlookup env (n.map toupper) ENVVARS 0 with
        | some val => round.stop EXIT_SUCCESS (st.io.out (val ++ "\n".toList))
        | none =>
          round.stop EXIT_FAILURE
            (st.io.err ("environment variable ".toList ++ n.map toupper ++ " not found".toList
              ++ "\n".toList ++ "available environment variables: ".toList ++ "\n".toList
              ++ (ENVVARS.map (fun var => " ".toList ++ var ++ "\n".toList)).flatten)) := by
  simp only [List.mem_cons, List.mem_singleton, List.not_mem_nil, or_false] at htok
  rcases htok with rfl | rfl | rfl | rfl
  · exact (parsearg_command cfg w target env ("-wc-env-".toList ++ n) ("env-".toList ++ n) nx st
        (Or.inl rfl)).trans
      (parsecommand_envname cfg target env _ ("env-".toList ++ n) n st (Or.inl rfl) (Or.inl rfl))
  · exact (parsearg_command cfg w target env ("-wc-e-".toList ++ n) ("e-".toList ++ n) nx st
        (Or.inl rfl)).trans
      (parsecommand_envname cfg target env _ ("e-".toList ++ n) n st (Or.inl rfl) (Or.inr rfl))
  · exact (parsearg_command cfg w target env ("--wc-env-".toList ++ n) ("env-".toList ++ n) nx st
        (Or.inr rfl)).trans
      (parsecommand_envname cfg target env _ ("env-".toList ++ n) n st (Or.inr rfl) (Or.inl rfl))
  · exact (parsearg_command cfg w target env ("--wc-e-".toList ++ n) ("e-".toList ++ n) nx st
        (Or.inr rfl)).trans
      (parsecommand_envname cfg target env _ ("e-".toList ++ n) n st (Or.inr rfl) (Or.inr rfl))

/-- C23: when the sweep of `parseargs` has run through the tokens before it,
a token "-wc-env-n" or "-wc-e-n" (also with two dashes) whose name n, put in
upper case, is the name N of ENVVARS makes `parseargs` end the process with
exit status 0 after writing the value of the entry of N in the environment
table, T-name in lower case, and a line end to standard output; when n in
upper case is no name of ENVVARS the process ends with exit status 1 and
nothing is written to standard output. -/
theorem parseargs_env_one (cfg : config) (w : world) (target : CStr)
    (cmdargs : commandargs) (io : streams) (pre post : List CStr) (tok n : CStr)
    (st : parsestate)
    (hpre : parseloop cfg w target (setupenv target ENVVARS []) pre
      { cmdargs := cmdargs, io := io } = result.ok st)
    (htok : tok ∈ ["-wc-env-".toList ++ n, "-wc-e-".toList ++ n,
      "--wc-env-".toList ++ n, "--wc-e-".toList ++ n]) :
    (∀ N ∈ ENVVARS, n.map toupper = N →
      parseargs cfg w (pre ++ tok :: post) target cmdargs (setupenv target ENVVARS []) io
        = result.exit 0 (io.out (target ++ '-' :: N.map tolower ++ "\n".toList)))
    ∧ (n.map toupper ∉ ENVVARS →
      ∃ io2, parseargs cfg w (pre ++ tok :: post) target cmdargs
          (setupenv target ENVVARS []) io = result.exit 1 io2
        ∧ io2.cout = io.cout) := by
  have htab := (setupenv_table target).1
  constructor
  · intro N hN hn
    have hl : envlookup (setupenv target ENVVARS []) (n.map toupper) ENVVARS 0
        = some (target ++ '-' :: N.map tolower) := by
      have h := envlookup_found target N ENVVARS [] hN
      rw [List.nil_append, List.length_nil, ← htab] at h
      rw [hn]
      exact h
    have hstop : ∀ nx, parsearg cfg w target (setupenv target ENVVARS []) tok nx st
        = round.stop 0 (st.io.out (target ++ '-' :: N.map tolower ++ "\n".toList)) := by
      intro nx
      rw [parsearg_envname cfg w target _ tok n nx st htok, hl]
      rfl
    obtain ⟨h1, h2⟩ := parseargs_reaches cfg w target _ cmdargs io pre post tok st hpre _ _ hstop
    rw [h1, h2]
  · intro hn
    have hl := envlookup_none (setupenv target ENVVARS []) (n.map toupper) ENVVARS 0 hn
    have hstop : ∀ nx, parsearg cfg w target (setupenv target ENVVARS []) tok nx st
        = round.stop 1
          (st.io.err ("environment variable ".toList ++ n.map toupper ++ " not found".toList
            ++ "\n".toList ++ "available environment variables: ".toList ++ "\n".toList
            ++ (ENVVARS.map (fun var => " ".toList ++ var ++ "\n".toList)).flatten)) := by
      intro nx
      rw [parsearg_envname cfg w target _ tok n nx st htok, hl]
      rfl
    obtain ⟨h1, h2⟩ := parseargs_reaches cfg w target _ cmdargs io pre post tok st hpre _ _ hstop
    exact ⟨_, h1, by rw [h2]; rfl⟩

theorem parseargs_env_one_witness :
    parseargs democonfig demoworld
        (["w32-clang".toList] ++ "-wc-env-Ld".toList :: ["foo.c".toList])
        "i686-w64-mingw32".toList {} (setupenv "i686-w64-mingw32".toList ENVVARS []) {}
      = result.exit 0 (({} : streams).out "i686-w64-mingw32-ld\n".toList)
    ∧ outcome.exitout? (main democonfig demoworld demoenv 2
          ["w32-clang".toList, "-wc-e-windres".toList])
      = some (0, "i686-w64-mingw32-windres\n".toList)
    ∧ outcome.exitout? (main democonfig demoworld demoenv 2
          ["w32-clang".toList, "-wc-env-gcc".toList])
      = some (1, []) :=
  ⟨(parseargs_env_one democonfig demoworld "i686-w64-mingw32".toList {} {}
      ["w32-clang".toList] ["foo.c".toList] "-wc-env-Ld".toList "Ld".toList
      { cmdargs := {} } rfl (by decide)).1 "LD".toList (by decide) (by decide),
    by decide, by decide⟩

end Wclang

namespace Wclang

/-! ## The delayed commands -/

theorem rundelayed_link (cfg : config) (c : commandargs) (io : streams) (a : CStr)
    (h : c.islinkstep = true) :
    rundelayed cfg (c, io) (dcfun.staticruntime, a)
      = (if c.iscxx = true then
          { c with
            cxxflags := c.cxxflags ++ ["-static-libgcc".toList, "-static-libstdc++".toList] }
        else { c with cflags := c.cflags ++ ["-static-libgcc".toList] }, io)
    ∧ rundelayed cfg (c, io) (dcfun.usemingwlinker, a)
      = ({ c with usemingwlinker := subsystem.use_mingw_linker }, io) := by
  constructor
  · unfold rundelayed
    simp only [h, Bool.not_true, Bool.false_eq_true, if_false]
    split <;> rfl
  · unfold rundelayed
    simp only [h, Bool.not_true, Bool.false_eq_true, if_false]

theorem rundelayed_link_fields (cfg : config) (c : commandargs) (io : streams)
    (dc : dcfun × CStr) (h : c.islinkstep = true) :
    (rundelayed cfg (c, io) dc).1.islinkstep = true
    ∧ (rundelayed cfg (c, io) dc).1.iscxx = c.iscxx
    ∧ (rundelayed cfg (c, io) dc).2 = io
    ∧ (rundelayed cfg (c, io) dc).1.linkerflags = c.linkerflags
    ∧ (rundelayed cfg (c, io) dc).1.cxxflags
      = c.cxxflags ++ (if dc.1 = dcfun.staticruntime ∧ c.iscxx = true then
          ["-static-libgcc".toList, "-static-libstdc++".toList] else [])
    ∧ (rundelayed cfg (c, io) dc).1.cflags
      = c.cflags ++ (if dc.1 = dcfun.staticruntime ∧ c.iscxx = false then
          ["-static-libgcc".toList] else [])
    ∧ (rundelayed cfg (c, io) dc).1.usemingwlinker
      = (if dc.1 = dcfun.usemingwlinker then subsystem.use_mingw_linker
        else c.usemingwlinker) := by
  obtain ⟨f, a⟩ := dc
  cases f with
  | staticruntime =>
    rw [(rundelayed_link cfg c io a h).1]
    by_cases hx : c.iscxx = true
    · rw [if_pos hx]
      simp [h, hx]
    · rw [if_neg hx]
      simp [h, hx]
  | usemingwlinker =>
    rw [(rundelayed_link cfg c io a h).2]
    simp [h]

theorem foldl_rundelayed_link (cfg : config) : ∀ (queue : List (dcfun × CStr))
    (c : commandargs) (io : streams), c.islinkstep = true →
    (queue.foldl (rundelayed cfg) (c, io)).1.cxxflags
      = c.cxxflags ++ (List.replicate
          (queue.countP (fun dc => decide (dc.1 = dcfun.staticruntime)))
          (if c.iscxx = true then ["-static-libgcc".toList, "-static-libstdc++".toList]
            else [])).flatten
    ∧ (queue.foldl (rundelayed cfg) (c, io)).1.cflags
      = c.cflags ++ (List.replicate
          (queue.countP (fun dc => decide (dc.1 = dcfun.staticruntime)))
          (if c.iscxx = true then [] else ["-static-libgcc".toList])).flatten
    ∧ (queue.foldl (rundelayed cfg) (c, io)).1.linkerflags = c.linkerflags
    ∧ (queue.foldl (rundelayed cfg) (c, io)).1.usemingwlinker
      = (if queue.any (fun dc => decide (dc.1 = dcfun.usemingwlinker)) = true then
          subsystem.use_mingw_linker
        else c.usemingwlinker)
    ∧ (queue.foldl (rundelayed cfg) (c, io)).2 = io := by
  intro queue
  induction queue with
  | nil =>
    intro c io _
    simp
  | cons dc rest ih =>
    intro c io h
    obtain ⟨k1, k2, k3, k4, k5, k6, k7⟩ := rundelayed_link_fields cfg c io dc h
    obtain ⟨h1, h2, h3, h4, h5⟩ :=
      ih (rundelayed cfg (c, io) dc).1 (rundelayed cfg (c, io) dc).2 k1
    simp only [Prod.mk.eta] at h1 h2 h3 h4 h5
    rw [List.foldl_cons]
    refine ⟨?_, ?_, h3.trans k4, ?_, h5.trans k3⟩
    · rw [h1, k5, k2]
      obtain ⟨f, a⟩ := dc
      cases f <;> by_cases hx : c.iscxx = true <;>
        simp [hx, List.countP_cons, List.replicate_succ]
    · rw [h2, k6, k2]
      obtain ⟨f, a⟩ := dc
      cases f <;> by_cases hx : c.iscxx = true <;>
        simp [hx, List.countP_cons, List.replicate_succ]
    · rw [h4, k7]
      have e : decide (dcfun.staticruntime = dcfun.usemingwlinker) = false := by decide
      obtain ⟨f, a⟩ := dc
      cases f <;>
        by_cases hany : (rest.any fun dc => decide (dc.1 = dcfun.usemingwlinker)) = true <;>
        simp [hany, e]

/-- C24: `parseargs` returns the normalized command state after the delayed
commands, and these act by the link-step flag of that state: when it is false,
any queue leaves the command state, so the C flags, the C++ flags, the linker
flags and the subsystem mode, as it is; when it is true, each static-runtime
command appends "-static-libgcc" and "-static-libstdc++" to the C++ flags in
C++ mode and "-static-libgcc" to the C flags in C mode, each use-mingw-linker
command sets the subsystem mode to `use_mingw_linker`, and nothing else of the
four changes. -/
theorem rundelayed_by_linkstep (cfg : config) (c : commandargs) (io : streams)
    (queue : List (dcfun × CStr)) :
    (c.islinkstep = false → (queue.foldl (rundelayed cfg) (c, io)).1 = c)
    ∧ (c.islinkstep = true →
        (∀ a, rundelayed cfg (c, io) (dcfun.staticruntime, a)
            = (if c.iscxx = true then
                { c with
                  cxxflags :=
                    c.cxxflags ++ ["-static-libgcc".toList, "-static-libstdc++".toList] }
              else { c with cflags := c.cflags ++ ["-static-libgcc".toList] }, io))
        ∧ (∀ a, rundelayed cfg (c, io) (dcfun.usemingwlinker, a)
            = ({ c with usemingwlinker := subsystem.use_mingw_linker }, io))
        ∧ (queue.foldl (rundelayed cfg) (c, io)).1.cxxflags
          = c.cxxflags ++ (List.replicate
              (queue.countP (fun dc => decide (dc.1 = dcfun.staticruntime)))
              (if c.iscxx = true then ["-static-libgcc".toList, "-static-libstdc++".toList]
                else [])).flatten
        ∧ (queue.foldl (rundelayed cfg) (c, io)).1.cflags
          = c.cflags ++ (List.replicate
              (queue.countP (fun dc => decide (dc.1 = dcfun.staticruntime)))
              (if c.iscxx = true then [] else ["-static-libgcc".toList])).flatten
        ∧ (queue.foldl (rundelayed cfg) (c, io)).1.linkerflags = c.linkerflags
        ∧ (queue.foldl (rundelayed cfg) (c, io)).1.usemingwlinker
          = (if queue.any (fun dc => decide (dc.1 = dcfun.usemingwlinker)) = true then
              subsystem.use_mingw_linker
            else c.usemingwlinker))
    ∧ (∀ w argv target cmdargs env io0 r,
        parseargs cfg w argv target cmdargs env io0 = result.ok r →
        ∃ stp, parseloop cfg w target env argv { cmdargs := cmdargs, io := io0 } = result.ok stp
          ∧ r = stp.delayedcommands.foldl (rundelayed cfg) (normalize stp.cmdargs, stp.io))
    ∧ (∃ r, parseargs democonfig demoworld
          ["w32-clang".toList, "-wc-static-runtime".toList, "-wc-use-mingw-linker".toList,
            "foo.c".toList] "i686-w64-mingw32".toList {} [] {} = result.ok r
        ∧ r.1.cflags = ["-static-libgcc".toList] ∧ r.1.cxxflags = []
        ∧ r.1.usemingwlinker = subsystem.use_mingw_linker)
    ∧ (∃ r, parseargs democonfig demoworld
          ["w32-clang".toList, "-wc-static-runtime".toList, "-wc-use-mingw-linker".toList,
            "-c".toList, "foo.c".toList] "i686-w64-mingw32".toList {} [] {} = result.ok r
        ∧ r.1.cflags = [] ∧ r.1.cxxflags = []
        ∧ r.1.usemingwlinker = subsystem.standard) := by
  refine ⟨fun h => foldl_rundelayed_nolink cfg queue (c, io) h, fun h => ?_, ?_,
    ⟨_, rfl, rfl, rfl, rfl⟩, ⟨_, rfl, rfl, rfl, rfl⟩⟩
  · obtain ⟨h1, h2, h3, h4, _⟩ := foldl_rundelayed_link cfg queue c io h
    exact ⟨fun a => (rundelayed_link cfg c io a h).1,
      fun a => (rundelayed_link cfg c io a h).2, h1, h2, h3, h4⟩
  · intro w argv target cmdargs env io0 r hr
    exact parseargs_ok cfg w argv target cmdargs env io0 r hr

/-! ## The optimization level -/

/-- C26: the level recorded for "-O2" and for "-O3" is the same, 2, the value
of `optimize::LEVEL_3` (the enumeration has no level 2, and the number read by
`atoi` is compared with the enumerators): "-O0", "-O1", "-O2", "-O3" record
0, 1, 2, 2.  "-Ofast" records 3, "-Os" 4 and "-Oz" 5, larger numbers record 2
and negative ones 0, and the last "-O" token decides. -/
theorem optlevel_two_is_three :
    optlevel "0".toList = 0 ∧ optlevel "1".toList = 1
    ∧ optlevel "2".toList = 2 ∧ optlevel "3".toList = 2
    ∧ optimize.LEVEL_3 = 2
    ∧ optlevel "fast".toList = 3 ∧ optlevel "s".toList = 4 ∧ optlevel "z".toList = 5
    ∧ optlevel "9".toList = 2 ∧ optlevel "-1".toList = 0
    ∧ (∃ r, parseargs democonfig demoworld ["w32-clang".toList, "-O2".toList, "foo.c".toList]
          "i686-w64-mingw32".toList {} [] {} = result.ok r ∧ r.1.optimizationlevel = 2)
    ∧ (∃ r, parseargs democonfig demoworld ["w32-clang".toList, "-O3".toList, "foo.c".toList]
          "i686-w64-mingw32".toList {} [] {} = result.ok r ∧ r.1.optimizationlevel = 2)
    ∧ (∃ r, parseargs democonfig demoworld
          ["w32-clang".toList, "-O3".toList, "-O1".toList, "foo.c".toList]
          "i686-w64-mingw32".toList {} [] {} = result.ok r ∧ r.1.optimizationlevel = 1) := by
  refine ⟨by decide, by decide, by decide, by decide, by decide, by decide, by decide,
    by decide, by decide, by decide, ⟨_, rfl, by decide⟩, ⟨_, rfl, by decide⟩,
    ⟨_, rfl, by decide⟩⟩

/-! ## The source language -/

theorem checkcxx_iscxx (cfg : config) (w : world) (target : CStr) (c : commandargs) :
    (if (!c.iscxx) = true then (findcxxheaders cfg w target { c with iscxx := true }).2
      else c).iscxx = true := by
  by_cases h : c.iscxx = true
  · simp [h]
  · have hk := findcxxheaders_cxxdiscovered cfg w target { c with iscxx := true }
    unfold cxxdiscovered at hk
    simp only [h, Bool.not_false, if_true]
    rw [hk]

theorem parsearg_language_ok (cfg : config) (w : world) (target : CStr) (env : List CStr)
    (st : parsestate) (p : CStr) (nx : Option CStr) (hp : p ∈ languages) :
    ∃ st2, parsearg cfg w target env "-x".toList (some p) st = round.skip st2
      ∧ parsearg cfg w target env ("-x".toList ++ p) nx st = round.next st2
      ∧ st2.cmdargs.iscxx = decide (p = "c++".toList ∨ p = "c++-header".toList) := by
  simp only [languages, List.mem_cons, List.mem_singleton, List.not_mem_nil, or_false] at hp
  rcases hp with rfl | rfl | rfl | rfl
  · exact ⟨_, rfl, rfl, rfl⟩
  · exact ⟨_, rfl, rfl, rfl⟩
  · refine ⟨_, rfl, rfl, ?_⟩
    have h := checkcxx_iscxx cfg w target st.cmdargs
    simpa using h
  · refine ⟨_, rfl, rfl, ?_⟩
    have h := checkcxx_iscxx cfg w target st.cmdargs
    simpa using h

theorem parsearg_language_bad (cfg : config) (w : world) (target : CStr) (env : List CStr)
    (st : parsestate) (p : CStr) (nx : Option CStr) (hp : p ∉ languages) :
    parsearg cfg w target env "-x".toList (some p) st
      = round.stop 1
          (ERRORMSG cfg st.io "given language not supported".toList "parseargs".toList 1083)
    ∧ (p ≠ [] → parsearg cfg w target env ("-x".toList ++ p) nx st
      = round.stop 1
          (ERRORMSG cfg st.io "given language not supported".toList "parseargs".toList 1083))
    := by
  simp only [languages, List.mem_cons, List.mem_singleton, List.not_mem_nil, or_false,
    not_or, String.toList] at hp
  obtain ⟨h1, h2, h3, h4⟩ := hp
  constructor
  · simp [parsearg, strncmp, isnul, strcmp, h1, h2, h3, h4, EXIT_FAILURE]
  · intro hne
    cases p with
    | nil => exact absurd rfl hne
    | cons x xs =>
      simp only [List.cons.injEq] at h1 h2 h3 h4
      simp [parsearg, strncmp, isnul, strcmp, h1, h2, h3, h4, EXIT_FAILURE]

/-- C27: a round on "-x" ends the run with exit status 1 when no token follows
or when the language, attached or given by the next token, is none of c,
c-header, c++, c++-header; with one of these the sweep goes on, after a bare
"-x" with the token after the language (the language token is not looked at as
a flag), and the C++ flag is false after c and c-header and true after c++ and
c++-header. -/
theorem parsearg_language (cfg : config) (w : world) (target : CStr) (env : List CStr)
    (st : parsestate) (p : CStr) (nx : Option CStr) (rest : List CStr) :
    (∃ io, parsearg cfg w target env "-x".toList none st = round.stop 1 io
      ∧ parseloop cfg w target env ["-x".toList] st = result.exit 1 io)
    ∧ (p ∉ languages →
        ∃ io, parsearg cfg w target env "-x".toList (some p) st = round.stop 1 io
          ∧ parseloop cfg w target env ("-x".toList :: p :: rest) st = result.exit 1 io
          ∧ (p ≠ [] →
              parsearg cfg w target env ("-x".toList ++ p) nx st = round.stop 1 io
              ∧ parseloop cfg w target env (("-x".toList ++ p) :: rest) st
                = result.exit 1 io))
    ∧ (p ∈ languages →
        ∃ st2, parsearg cfg w target env "-x".toList (some p) st = round.skip st2
          ∧ parsearg cfg w target env ("-x".toList ++ p) nx st = round.next st2
          ∧ st2.cmdargs.iscxx = decide (p = "c++".toList ∨ p = "c++-header".toList)
          ∧ parseloop cfg w target env ("-x".toList :: p :: rest) st
            = parseloop cfg w target env rest st2
          ∧ parseloop cfg w target env (("-x".toList ++ p) :: rest) st
            = parseloop cfg w target env rest st2)
    ∧ (∃ r, parseargs democonfig demoworld
          ["w32-clang".toList, "-x".toList, "c++".toList, "-xc".toList, "foo.c".toList]
          "i686-w64-mingw32".toList {} [] {} = result.ok r ∧ r.1.iscxx = false)
    ∧ (∃ io, parseargs democonfig demoworld
          ["w32-clang".toList, "foo.c".toList, "-x".toList]
          "i686-w64-mingw32".toList {} [] {} = result.exit 1 io) := by
  refine ⟨⟨_, rfl, rfl⟩, ?_, ?_, ⟨_, rfl, rfl⟩, ⟨_, rfl⟩⟩
  · intro hp
    obtain ⟨h1, h2⟩ := parsearg_language_bad cfg w target env st p nx hp
    refine ⟨_, h1, ?_, fun hne => ⟨h2 hne, ?_⟩⟩
    · rw [parseloop]
      simp only [List.head?_cons, h1]
    · have h3 := h2 hne
      have h4 : parsearg cfg w target env ("-x".toList ++ p) rest.head? st
          = parsearg cfg w target env ("-x".toList ++ p) nx st := by
        apply parsearg_indep
        intro hx
        have := congrArg List.length hx
        cases p with
        | nil => exact hne rfl
        | cons x xs => simp at this
      rw [parseloop, h4, h3]
  · intro hp
    obtain ⟨st2, h1, h2, h3⟩ := parsearg_language_ok cfg w target env st p nx hp
    obtain ⟨st3, h4, h5, _⟩ := parsearg_language_ok cfg w target env st p rest.head? hp
    have h6 : st3 = st2 := round.skip.inj (h4.symm.trans h1)
    refine ⟨st2, h1, h2, h3, ?_, ?_⟩
    · rw [parseloop]
      simp only [List.head?_cons, h1]
    · rw [parseloop, h5, h6]

end Wclang

namespace Wclang

/-! ## The subsystem requests -/

set_option maxHeartbeats 1000000 in
theorem parsecommand_keepsmode (cfg : config) (target : CStr) (env : List CStr)
    (arg : CStr) (st : parsestate) :
    keepsmode st (parsecommand cfg target env arg st) := by
  simp only [parsecommand, invalid_argument]
  repeat' split
  all_goals first
    | (show True
       trivial)
    | (show _ = _
       rfl)

theorem findcxxheaders_mode (cfg : config) (w : world) (target : CStr) (c : commandargs) :
    (findcxxheaders cfg w target { c with iscxx := true }).2.usemingwlinker
      = c.usemingwlinker := by
  have h := findcxxheaders_cxxdiscovered cfg w target { c with iscxx := true }
  unfold cxxdiscovered at h
  rw [h]

set_option maxHeartbeats 2000000 in
theorem parsearg_keepsmode (cfg : config) (w : world) (target : CStr) (env : List CStr)
    (arg : CStr) (nextarg : Option CStr) (st : parsestate)
    (h1 : arg ≠ "-mwindows".toList) (h2 : arg ≠ "-mdll".toList)
    (h3 : arg ≠ "-mconsole".toList) :
    keepsmode st (parsearg cfg w target env arg nextarg st) := by
  have hc := parsecommand_keepsmode cfg target env arg st
  have hk := findcxxheaders_mode cfg w target st.cmdargs
  have e1 : strcmp arg "-mwindows".toList = false := decide_eq_false h1
  have e2 : strcmp arg "-mdll".toList = false := decide_eq_false h2
  have e3 : strcmp arg "-mconsole".toList = false := decide_eq_false h3
  have e4 := e1
  have e5 := e2
  have e6 := e3
  simp only [String.toList] at e4 e5 e6
  simp only [parsearg, e1, e2, e3, e4, e5, e6, Bool.false_and, Bool.false_eq_true, if_false]
  repeat' split
  all_goals first
    | (with_reducible exact hc)
    | (show True
       trivial)
    | (show _ = _
       first
        | rfl
        | exact hk)

theorem subsystemrequest_standard (arg : CStr)
    (h1 : arg ≠ "-mwindows".toList) (h2 : arg ≠ "-mdll".toList)
    (h3 : arg ≠ "-mconsole".toList) : subsystemrequest arg = subsystem.standard := by
  unfold subsystemrequest
  rw [if_neg h1, if_neg h2, if_neg h3]

theorem modespec_of_keepsmode (st : parsestate) (arg : CStr) (r : round)
    (hreq : subsystemrequest arg = subsystem.standard) (h : keepsmode st r) :
    modespec st arg r := by
  cases r with
  | next st2 =>
    show _ = _
    rw [hreq]
    have h' : st2.cmdargs.usemingwlinker = st.cmdargs.usemingwlinker := h
    rw [h']
    split
    · assumption
    · rfl
  | skip st2 =>
    show _ = _
    rw [hreq]
    have h' : st2.cmdargs.usemingwlinker = st.cmdargs.usemingwlinker := h
    rw [h']
    split
    · assumption
    · rfl
  | stop status io => trivial

theorem parsearg_request (cfg : config) (w : world) (target : CStr) (env : List CStr)
    (arg : CStr) (nextarg : Option CStr) (st : parsestate)
    (harg : arg ∈ ["-mwindows".toList, "-mdll".toList, "-mconsole".toList]) :
    parsearg cfg w target env arg nextarg st
      = round.next
          (if st.cmdargs.usemingwlinker = subsystem.standard then
            { st with cmdargs := { st.cmdargs with usemingwlinker := subsystemrequest arg } }
          else st) := by
  simp only [List.mem_cons, List.mem_singleton, List.not_mem_nil, or_false] at harg
  by_cases hs : st.cmdargs.usemingwlinker = subsystem.standard
  · rw [if_pos hs]
    rcases harg with rfl | rfl | rfl <;>
      simp [parsearg, strcmp, hs, subsystemrequest]
  · rw [if_neg hs]
    rcases harg with rfl | rfl | rfl <;>
      simp [parsearg, strcmp, hs, parsecommand, strncmp, COMMANDPREFIX]

theorem parsearg_mode (cfg : config) (w : world) (target : CStr) (env : List CStr)
    (arg : CStr) (nextarg : Option CStr) (st : parsestate) :
    modespec st arg (parsearg cfg w target env arg nextarg st) := by
  by_cases harg : arg ∈ ["-mwindows".toList, "-mdll".toList, "-mconsole".toList]
  · rw [parsearg_request cfg w target env arg nextarg st harg]
    show _ = _
    split <;> rfl
  · simp only [List.mem_cons, List.mem_singleton, List.not_mem_nil, or_false, not_or] at harg
    obtain ⟨h1, h2, h3⟩ := harg
    exact modespec_of_keepsmode st arg _ (subsystemrequest_standard arg h1 h2 h3)
      (parsearg_keepsmode cfg w target env arg nextarg st h1 h2 h3)

theorem parseloop_mode (cfg : config) (w : world) (target : CStr) (env : List CStr) :
    ∀ (n : Nat) (l : List CStr) (st st2 : parsestate), l.length ≤ n →
      parseloop cfg w target env l st = result.ok st2 →
      st2.cmdargs.usemingwlinker
        = if st.cmdargs.usemingwlinker = subsystem.standard then firstsubsystem l
          else st.cmdargs.usemingwlinker := by
  intro n
  induction n with
  | zero =>
    intro l st st2 hl h
    have : l = [] := List.length_eq_zero.mp (Nat.le_zero.mp hl)
    subst this
    simp only [parseloop_nil, result.ok.injEq] at h
    subst h
    show _ = if _ then subsystem.standard else _
    split
    · assumption
    · rfl
  | succ n ih =>
    intro l st st2 hl h
    cases l with
    | nil =>
      simp only [parseloop_nil, result.ok.injEq] at h
      subst h
      show _ = if _ then subsystem.standard else _
      split
      · assumption
      · rfl
    | cons arg rest =>
      have hm := parsearg_mode cfg w target env arg rest.head? st
      have hr := parsearg_round cfg w target env arg rest.head? st
      have hlen : rest.length ≤ n := by simpa using hl
      rw [parseloop] at h
      cases hp : parsearg cfg w target env arg rest.head? st with
      | next st1 =>
        rw [hp] at h hm
        have hm' : st1.cmdargs.usemingwlinker
            = if st.cmdargs.usemingwlinker = subsystem.standard then subsystemrequest arg
              else st.cmdargs.usemingwlinker := hm
        have h2 := ih rest st1 st2 hlen h
        rw [h2, hm']
        by_cases hs : st.cmdargs.usemingwlinker = subsystem.standard
        · by_cases hq : subsystemrequest arg = subsystem.standard
          · simp [hs, hq, firstsubsystem]
          · simp [hs, hq, firstsubsystem]
        · simp [hs]
      | stop status io =>
        rw [hp] at h
        exact absurd h (by simp)
      | skip st1 =>
        rw [hp] at h hm hr
        have hm' : st1.cmdargs.usemingwlinker
            = if st.cmdargs.usemingwlinker = subsystem.standard then subsystemrequest arg
              else st.cmdargs.usemingwlinker := hm
        obtain ⟨_, hx, p, hnx, hlang⟩ := hr
        have hq : subsystemrequest arg = subsystem.standard := by rw [hx]; decide
        cases rest with
        | nil => simp at hnx
        | cons q rest2 =>
          simp only [List.head?_cons, Option.some.injEq] at hnx
          subst hnx
          have hq2 : subsystemrequest q = subsystem.standard := by
            simp only [languages, List.mem_cons, List.mem_singleton, List.not_mem_nil,
              or_false] at hlang
            rcases hlang with rfl | rfl | rfl | rfl <;> decide
          have hlen2 : rest2.length ≤ n := by
            simp only [List.length_cons] at hlen
            omega
          have h2 := ih rest2 st1 st2 hlen2 h
          rw [h2, hm']
          by_cases hs : st.cmdargs.usemingwlinker = subsystem.standard
          · simp [hs, hq, hq2, firstsubsystem]
          · simp [hs]

/-- C25: when the sweep of `parseargs` runs through the argument list from a
state whose subsystem mode is `standard`, the mode at its end is the one
requested by the first of the tokens "-mwindows", "-mdll", "-mconsole" in the
list, and `standard` when there is none; from a state whose mode is no longer
`standard` the mode stays as it is, so a later subsystem token changes nothing,
and so does every single round on such a token. -/
theorem parseloop_first_subsystem (cfg : config) (w : world) (target : CStr)
    (env : List CStr) (argv : List CStr) (st st2 : parsestate)
    (h : parseloop cfg w target env argv st = result.ok st2) :
    (st.cmdargs.usemingwlinker = subsystem.standard →
      st2.cmdargs.usemingwlinker = firstsubsystem argv)
    ∧ (st.cmdargs.usemingwlinker ≠ subsystem.standard →
      st2.cmdargs.usemingwlinker = st.cmdargs.usemingwlinker)
    ∧ (∀ tok nx, tok ∈ ["-mwindows".toList, "-mdll".toList, "-mconsole".toList] →
        st.cmdargs.usemingwlinker ≠ subsystem.standard →
        parsearg cfg w target env tok nx st = round.next st) := by
  have hm := parseloop_mode cfg w target env argv.length argv st st2 (le_refl _) h
  refine ⟨fun hs => ?_, fun hs => ?_, fun tok nx htok hs => ?_⟩
  · rw [hm, if_pos hs]
  · rw [hm, if_neg hs]
  · rw [parsearg_request cfg w target env tok nx st htok, if_neg hs]

theorem parseloop_first_subsystem_witness :
    ∃ st2, parseloop democonfig demoworld "i686-w64-mingw32".toList []
        ["w32-clang".toList, "-O2".toList, "-mdll".toList, "-mwindows".toList,
          "-mconsole".toList, "foo.c".toList] { cmdargs := {} } = result.ok st2
      ∧ st2.cmdargs.usemingwlinker = subsystem.dll
      ∧ firstsubsystem ["w32-clang".toList, "-O2".toList, "-mdll".toList,
          "-mwindows".toList, "-mconsole".toList, "foo.c".toList] = subsystem.dll :=
  ⟨_, rfl,
    ((parseloop_first_subsystem democonfig demoworld "i686-w64-mingw32".toList []
      ["w32-clang".toList, "-O2".toList, "-mdll".toList, "-mwindows".toList,
        "-mconsole".toList, "foo.c".toList] { cmdargs := {} } _ rfl).1 rfl).trans (by decide),
    by decide⟩

end Wclang

namespace Wclang

/-! ## The workaround define -/

/-- C28: the workaround define is pushed onto the C++ flags only, and `main`
emits the C flags in C mode: for the 64-bit target at "-O2" the run of
"x86_64-w64-mingw32-clang" hands the compiler a vector without
"-D__CRT__NO_INLINE", as a link step and as a compile step, while the run of
"x86_64-w64-mingw32-clang++" hands it the define; `crtworkaround` never
changes the C flags. -/
theorem crtworkaround_skips_c_mode :
    outcome.args? (main democonfig world64 demoenv 2
        ["x86_64-w64-mingw32-clang".toList, "-O2".toList, "foo.c".toList])
      = some ["/usr/bin/clang".toList, "-O2".toList, "foo.c".toList]
    ∧ (outcome.args? (main democonfig world64 demoenv 2
        ["x86_64-w64-mingw32-clang".toList, "-O2".toList, "-c".toList, "foo.c".toList])).map
          (fun cargs => decide ("-D__CRT__NO_INLINE".toList ∈ cargs)) = some false
    ∧ outcome.args? (main democonfig world64 demoenv 2
        ["x86_64-w64-mingw32-clang++".toList, "-O2".toList, "foo.cpp".toList])
      = some ["/usr/bin/clang++".toList, "-D__CRT__NO_INLINE".toList, "-O2".toList,
          "foo.cpp".toList]
    ∧ (∀ st : mainstate, (crtworkaround st).cflags = st.cmdargs.cflags)
    ∧ (∀ st : mainstate, st.targettype = TARGET_WIN64 → st.cmdargs.islinkstep = true →
        st.cmdargs.optimizationlevel ≥ optimize.LEVEL_1 →
        st.env "WCLANG_NO_CRT_INLINE_WORKAROUND".toList = none →
        (crtworkaround st).cxxflags = st.cmdargs.cxxflags ++ ["-D__CRT__NO_INLINE".toList]) := by
  refine ⟨by decide, by decide, by decide, ?_, ?_⟩
  · intro st
    unfold crtworkaround
    dsimp only
    split
    · split <;> rfl
    · rfl
  · intro st h1 h2 h3 h4
    have h4b := h4
    simp only [String.toList] at h4b
    unfold crtworkaround
    simp [h1, h2, h3, h4, h4b, unset_or_zero]

/-! ## The frame of the output name suffix -/

theorem strncmp_o_isPrefixOf (arg : CStr) :
    strncmp arg "-o".toList 2 = "-o".toList.isPrefixOf arg := by
  match arg with
  | [] => rfl
  | [a] =>
    by_cases ha : a = '-'
    · subst ha
      simp [strncmp, List.isPrefixOf]
    · have ha2 := Ne.symm ha
      simp [strncmp, List.isPrefixOf, ha, ha2]
  | a :: b :: t =>
    by_cases ha : a = '-'
    · subst ha
      by_cases hb : b = 'o'
      · subst hb
        simp [strncmp, List.isPrefixOf]
      · have hb2 := Ne.symm hb
        simp [strncmp, List.isPrefixOf, hb, hb2]
    · have e1 : (a == '-') = false := beq_false_of_ne ha
      have e2 : ('-' == a) = false := beq_false_of_ne (Ne.symm ha)
      simp [strncmp, List.isPrefixOf, e1, e2]

theorem appendexe_at_known (arg name : CStr) (rest : List CStr) (h : knownsuffix name) :
    appendexe_at arg name rest = none := by
  have key : ∀ suf : CStr, strrchr suf '.' = none → ('.' :: suf) <:+ name →
      strrchr name '.' = some ('.' :: suf) := by
    intro suf hs ⟨t, ht⟩
    rw [← ht]
    exact strrchr_append t suf '.' hs
  rcases h with h | h | h
  · have := key "exe".toList (by decide) h
    simp only [String.toList] at this
    simp [appendexe_at, this, strcmp]
  · have := key "dll".toList (by decide) h
    simp only [String.toList] at this
    simp [appendexe_at, this, strcmp]
  · have := key "S".toList (by decide) h
    simp only [String.toList] at this
    simp [appendexe_at, this, strcmp]

theorem appendexe_at_some (arg name : CStr) (rest : List CStr) (r : CStr × CStr)
    (h : appendexe_at arg name rest = some r) :
    r.1 = arg ++ ".exe".toList ∧ ¬ knownsuffix name ∧ "-c".toList ∉ rest := by
  refine ⟨?_, ?_, ?_⟩
  · unfold appendexe_at at h
    dsimp only at h
    split at h
    · exact absurd h (by simp)
    · split at h
      · exact absurd h (by simp)
      · simp only [Option.some.injEq] at h
        rw [← h]
  · intro hk
    rw [appendexe_at_known arg name rest hk] at h
    exact absurd h (by simp)
  · intro hc
    unfold appendexe_at at h
    dsimp only at h
    split at h
    · exact absurd h (by simp)
    · split at h
      · exact absurd h (by simp)
      · rename_i hany
        apply hany
        rw [List.any_eq_true]
        exact ⟨_, hc, by simp [strcmp]⟩

theorem appendexetooutputname_frame : ∀ args : List CStr,
    (appendexetooutputname args).1 = args
    ∨ ∃ idx name tok, firstoutput args = some (idx, name)
        ∧ args[idx]? = some tok
        ∧ (tok = name ∨ tok = "-o".toList ++ name)
        ∧ (appendexetooutputname args).1 = args.set idx (tok ++ ".exe".toList)
        ∧ "-c".toList ∉ args
        ∧ ¬ knownsuffix name := by
  intro args
  induction args with
  | nil => exact Or.inl rfl
  | cons arg rest ih =>
    by_cases ho : strncmp arg "-o".toList 2 = true
    · have hp : "-o".toList.isPrefixOf arg = true := by
        rw [← strncmp_o_isPrefixOf]; exact ho
      have hnc : arg ≠ "-c".toList := by
        intro e
        rw [e] at ho
        revert ho
        decide
      by_cases hn : isnul arg 2 = true
      · have harg : arg = "-o".toList := eq_of_strncmp_isnul arg '-' 'o' ho hn
        subst harg
        cases rest with
        | nil => exact Or.inl rfl
        | cons nxt rest2 =>
          by_cases hd : nxt.head? = some '-'
          · left
            simp only [appendexetooutputname]
            simp [hd, strncmp, isnul]
          · have hf : strncmp nxt "-o".toList 2 = false := strncmp_dash_o_of_head nxt hd
            have hnxc : nxt ≠ "-c".toList := by
              intro e
              rw [e] at hd
              exact hd rfl
            have hr : (appendexetooutputname ("-o".toList :: nxt :: rest2)).1
                = "-o".toList :: ((appendexe_at nxt nxt rest2).elim nxt Prod.fst) :: rest2 := by
              simp only [String.toList] at hf
              simp only [appendexetooutputname]
              rcases hq : appendexe_at nxt nxt rest2 with _ | ⟨r1, r2⟩ <;>
                simp [hd, hf, strncmp, isnul, hq]
            cases ha : appendexe_at nxt nxt rest2 with
            | none =>
              left
              rw [hr, ha]
              rfl
            | some r =>
              obtain ⟨h1, h2, h3⟩ := appendexe_at_some nxt nxt rest2 r ha
              right
              refine ⟨1, nxt, nxt, ?_, by simp, Or.inl rfl, ?_, ?_, h2⟩
              · simp [firstoutput, hd]
              · rw [hr, ha]
                obtain ⟨r1, r2⟩ := r
                simp only at h1
                subst h1
                rfl
              · intro hc
                rcases List.mem_cons.mp hc with e | hc
                · exact hnc e.symm
                · rcases List.mem_cons.mp hc with e | hc
                  · exact hnxc e.symm
                  · exact h3 hc
      · have hlen : 2 < arg.length := by
          simp only [isnul, decide_eq_true_eq, not_le] at hn
          exact hn
        have hne : arg ≠ "-o".toList := by
          intro e
          rw [e] at hlen
          simp at hlen
        have hr : (appendexetooutputname (arg :: rest)).1
            = ((appendexe_at arg (arg.drop 2) rest).elim arg Prod.fst) :: rest := by
          have ho' := ho
          simp only [String.toList] at ho'
          simp only [appendexetooutputname]
          rcases hq : appendexe_at arg (arg.drop 2) rest with _ | ⟨r1, r2⟩ <;>
            simp [ho', hn, hq]
        cases ha : appendexe_at arg (arg.drop 2) rest with
        | none =>
          left
          rw [hr, ha]
          rfl
        | some r =>
          obtain ⟨h1, h2, h3⟩ := appendexe_at_some arg (arg.drop 2) rest r ha
          right
          refine ⟨0, arg.drop 2, arg, ?_, by simp, Or.inr ?_, ?_, ?_, h2⟩
          · simp only [firstoutput, hp, if_true, hne, if_false]
          · obtain ⟨t, ht⟩ := List.isPrefixOf_iff_prefix.mp hp
            rw [← ht]
            rfl
          · rw [hr, ha]
            obtain ⟨r1, r2⟩ := r
            simp only at h1
            subst h1
            rfl
          · intro hc
            rcases List.mem_cons.mp hc with e | hc
            · exact hnc e.symm
            · exact h3 hc
    · have ho' : strncmp arg "-o".toList 2 = false := by simpa using ho
      have hp : "-o".toList.isPrefixOf arg = false := by
        rw [← strncmp_o_isPrefixOf]; exact ho'
      by_cases hcc : arg = "-c".toList
      · left
        subst hcc
        rfl
      · have hr : (appendexetooutputname (arg :: rest))
            = (arg :: (appendexetooutputname rest).1, (appendexetooutputname rest).2) := by
          have hcc' := hcc
          simp only [String.toList] at ho' hcc'
          simp only [appendexetooutputname]
          simp [ho', strcmp, hcc']
        rcases ih with ih | ⟨idx, name, tok, k1, k2, k3, k4, k5, k6⟩
        · left
          rw [hr, ih]
        · right
          refine ⟨idx + 1, name, tok, ?_, ?_, k3, ?_, ?_, k6⟩
          · simp only [firstoutput, hp, Bool.false_eq_true, if_false, k1, Option.map_some']
          · simpa using k2
          · rw [hr, k4]
            rfl
          · intro hc
            rcases List.mem_cons.mp hc with e | hc
            · exact hcc e.symm
            · exact k5 hc

theorem firstoutput_skip (rest : List CStr) (h : firstoutput rest = none) :
    ∀ pre : List CStr, (∀ t ∈ pre, ¬ "-o".toList <+: t) → firstoutput (pre ++ rest) = none := by
  intro pre
  induction pre with
  | nil => intro _; exact h
  | cons a as ih =>
    intro hpre
    have ha : "-o".toList.isPrefixOf a = false := by
      cases hh : "-o".toList.isPrefixOf a with
      | false => rfl
      | true =>
        exact absurd (List.isPrefixOf_iff_prefix.mp hh) (hpre a (List.mem_cons_self _ _))
    have ih2 := ih (fun t ht => hpre t (List.mem_cons_of_mem _ ht))
    show firstoutput (a :: (as ++ rest)) = none
    simp only [firstoutput, ha, Bool.false_eq_true, if_false, ih2, Option.map_none']

/-- C29: `appendexetooutputname` keeps the length of the vector and every
token but the one that holds the first output name, to which it can only
append ".exe"; it leaves the whole vector as it is when a "-c" token occurs in
it, when there is no first output name (no token begins with "-o", or a bare
"-o" comes last or before a token that begins with '-'), and when the first
output name ends in ".exe", ".dll" or ".S". -/
theorem appendexetooutputname_changes_one (args : List CStr) :
    (appendexetooutputname args).1.length = args.length
    ∧ (∀ i, (∀ name, firstoutput args ≠ some (i, name)) →
        (appendexetooutputname args).1[i]? = args[i]?)
    ∧ (∀ (i : Nat) (tok : CStr), args[i]? = some tok →
        (appendexetooutputname args).1[i]? = some tok
        ∨ (appendexetooutputname args).1[i]? = some (tok ++ ".exe".toList))
    ∧ ("-c".toList ∈ args → (appendexetooutputname args).1 = args)
    ∧ (firstoutput args = none → (appendexetooutputname args).1 = args)
    ∧ (∀ idx name, firstoutput args = some (idx, name) → knownsuffix name →
        (appendexetooutputname args).1 = args)
    ∧ (∀ pre nxt post, (∀ t ∈ pre, ¬ "-o".toList <+: t) →
        firstoutput (pre ++ ["-o".toList]) = none
        ∧ (nxt.head? = some '-' → firstoutput (pre ++ "-o".toList :: nxt :: post) = none))
    ∧ (∀ pre, (∀ t ∈ pre, ¬ "-o".toList <+: t) → firstoutput pre = none) := by
  have hf := appendexetooutputname_frame args
  refine ⟨?_, ?_, ?_, ?_, ?_, ?_, ?_, ?_⟩
  · rcases hf with hf | ⟨idx, name, tok, k1, k2, k3, k4, k5, k6⟩
    · rw [hf]
    · rw [k4, List.length_set]
  · intro i hi
    rcases hf with hf | ⟨idx, name, tok, k1, k2, k3, k4, k5, k6⟩
    · rw [hf]
    · have hne : idx ≠ i := by
        intro e
        subst e
        exact hi name k1
      rw [k4, List.getElem?_set_ne hne]
  · intro i tok hi
    rcases hf with hf | ⟨idx, name, tok2, k1, k2, k3, k4, k5, k6⟩
    · left
      rw [hf, hi]
    · by_cases e : idx = i
      · subst e
        right
        have ht : tok2 = tok := by
          rw [k2] at hi
          exact Option.some.inj hi
        subst ht
        have hlt : idx < args.length := by
          rcases Nat.lt_or_ge idx args.length with h | h
          · exact h
          · rw [List.getElem?_eq_none h] at k2
            exact absurd k2 (by simp)
        rw [k4]
        exact List.getElem?_set_self hlt
      · left
        rw [k4, List.getElem?_set_ne e, hi]
  · intro hc
    rcases hf with hf | ⟨idx, name, tok, k1, k2, k3, k4, k5, k6⟩
    · exact hf
    · exact absurd hc k5
  · intro hn
    rcases hf with hf | ⟨idx, name, tok, k1, k2, k3, k4, k5, k6⟩
    · exact hf
    · rw [hn] at k1
      exact absurd k1 (by simp)
  · intro idx name h hk
    rcases hf with hf | ⟨idx2, name2, tok, k1, k2, k3, k4, k5, k6⟩
    · exact hf
    · rw [h] at k1
      simp only [Option.some.injEq, Prod.mk.injEq] at k1
      rw [k1.2] at hk
      exact absurd hk k6
  · intro pre nxt post hpre
    refine ⟨firstoutput_skip ["-o".toList] (by rfl) pre hpre,
      fun hd => firstoutput_skip _ ?_ pre hpre⟩
    simp [firstoutput, hd]
  · intro pre hpre
    have := firstoutput_skip [] (by rfl) pre hpre
    rwa [List.append_nil] at this

end Wclang
